import Mathlib

/-!
Config Refinery: the concurrent verification pipeline

A shallow embedding of the Go packages `types`, `scanner` and `tester` and of
the helpers of `main.go` that the verified properties talk about.

* Go `int` is `Int`; durations and clock readings are `Nat` nanoseconds of the
  monotonic clock.
* Everything a function asks of the outside world (the network, the engine
  subprocess, the file system, the clock) is answered by an explicit
  environment record, so every function is a pure, executable Lean function.
* A function with side effects returns the ordered list of the effects it
  issued (its trace) next to its Go results.
* Goroutines are sequential programs with a program counter. A run of several
  goroutines is driven by a schedule `sched : Nat → Nat`: at step `k` the
  goroutines that can move are listed and `sched k` (modulo their number)
  picks the one that takes the step. Every interleaving of the goroutines is
  the run of some schedule, so a statement for all schedules is a statement
  for all interleavings. Channel operations block as in Go (a send on a full
  channel, a receive on an empty open channel, `wg.Wait()` on a non-zero
  counter cannot move); a send on a closed channel and a `wg.Done()` on a zero
  counter panic.
-/

namespace ConfigRefinery

/-! ## types/types.go -/

/-- The descriptor `types.Config`. -/
structure Config where
  Protocol : String
  Address : String
  Port : Int
  ID : String
  Remark : String
  Original : String
  Latency : Int
deriving DecidableEq

/-- A Go `error` value: its message and whether it reports a timeout
(`net.Error.Timeout()`); `Option GoError` is a possibly-nil `error`. -/
structure GoError where
  msg : String
  timeout : Bool
deriving DecidableEq

/-! ## tester/tester.go : sequential part -/

/-- The fields of `Tester`; `debugFile` is `true` when the handle is non-nil. -/
structure Tester where
  singBoxPath : String
  maxWorkers : Nat
  debugFile : Bool
deriving DecidableEq

/-- What `NewTester` asks of the file system: which paths `os.Stat` finds, the
path `filepath.Join(filepath.Dir(ex), "bin", "sing-box.exe")` when
`os.Executable` succeeds, and whether `os.Create` of the debug log succeeds. -/
structure FileSystem where
  stat : String → Bool
  besideExecutable : Option String
  createLog : Bool

/-- The loop of `NewTester` over `possiblePaths`: the first path that exists,
else the empty string. -/
def firstExisting (fs : FileSystem) : List String → String
  | [] => ""
  | path :: rest => if fs.stat path then path else firstExisting fs rest

/-- Function `NewTester`. -/
def NewTester (fs : FileSystem) : Except GoError Tester :=
  let found := firstExisting fs ["./bin/sing-box.exe", "./sing-box.exe", "sing-box.exe"]
  let singBoxPath :=
    if found = "" then
      match fs.besideExecutable with
      | some path => path
      | none => found
    else found
  if fs.stat singBoxPath then Except.ok ⟨singBoxPath, 20, fs.createLog⟩
  else Except.error ⟨"sing-box.exe not found", false⟩

/-- One line group of `output/debug_errors.log`, as `logError` formats it:
clock reading, `config.Address`, the error and the detail text. -/
structure LogEntry where
  time : Nat
  address : String
  err : GoError
  detail : String
deriving DecidableEq

/-- The side effects `MeasureLatency` can issue, in the order of the source. -/
inductive Effect where
  | writeTemp (name : String) (config : Config) (localPort : Int)
  | start
  | kill
  | log (e : LogEntry)
  | head (i : Nat)
  | closeBody
  | sleep (ns : Nat)
  | cancel
  | removeTemp (name : String)
deriving DecidableEq

/-- What `client.Head` gives back: a non-nil error, or a response with its
status code. -/
inductive HeadResult where
  | fail (e : GoError)
  | resp (status : Int)
deriving DecidableEq

/-- One HTTP probe attempt as the world answers it: the result of
`client.Head`, the time the call took and the time `resp.Body.Close` took. -/
structure HttpAttempt where
  result : HeadResult
  headNs : Nat
  closeNs : Nat

/-- One readiness poll of `waitForPort`: whether `net.DialTimeout` returned a
nil error, and how long the dial (and `conn.Close`) took. -/
structure Poll where
  ok : Bool
  ns : Nat

/-- Everything one call of `MeasureLatency` asks of the outside world. -/
structure ProbeEnv where
  now : Nat
  freePort : Except GoError Int
  createTemp : Except GoError String
  start : Option GoError
  poll : Nat → Poll
  stderr : String
  http : Nat → HttpAttempt
  killNs : Nat
  oversleep : Nat → Nat

/-- The two Go results of `MeasureLatency` and the effects it issued. -/
structure Outcome where
  latency : Int
  err : Option GoError
  trace : List Effect

/-- Constant `time.Millisecond` in nanoseconds. -/
def millisecond : Nat := 1000000

/-- Constant `time.Second` in nanoseconds. -/
def second : Nat := 1000 * millisecond

/-- Method `Duration.Milliseconds`: whole milliseconds, truncated. -/
def milliseconds (d : Nat) : Int := ((d / 1000000 : Nat) : Int)

/-- Method `Tester.logError`: writes one entry when the debug file is non-nil. -/
def logError (t : Tester) (config : Config) (err : GoError) (detail : String) (now : Nat) :
    List Effect :=
  if t.debugFile then [Effect.log ⟨now, config.Address, err, detail⟩] else []

/-- The loop of `Tester.waitForPort` from poll number `i` at clock `now`;
`fuel` bounds the number of iterations. -/
def waitForPortLoop (poll : Nat → Poll) (deadline : Nat) : Nat → Nat → Nat → Bool × Nat
  | 0, _, now => (false, now)
  | fuel + 1, i, now =>
    if now < deadline then
      if (poll i).ok then (true, now + (poll i).ns)
      else waitForPortLoop poll deadline fuel (i + 1) (now + (poll i).ns + 200 * millisecond)
    else (false, now)

/-- Method `Tester.waitForPort`: polls until a dial succeeds or the deadline
`now + timeout` has passed; every failed poll sleeps 200 ms, so
`timeout / 200ms + 1` iterations are enough. Returns the answer and the clock. -/
def waitForPort (poll : Nat → Poll) (timeout : Nat) (now : Nat) : Bool × Nat :=
  waitForPortLoop poll (now + timeout) (timeout / (200 * millisecond) + 1) 0 now

/-- The HTTP probe loop of `MeasureLatency` (`for i := 0; i < 2; i++`) together
with the code after it. `n` is the number of iterations left, `i` the loop
variable, `process` is `cmd.Process`, `lastErr` the variable of that name. -/
def probeLoop (t : Tester) (config : Config) (env : ProbeEnv) (process : Option Unit) :
    Nat → Nat → Nat → Option GoError → List Effect → Outcome
  | 0, _, now, lastErr, tr =>
    let tr1 := if process.isSome then tr ++ [Effect.kill] else tr
    let now1 := if process.isSome then now + env.killNs else now
    match lastErr with
    | some e => ⟨0, some ⟨"fail", false⟩, tr1 ++ logError t config e env.stderr now1⟩
    | none => ⟨0, some ⟨"fail", false⟩, tr1⟩
  | n + 1, i, now, _, tr =>
    let start := now
    let a := env.http i
    let now1 := now + a.headNs
    match a.result with
    | HeadResult.resp status =>
      let now2 := now1 + a.closeNs
      if status = 204 ∨ status = 200 then
        let tr1 := tr ++ [Effect.head i, Effect.closeBody]
        let tr2 := if process.isSome then tr1 ++ [Effect.kill] else tr1
        let now3 := if process.isSome then now2 + env.killNs else now2
        ⟨milliseconds (now3 - start), none, tr2⟩
      else
        let pause := 300 * millisecond + env.oversleep i
        probeLoop t config env process n (i + 1) (now2 + pause) none
          (tr ++ [Effect.head i, Effect.closeBody, Effect.sleep pause])
    | HeadResult.fail e =>
      let pause := 300 * millisecond + env.oversleep i
      probeLoop t config env process n (i + 1) (now1 + pause) (some e)
        (tr ++ [Effect.head i, Effect.sleep pause])

/-- Method `Tester.MeasureLatency`. The deferred calls (`cancel`, then
`os.Remove`) close the trace of every path that registered them. -/
def MeasureLatency (t : Tester) (config : Config) (env : ProbeEnv) : Outcome :=
  match env.freePort with
  | Except.error e => ⟨0, some e, []⟩
  | Except.ok localPort =>
    match env.createTemp with
    | Except.error e => ⟨0, some e, []⟩
    | Except.ok name =>
      let deferred := [Effect.cancel, Effect.removeTemp name]
      let tr0 := [Effect.writeTemp name config localPort]
      match env.start with
      | some e => ⟨0, some e, tr0 ++ deferred⟩
      | none =>
        let tr1 := tr0 ++ [Effect.start]
        let ready := waitForPort env.poll (8 * second) env.now
        if ready.1 = false then
          ⟨0, some ⟨"timeout", false⟩,
            tr1 ++ [Effect.kill]
              ++ logError t config ⟨"timeout port", false⟩ env.stderr (ready.2 + env.killNs)
              ++ deferred⟩
        else
          let r := probeLoop t config env (some ()) 2 0 ready.2 none tr1
          ⟨r.latency, r.err, r.trace ++ deferred⟩

/-- The entries a trace appends to the diagnostic log, in order. -/
def logged : List Effect → List LogEntry
  | [] => []
  | Effect.log e :: tr => e :: logged tr
  | _ :: tr => logged tr

/-- The loop indices of the `client.Head` calls of a trace, in order. -/
def headAttempts : List Effect → List Nat
  | [] => []
  | Effect.head i :: tr => i :: headAttempts tr
  | _ :: tr => headAttempts tr

/-- The time from the `start` reading of attempt `i` to the `time.Since`
reading of its success path: the `Head` call, closing the body, the kill. -/
def attemptNs (env : ProbeEnv) (i : Nat) : Nat :=
  (env.http i).headNs + (env.http i).closeNs + env.killNs

/-- Whether attempt `i` meets the success test of the source
(`err == nil` and status 204 or 200). -/
def attemptOk (env : ProbeEnv) (i : Nat) : Bool :=
  match (env.http i).result with
  | HeadResult.resp status => decide (status = 204 ∨ status = 200)
  | HeadResult.fail _ => false

/-- The condition under which `MeasureLatency` reaches its HTTP loop. -/
def reachesProbe (env : ProbeEnv) : Prop :=
  (∃ p, env.freePort = Except.ok p) ∧ (∃ n, env.createTemp = Except.ok n) ∧
    env.start = none ∧ (waitForPort env.poll (8 * second) env.now).1 = true

/-- The effects of attempt `i` when it does not meet the success test. -/
def failEffects (env : ProbeEnv) (i : Nat) : List Effect :=
  match (env.http i).result with
  | HeadResult.resp _ =>
    [Effect.head i, Effect.closeBody, Effect.sleep (300 * millisecond + env.oversleep i)]
  | HeadResult.fail _ => [Effect.head i, Effect.sleep (300 * millisecond + env.oversleep i)]

/-- The part of a log entry that does not depend on the clock. -/
def LogEntry.content (e : LogEntry) : String × GoError × String := (e.address, e.err, e.detail)

/-- The final filter of `performL7Testing` (`c.Latency > 0 && c.Latency < 3000`). -/
def keepValid (tested : List Config) : List Config :=
  tested.filter (fun c => decide (c.Latency > 0 ∧ c.Latency < 3000))

/-! ### Concrete inputs used to evaluate the definitions -/

/-- A file system that holds `./bin/sing-box.exe` and lets the log be created. -/
def fs0 : FileSystem := ⟨fun path => path == "./bin/sing-box.exe", none, true⟩

/-- The tester `NewTester` builds on `fs0`. -/
def tester0 : Tester := ⟨"./bin/sing-box.exe", 20, true⟩

/-- A vless descriptor. -/
def config0 : Config := ⟨"vless", "example.org", 443, "id-0", "first", "vless://id-0@example.org:443", 0⟩

/-- A world in which the engine is ready at the first poll and every probe is
answered `status` after `headNs` nanoseconds. -/
def envStatus (status : Int) (headNs : Nat) : ProbeEnv where
  now := 0
  freePort := Except.ok 40000
  createTemp := Except.ok "sb_1.json"
  start := none
  poll := fun _ => ⟨true, 1000⟩
  stderr := ""
  http := fun _ => ⟨HeadResult.resp status, headNs, 0⟩
  killNs := 0
  oversleep := fun _ => 0

/-- A world in which the first probe is reset, the second one answered 204. -/
def envRetry : ProbeEnv where
  now := 0
  freePort := Except.ok 40000
  createTemp := Except.ok "sb_1.json"
  start := none
  poll := fun _ => ⟨true, 1000⟩
  stderr := ""
  http := fun i =>
    if i = 0 then ⟨HeadResult.fail ⟨"connection reset", false⟩, 2000000000, 0⟩
    else ⟨HeadResult.resp 204, 7000000, 0⟩
  killNs := 0
  oversleep := fun _ => 0

/-- A world in which the first probe is reset and the second one answered 500. -/
def envResetThen500 : ProbeEnv where
  now := 0
  freePort := Except.ok 40000
  createTemp := Except.ok "sb_1.json"
  start := none
  poll := fun _ => ⟨true, 1000⟩
  stderr := "engine stderr"
  http := fun i =>
    if i = 0 then ⟨HeadResult.fail ⟨"connection reset", false⟩, 1000000, 0⟩
    else ⟨HeadResult.resp 500, 1000000, 0⟩
  killNs := 0
  oversleep := fun _ => 0

/-- A world in which both probes run into the request timeout of the client. -/
def envHttpTimeout : ProbeEnv where
  now := 0
  freePort := Except.ok 40000
  createTemp := Except.ok "sb_1.json"
  start := none
  poll := fun _ => ⟨true, 1000⟩
  stderr := "engine stderr"
  http := fun _ => ⟨HeadResult.fail ⟨"Client.Timeout exceeded", true⟩, 5 * second, 0⟩
  killNs := 0
  oversleep := fun _ => 0

/-- A world in which the engine never opens its local port. -/
def envNeverReady : ProbeEnv where
  now := 0
  freePort := Except.ok 40000
  createTemp := Except.ok "sb_1.json"
  start := none
  poll := fun _ => ⟨false, 200 * millisecond⟩
  stderr := "engine stderr"
  http := fun _ => ⟨HeadResult.resp 204, 5000000, 0⟩
  killNs := 0
  oversleep := fun _ => 0

/-! ## scanner/scanner.go -/

/-- The field of `Scanner`: the dial timeout in nanoseconds. -/
structure Scanner where
  Timeout : Nat

/-- What `net.DialTimeout` gives back: whether `err` is non-nil and whether
`conn` is non-nil. -/
structure DialResult where
  err : Bool
  conn : Bool

/-- Method `Scanner.isAlive`; the second component lists the addresses dialled. -/
def isAlive (s : Scanner) (config : Config) (dial : String → Nat → DialResult) :
    Bool × List String :=
  if config.Address = "" ∨ config.Port = 0 then (false, [])
  else
    let address := config.Address ++ ":" ++ toString config.Port
    let r := dial address s.Timeout
    if r.err then (false, [address])
    else if r.conn then (true, [address])
    else (false, [address])

/-- Program counter of one goroutine spawned by `ScanConfigs`: before
`semaphore <- struct{}{}`, before `s.isAlive(cfg)`, before `results <- cfg`,
before `<-semaphore`, before the deferred `wg.Done()`, finished. -/
inductive ScanPc where
  | acquire
  | check
  | send
  | release
  | finish
  | done
deriving DecidableEq

/-- One goroutine spawned by the loop of `ScanConfigs`: the index of the loop
iteration that spawned it, its argument `cfg` and its program counter. -/
structure ScanTask where
  idx : Nat
  cfg : Config
  pc : ScanPc

/-- Program counter of the goroutine that runs `ScanConfigs` itself: in the
spawning loop with the configs still to visit, in the collecting loop, returned. -/
inductive ScanMainPc where
  | spawn (rest : List Config)
  | collect
  | returned

/-- Program counter of the goroutine `wg.Wait(); close(results)`. -/
inductive CloserPc where
  | absent
  | waiting
  | done
deriving DecidableEq

/-- The shared state of one call of `ScanConfigs`. -/
structure ScanState where
  main : ScanMainPc
  tasks : List ScanTask
  closer : CloserPc
  wg : Nat
  sem : Nat
  results : List Config
  closed : Bool
  liveConfigs : List Config
  dials : List String
  panicked : Bool

/-- The goroutines of a `ScanConfigs` call. -/
inductive ScanGo where
  | main
  | closer
  | task (i : Nat)

/-- The network as `ScanConfigs` sees it: the answer to the dial of the
goroutine of loop iteration `i`. -/
abbrev Network := Nat → String → Nat → DialResult

/-- One atomic step of goroutine `g`; `none` when `g` is blocked or finished.
`cap` is the capacity of the `results` channel. -/
def scanStep (sc : Scanner) (net : Network) (cap : Nat) (g : ScanGo) (s : ScanState) :
    Option ScanState :=
  if s.panicked then none
  else
    match g with
    | ScanGo.main =>
      match s.main with
      | ScanMainPc.spawn (c :: rest) =>
        some { s with
          main := ScanMainPc.spawn rest
          wg := s.wg + 1
          tasks := s.tasks ++ [⟨s.tasks.length, c, ScanPc.acquire⟩] }
      | ScanMainPc.spawn [] => some { s with main := ScanMainPc.collect, closer := CloserPc.waiting }
      | ScanMainPc.collect =>
        match s.results with
        | c :: rs => some { s with results := rs, liveConfigs := s.liveConfigs ++ [c] }
        | [] => if s.closed then some { s with main := ScanMainPc.returned } else none
      | ScanMainPc.returned => none
    | ScanGo.closer =>
      match s.closer with
      | CloserPc.waiting =>
        if s.wg = 0 then some { s with closer := CloserPc.done, closed := true } else none
      | _ => none
    | ScanGo.task i =>
      match s.tasks[i]? with
      | none => none
      | some t =>
        match t.pc with
        | ScanPc.acquire =>
          if s.sem < 1000 then
            some { s with sem := s.sem + 1, tasks := s.tasks.set i { t with pc := ScanPc.check } }
          else none
        | ScanPc.check =>
          let r := isAlive sc t.cfg (net t.idx)
          some { s with
            dials := s.dials ++ r.2
            tasks := s.tasks.set i { t with pc := if r.1 then ScanPc.send else ScanPc.release } }
        | ScanPc.send =>
          if s.closed then some { s with panicked := true }
          else if s.results.length < cap then
            some { s with
              results := s.results ++ [t.cfg]
              tasks := s.tasks.set i { t with pc := ScanPc.release } }
          else none
        | ScanPc.release =>
          if 0 < s.sem then
            some { s with sem := s.sem - 1, tasks := s.tasks.set i { t with pc := ScanPc.finish } }
          else none
        | ScanPc.finish =>
          if 0 < s.wg then
            some { s with wg := s.wg - 1, tasks := s.tasks.set i { t with pc := ScanPc.done } }
          else some { s with panicked := true }
        | ScanPc.done => none

/-- All goroutines that exist in state `s`. -/
def scanGoroutines (s : ScanState) : List ScanGo :=
  ScanGo.main :: ScanGo.closer :: (List.range s.tasks.length).map ScanGo.task

/-- The goroutines that can take a step in state `s`. -/
def scanEnabled (sc : Scanner) (net : Network) (cap : Nat) (s : ScanState) : List ScanGo :=
  (scanGoroutines s).filter (fun g => (scanStep sc net cap g s).isSome)

/-- Runs the goroutines for at most `fuel` steps; step number `k` is taken by
the enabled goroutine that the schedule `sched` picks. Stops when no goroutine
can move. -/
def scanRun (sc : Scanner) (net : Network) (cap : Nat) (sched : Nat → Nat) :
    Nat → Nat → ScanState → ScanState
  | 0, _, s => s
  | fuel + 1, k, s =>
    match scanEnabled sc net cap s with
    | [] => s
    | g :: gs =>
      match scanStep sc net cap ((g :: gs).getD (sched k % (gs.length + 1)) g) s with
      | some s' => scanRun sc net cap sched fuel (k + 1) s'
      | none => s

/-- The state at the entry of `ScanConfigs`. -/
def scanInit (configs : List Config) : ScanState :=
  ⟨ScanMainPc.spawn configs, [], CloserPc.absent, 0, 0, [], false, [], [], false⟩

/-- A bound on the number of steps of a `ScanConfigs` call: seven for every
config (spawn, five steps of its goroutine, its collection) and three more. -/
def scanFuel (configs : List Config) : Nat := 7 * configs.length + 3

/-- The final state of a call of `ScanConfigs` under schedule `sched`. -/
def scanFinal (sc : Scanner) (configs : List Config) (net : Network) (sched : Nat → Nat) :
    ScanState :=
  scanRun sc net configs.length sched (scanFuel configs) 0 (scanInit configs)

/-- Method `Scanner.ScanConfigs` under schedule `sched`: the returned slice, or
`none` when the call does not return. -/
def ScanConfigs (sc : Scanner) (configs : List Config) (net : Network) (sched : Nat → Nat) :
    Option (List Config) :=
  match (scanFinal sc configs net sched).main with
  | ScanMainPc.returned => some (scanFinal sc configs net sched).liveConfigs
  | _ => none

/-- Whether the connect attempt for `config` in loop iteration `i` is made
and succeeds: host and port are present and the dial answers with a nil error
and a connection. -/
def connects (sc : Scanner) (net : Network) (i : Nat) (config : Config) : Bool :=
  decide (config.Address ≠ "" ∧ config.Port ≠ 0) &&
    (!(net i (config.Address ++ ":" ++ toString config.Port) sc.Timeout).err &&
      (net i (config.Address ++ ":" ++ toString config.Port) sc.Timeout).conn)

/-- The configs of `configs` whose connect attempt succeeds, in input order;
`i` is the loop index of the first one. -/
def connected (sc : Scanner) (net : Network) : Nat → List Config → List Config
  | _, [] => []
  | i, c :: cs =>
    if connects sc net i c then c :: connected sc net (i + 1) cs else connected sc net (i + 1) cs

/-- A scanner as `performTCPFiltering` configures it (2000 ms). -/
def scanner0 : Scanner := ⟨2000 * millisecond⟩

/-- A second descriptor, without a port. -/
def config1 : Config := ⟨"trojan", "no-port.example", 0, "pw", "second", "trojan://pw@no-port.example", 0⟩

/-- A third descriptor. -/
def config2 : Config := ⟨"vmess", "10.0.0.2", 8443, "id-2", "third", "vmess://...", 0⟩

/-- A network in which every dial succeeds. -/
def netUp : Network := fun _ _ _ => ⟨false, true⟩

/-- A network in which only the dial of loop iteration 2 succeeds. -/
def netThird : Network := fun i _ _ => ⟨decide (i ≠ 2), decide (i = 2)⟩


/-! ### Bookkeeping over the goroutines of a run -/

/-- The sum of the weight `f` over a list of goroutines. -/
def total {α M : Type} [AddCommMonoid M] (f : α → M) (l : List α) : M := (l.map f).sum

/-- Counts a goroutine of `ScanConfigs` that has not yet called `wg.Done`. -/
def ScanTask.live (t : ScanTask) : Nat :=
  match t.pc with
  | ScanPc.done => 0
  | _ => 1

/-- Counts a goroutine of `ScanConfigs` that holds a semaphore slot. -/
def ScanTask.holding (t : ScanTask) : Nat :=
  match t.pc with
  | ScanPc.check => 1
  | ScanPc.send => 1
  | ScanPc.release => 1
  | _ => 0

/-- Counts a goroutine of `ScanConfigs` that may still send a result. -/
def ScanTask.unsent (t : ScanTask) : Nat :=
  match t.pc with
  | ScanPc.acquire => 1
  | ScanPc.check => 1
  | ScanPc.send => 1
  | _ => 0

/-- The number of steps a goroutine of `ScanConfigs` can still cause,
counting the collection of the result it may send. -/
def ScanTask.weight (t : ScanTask) : Nat :=
  match t.pc with
  | ScanPc.acquire => 6
  | ScanPc.check => 5
  | ScanPc.send => 4
  | ScanPc.release => 2
  | ScanPc.finish => 1
  | ScanPc.done => 0

/-- The result a goroutine of `ScanConfigs` will still send. -/
def ScanTask.owed (sc : Scanner) (net : Network) (t : ScanTask) : Multiset Config :=
  match t.pc with
  | ScanPc.acquire => if connects sc net t.idx t.cfg then {t.cfg} else 0
  | ScanPc.check => if connects sc net t.idx t.cfg then {t.cfg} else 0
  | ScanPc.send => {t.cfg}
  | _ => 0

/-- The configs the spawning loop has not visited yet. -/
def ScanMainPc.pending : ScanMainPc → List Config
  | ScanMainPc.spawn rest => rest
  | _ => []

/-- The number of steps the main goroutine can still take on its own. -/
def ScanMainPc.weight : ScanMainPc → Nat
  | ScanMainPc.spawn rest => 2 + 7 * rest.length
  | ScanMainPc.collect => 1
  | ScanMainPc.returned => 0

/-- The number of steps the closing goroutine can still take. -/
def CloserPc.weight : CloserPc → Nat
  | CloserPc.done => 0
  | _ => 1

/-- The termination measure of a `ScanConfigs` run. -/
def scanMeasure (s : ScanState) : Nat :=
  s.main.weight + s.closer.weight + total ScanTask.weight s.tasks + s.results.length

/-- The invariant of a `ScanConfigs` run: the wait group counts the unfinished
goroutines, the semaphore the goroutines between acquire and release, the
results channel has room for every result still to come, the channel is closed
only by the closing goroutine and only after every goroutine finished, and
what was collected, what is in the channel and what is still owed make up
exactly the configs that connect. -/
structure ScanInv (sc : Scanner) (net : Network) (cap : Nat) (target : Multiset Config)
    (s : ScanState) : Prop where
  wg_eq : s.wg = total ScanTask.live s.tasks
  sem_eq : s.sem = total ScanTask.holding s.tasks
  cap_ok : s.results.length + total ScanTask.unsent s.tasks + s.main.pending.length ≤ cap
  absent_iff : s.closer = CloserPc.absent ↔ ∃ rest, s.main = ScanMainPc.spawn rest
  closed_iff : s.closed = true ↔ s.closer = CloserPc.done
  done_wg : s.closer = CloserPc.done → s.wg = 0
  ret : s.main = ScanMainPc.returned → s.closed = true ∧ s.results = []
  calm : s.panicked = false
  owe : (s.liveConfigs : Multiset Config) + (s.results : Multiset Config)
      + total (ScanTask.owed sc net) s.tasks
      + (connected sc net s.tasks.length s.main.pending : Multiset Config) = target


/-! ## tester/tester.go : TestConfigs -/

/-- Program counter of one worker goroutine of `TestConfigs`: at
`for config := range jobs`, before `semaphore <- struct{}{}`, inside
`t.MeasureLatency(config)`, before `results <- config` (with the latency
already set), before `notify <- 1`, before `<-semaphore`, before the deferred
`wg.Done()`, finished. -/
inductive WorkerPc where
  | recv
  | acquire (c : Config)
  | measure (c : Config)
  | send (c : Config)
  | notify
  | release
  | finish
  | done

/-- Program counter of the goroutine that runs `TestConfigs` itself: before
starting the closing goroutine, in the loop that starts the workers (with the
loop variable), collecting the results, returned. -/
inductive TestMainPc where
  | spawnCloser
  | spawnWorkers (i : Nat)
  | collect
  | returned

/-- Program counter of the goroutine that fills `jobs`: not started, sending
the configs still to send, finished (after `close(jobs)`). -/
inductive FeederPc where
  | absent
  | feeding (rest : List Config)
  | done

/-- The shared state of one call of `TestConfigs`. `calls` lists the
`MeasureLatency` calls made so far (the argument and the number of the step
that ran the call), `log` is the content of the debug file, `early` records that the closing goroutine passed
`wg.Wait()` before any worker was added to the wait group. -/
structure TestState where
  main : TestMainPc
  closer : CloserPc
  feeder : FeederPc
  workers : List WorkerPc
  wg : Nat
  sem : Nat
  jobs : List Config
  jobsClosed : Bool
  results : List Config
  closed : Bool
  final : List Config
  calls : List (Config × Nat)
  log : List LogEntry
  debugClosed : Bool
  notified : Nat
  early : Bool
  panicked : Bool

/-- The goroutines of a `TestConfigs` call. -/
inductive TestGo where
  | main
  | closer
  | feeder
  | worker (i : Nat)

/-- The assignment of the worker loop body: `config.Latency = 9999` when
`MeasureLatency` returned an error, else `config.Latency = latency`. -/
def setLatency (config : Config) (o : Outcome) : Config :=
  match o.err with
  | some _ => { config with Latency := 9999 }
  | none => { config with Latency := o.latency }

/-- One atomic step of goroutine `g` of `TestConfigs`; `none` when `g` is
blocked or finished. `k` is the number of the step and `world k` the world it
meets if it runs `MeasureLatency`; `notify` tells whether the progress channel
is non-nil (its receiver is taken to be always ready, as the one of
`performL7Testing` is). -/
def testStep (t : Tester) (configs : List Config) (notify : Bool) (world : Nat → ProbeEnv)
    (k : Nat) (g : TestGo) (s : TestState) : Option TestState :=
  if s.panicked then none
  else
    match g with
    | TestGo.main =>
      match s.main with
      | TestMainPc.spawnCloser =>
        some { s with main := TestMainPc.spawnWorkers 0, closer := CloserPc.waiting }
      | TestMainPc.spawnWorkers i =>
        if i < t.maxWorkers then
          some { s with
            main := TestMainPc.spawnWorkers (i + 1)
            wg := s.wg + 1
            workers := s.workers ++ [WorkerPc.recv] }
        else some { s with main := TestMainPc.collect, feeder := FeederPc.feeding configs }
      | TestMainPc.collect =>
        match s.results with
        | c :: rs => some { s with results := rs, final := s.final ++ [c] }
        | [] => if s.closed then some { s with main := TestMainPc.returned } else none
      | TestMainPc.returned => none
    | TestGo.closer =>
      match s.closer with
      | CloserPc.waiting =>
        if s.wg = 0 then
          some { s with
            closer := CloserPc.done
            closed := true
            debugClosed := s.debugClosed || t.debugFile
            early := s.early || s.workers.isEmpty }
        else none
      | _ => none
    | TestGo.feeder =>
      match s.feeder with
      | FeederPc.feeding (c :: rest) =>
        if s.jobs.length < configs.length then
          some { s with feeder := FeederPc.feeding rest, jobs := s.jobs ++ [c] }
        else none
      | FeederPc.feeding [] => some { s with feeder := FeederPc.done, jobsClosed := true }
      | _ => none
    | TestGo.worker i =>
      match s.workers[i]? with
      | none => none
      | some pc =>
        match pc with
        | WorkerPc.recv =>
          match s.jobs with
          | c :: js => some { s with jobs := js, workers := s.workers.set i (WorkerPc.acquire c) }
          | [] =>
            if s.jobsClosed then some { s with workers := s.workers.set i WorkerPc.finish }
            else none
        | WorkerPc.acquire c =>
          if s.sem < t.maxWorkers then
            some { s with sem := s.sem + 1, workers := s.workers.set i (WorkerPc.measure c) }
          else none
        | WorkerPc.measure c =>
          let o := MeasureLatency t c (world k)
          some { s with
            calls := s.calls ++ [(c, k)]
            log := if s.debugClosed then s.log else s.log ++ logged o.trace
            workers := s.workers.set i (WorkerPc.send (setLatency c o)) }
        | WorkerPc.send c =>
          if s.closed then some { s with panicked := true }
          else if s.results.length < configs.length then
            some { s with
              results := s.results ++ [c]
              workers := s.workers.set i (if notify then WorkerPc.notify else WorkerPc.release) }
          else none
        | WorkerPc.notify =>
          some { s with notified := s.notified + 1, workers := s.workers.set i WorkerPc.release }
        | WorkerPc.release =>
          if 0 < s.sem then
            some { s with sem := s.sem - 1, workers := s.workers.set i WorkerPc.recv }
          else none
        | WorkerPc.finish =>
          if 0 < s.wg then
            some { s with wg := s.wg - 1, workers := s.workers.set i WorkerPc.done }
          else some { s with panicked := true }
        | WorkerPc.done => none

/-- All goroutines that exist in state `s`. -/
def testGoroutines (s : TestState) : List TestGo :=
  TestGo.main :: TestGo.closer :: TestGo.feeder ::
    (List.range s.workers.length).map TestGo.worker

/-- The goroutines that can take a step in state `s`. -/
def testEnabled (t : Tester) (configs : List Config) (notify : Bool) (world : Nat → ProbeEnv)
    (k : Nat) (s : TestState) : List TestGo :=
  (testGoroutines s).filter (fun g => (testStep t configs notify world k g s).isSome)

/-- Runs the goroutines of `TestConfigs` for at most `fuel` steps; step number
`k` is taken by the enabled goroutine that `sched` picks and meets the world
`world k`. Stops when no goroutine can move. -/
def testRun (t : Tester) (configs : List Config) (notify : Bool) (world : Nat → ProbeEnv)
    (sched : Nat → Nat) : Nat → Nat → TestState → TestState
  | 0, _, s => s
  | fuel + 1, k, s =>
    match testEnabled t configs notify world k s with
    | [] => s
    | g :: gs =>
      match testStep t configs notify world k
          ((g :: gs).getD (sched k % (gs.length + 1)) g) s with
      | some s' => testRun t configs notify world sched fuel (k + 1) s'
      | none => s

/-- The state of `TestConfigs` after the channels were made. -/
def testInit : TestState :=
  ⟨TestMainPc.spawnCloser, CloserPc.absent, FeederPc.absent, [], 0, 0, [], false, [], false,
    [], [], [], false, 0, false, false⟩

/-- A bound on the number of steps of a `TestConfigs` call: eight for every
config, three for every worker and five more. -/
def testFuel (t : Tester) (configs : List Config) : Nat :=
  8 * configs.length + 3 * t.maxWorkers + 5

/-- The final state of a call of `TestConfigs` with a non-empty input. -/
def testFinal (t : Tester) (configs : List Config) (notify : Bool) (world : Nat → ProbeEnv)
    (sched : Nat → Nat) : TestState :=
  testRun t configs notify world sched (testFuel t configs) 0 testInit

/-- Method `Tester.TestConfigs` under schedule `sched`: the returned slice, or
`none` when the call does not return. -/
def TestConfigs (t : Tester) (configs : List Config) (notify : Bool) (world : Nat → ProbeEnv)
    (sched : Nat → Nat) : Option (List Config) :=
  if configs.length = 0 then some configs
  else
    match (testFinal t configs notify world sched).main with
    | TestMainPc.returned => some (testFinal t configs notify world sched).final
    | _ => none

/-- A descriptor with its latency field erased. -/
def eraseLatency (c : Config) : Config := { c with Latency := 0 }

/-- A schedule that lets the closing goroutine run as soon as it exists and
the main goroutine whenever it can move. -/
def schedCloserFirst : Nat → Nat := fun k => if k = 1 then 1 else 0

/-- A schedule that always picks the first goroutine that can move. -/
def schedFirst : Nat → Nat := fun _ => 0

/-- A tester with two workers. -/
def tester2 : Tester := ⟨"./bin/sing-box.exe", 2, true⟩


/-- The descriptor a recorded `MeasureLatency` call puts on `results`. -/
def resultOf (t : Tester) (world : Nat → ProbeEnv) (call : Config × Nat) : Config :=
  setLatency call.1 (MeasureLatency t call.1 (world call.2))

/-- Counts a worker that has not yet called `wg.Done`. -/
def WorkerPc.live : WorkerPc → Nat
  | WorkerPc.done => 0
  | _ => 1

/-- Counts a worker that holds a semaphore slot. -/
def WorkerPc.holding : WorkerPc → Nat
  | WorkerPc.measure _ => 1
  | WorkerPc.send _ => 1
  | WorkerPc.notify => 1
  | WorkerPc.release => 1
  | _ => 0

/-- Counts a worker that waits for a semaphore slot. -/
def WorkerPc.acquiring : WorkerPc → Nat
  | WorkerPc.acquire _ => 1
  | _ => 0

/-- Counts a worker that took a job and has not yet sent its result. -/
def WorkerPc.inflight : WorkerPc → Nat
  | WorkerPc.acquire _ => 1
  | WorkerPc.measure _ => 1
  | WorkerPc.send _ => 1
  | _ => 0

/-- Counts a worker that has left its loop. -/
def WorkerPc.exited : WorkerPc → Nat
  | WorkerPc.finish => 1
  | WorkerPc.done => 1
  | _ => 0

/-- The number of steps a worker can still cause without taking a new job,
counting the collection of the result it is about to send. -/
def WorkerPc.weight : WorkerPc → Nat
  | WorkerPc.recv => 2
  | WorkerPc.acquire _ => 8
  | WorkerPc.measure _ => 7
  | WorkerPc.send _ => 6
  | WorkerPc.notify => 4
  | WorkerPc.release => 3
  | WorkerPc.finish => 1
  | WorkerPc.done => 0

/-- The result a worker is about to send. -/
def WorkerPc.sending : WorkerPc → Multiset Config
  | WorkerPc.send c => {c}
  | _ => 0

/-- The job a worker holds for which `MeasureLatency` has not run yet. -/
def WorkerPc.uncalled : WorkerPc → Multiset Config
  | WorkerPc.acquire c => {c}
  | WorkerPc.measure c => {c}
  | _ => 0

/-- The configs the feeding goroutine has still to send. -/
def FeederPc.rest (configs : List Config) : FeederPc → List Config
  | FeederPc.absent => configs
  | FeederPc.feeding rest => rest
  | FeederPc.done => []

/-- The number of steps the feeding goroutine can still cause. -/
def FeederPc.weight : FeederPc → Nat
  | FeederPc.absent => 0
  | FeederPc.feeding rest => 1 + 8 * rest.length
  | FeederPc.done => 0

/-- Whether the main goroutine has not yet started the feeding goroutine. -/
def TestMainPc.spawning : TestMainPc → Bool
  | TestMainPc.spawnCloser => true
  | TestMainPc.spawnWorkers _ => true
  | _ => false

/-- The number of workers the main goroutine has started. -/
def TestMainPc.spawned (t : Tester) : TestMainPc → Nat
  | TestMainPc.spawnCloser => 0
  | TestMainPc.spawnWorkers i => i
  | _ => t.maxWorkers

/-- The number of steps the main goroutine can still cause on its own,
counting those of the goroutines it has still to start. -/
def TestMainPc.weight (t : Tester) (n : Nat) : TestMainPc → Nat
  | TestMainPc.spawnCloser => 3 * t.maxWorkers + 8 * n + 4
  | TestMainPc.spawnWorkers i => 3 * (t.maxWorkers - i) + 8 * n + 3
  | TestMainPc.collect => 1
  | TestMainPc.returned => 0

/-- The termination measure of a `TestConfigs` run. -/
def testMeasure (t : Tester) (n : Nat) (s : TestState) : Nat :=
  s.main.weight t n + s.closer.weight + s.feeder.weight + total WorkerPc.weight s.workers
    + 7 * s.jobs.length + s.results.length

/-- The invariant of a `TestConfigs` run in which the closing goroutine did
not pass `wg.Wait()` before the first `wg.Add(1)`. -/
structure TestInv (t : Tester) (configs : List Config) (world : Nat → ProbeEnv)
    (s : TestState) : Prop where
  timely : s.early = false
  calm : s.panicked = false
  wg_eq : s.wg = total WorkerPc.live s.workers
  sem_eq : s.sem = total WorkerPc.holding s.workers
  room : s.results.length + total WorkerPc.inflight s.workers + s.jobs.length
      + (s.feeder.rest configs).length ≤ configs.length
  len_eq : s.workers.length = s.main.spawned t
  len_le : s.workers.length ≤ t.maxWorkers
  feeder_absent : s.feeder = FeederPc.absent ↔ s.main.spawning = true
  closer_absent : s.closer = CloserPc.absent ↔ s.main = TestMainPc.spawnCloser
  jobs_closed : s.jobsClosed = true ↔ s.feeder = FeederPc.done
  exited : 0 < total WorkerPc.exited s.workers → s.jobsClosed = true ∧ s.jobs = []
  closed_iff : s.closed = true ↔ s.closer = CloserPc.done
  done_all : s.closer = CloserPc.done →
    s.wg = 0 ∧ s.jobsClosed = true ∧ s.jobs = [] ∧ s.main.spawning = false
  ret : s.main = TestMainPc.returned → s.closed = true ∧ s.results = []
  res : (s.final : Multiset Config) + (s.results : Multiset Config)
      + total WorkerPc.sending s.workers = ((s.calls.map (resultOf t world) : List Config) : Multiset Config)
  inp : ((s.calls.map Prod.fst : List Config) : Multiset Config) + total WorkerPc.uncalled s.workers
      + (s.jobs : Multiset Config) + (s.feeder.rest configs : Multiset Config)
      = (configs : Multiset Config)


/-- A schedule that lets the main goroutine run first and then rotates among
the goroutines that can move. -/
def schedBoth : Nat → Nat := fun k => if k < 7 then 0 else k

/-! ### Calls in progress -/

/-- Counts a worker that is inside its call of `MeasureLatency` (it holds a
semaphore slot and the call has not returned). -/
def WorkerPc.measuring : WorkerPc → Nat
  | WorkerPc.measure _ => 1
  | _ => 0

/-- The number of `MeasureLatency` calls in progress in state `s`. -/
def inProgress (s : TestState) : Nat := total WorkerPc.measuring s.workers

/-- What holds of the worker pool in every state of every run of `TestConfigs`,
early close or not: the main goroutine has started as many workers as its
loop variable says, and never more than `maxWorkers`. -/
structure PoolInv (t : Tester) (s : TestState) : Prop where
  len_le : s.workers.length ≤ t.maxWorkers
  len_loop : ∀ i, s.main = TestMainPc.spawnWorkers i → s.workers.length = i
  len_start : s.main = TestMainPc.spawnCloser → s.workers.length = 0


/-! ## parser/parser.go : the shadowsocks families -/

/-- Method `Parser.parseShadowsocks`: a placeholder descriptor that keeps the
link, and a nil error. -/
def parseShadowsocks (link : String) : Except GoError Config :=
  Except.ok ⟨"shadowsocks", "127.0.0.1", 0, "", "", link, 0⟩

/-- Method `Parser.parseShadowsocksr`: a placeholder descriptor that keeps the
link, and a nil error. -/
def parseShadowsocksr (link : String) : Except GoError Config :=
  Except.ok ⟨"shadowsocksr", "127.0.0.1", 0, "", "", link, 0⟩

/-- A shadowsocks link in the SIP002 form: the user info is the unpadded
base64 text of `aes-256-gcm:pw`. -/
def linkSs : String := "ss://YWVzLTI1Ni1nY206cHc@1.2.3.4:8388"

/-- The descriptor the parser makes of `linkSs`. -/
def configSs : Config := ⟨"shadowsocks", "127.0.0.1", 0, "", "", linkSs, 0⟩

/-! ## main.go : from the L4 scan to the L7 test -/

/-- Function `NewScanner`: the default timeout is 800 ms. -/
def NewScanner : Scanner := ⟨800 * millisecond⟩

/-- Function `performTCPFiltering`: a new scanner with the timeout set to
2000 ms scans the configs. -/
def performTCPFiltering (configs : List Config) (net : Network) (sched : Nat → Nat) :
    Option (List Config) :=
  ScanConfigs { NewScanner with Timeout := 2000 * millisecond } configs net sched

/-- Lines 84 to 99 of `main`: the list handed to `performL7Testing`, and by it
to `TestConfigs`; `none` when the scan does not return or `main` exits because
no config is live. -/
def l7Input (configsToTest : List Config) (net : Network) (sched : Nat → Nat) :
    Option (List Config) :=
  match performTCPFiltering configsToTest net sched with
  | none => none
  | some liveConfigs => if liveConfigs.length = 0 then none else some liveConfigs


/-! ## dedup/dedup.go -/

/-- The key string of `generateHash`:
`fmt.Sprintf("%s|%s|%d|%s", Protocol, Address, Port, ID)`. -/
def hashKey (config : Config) : String :=
  config.Protocol ++ "|" ++ config.Address ++ "|" ++ toString config.Port ++ "|" ++ config.ID

/-- Method `Deduplicator.generateHash`; `sha` stands for the library step
`fmt.Sprintf("%x", sha256.Sum256([]byte(key)))`. -/
def generateHash (sha : String → String) (config : Config) : String :=
  sha (hashKey config)

/-- The loop of `Deduplicate`: `seen` lists the keys of the map `seen`,
`uniqueConfigs` is the slice of that name. -/
def dedupLoop (sha : String → String) : List String → List Config → List Config → List Config
  | _, uniqueConfigs, [] => uniqueConfigs
  | seen, uniqueConfigs, config :: rest =>
    if generateHash sha config ∈ seen then dedupLoop sha seen uniqueConfigs rest
    else dedupLoop sha (generateHash sha config :: seen) (uniqueConfigs ++ [config]) rest

/-- Method `Deduplicator.Deduplicate`. -/
def Deduplicate (sha : String → String) (configs : List Config) : List Config :=
  dedupLoop sha [] [] configs

/-- The identity tuple of a descriptor: protocol, host, port, credential. -/
def identity (c : Config) : String × String × Int × String :=
  (c.Protocol, c.Address, c.Port, c.ID)

/-- The order-preserving subsequence of `cs` that keeps a descriptor exactly
when no descriptor before it (in `earlier` or in `cs`) has the same image
under `f`. -/
def firstBy {κ : Type} [DecidableEq κ] (f : Config → κ) : List Config → List Config → List Config
  | _, [] => []
  | earlier, c :: cs =>
    if earlier.any (fun e => decide (f e = f c)) then firstBy f (earlier ++ [c]) cs
    else c :: firstBy f (earlier ++ [c]) cs

/-- A vmess descriptor with a bar in its address. -/
def configBarA : Config := ⟨"vmess", "h|1|x", 2, "y", "a", "vmess://a", 0⟩

/-- A vmess descriptor with a bar in its identifier. -/
def configBarB : Config := ⟨"vmess", "h", 1, "x|2|y", "b", "vmess://b", 0⟩


/-! ## main.go : sortAndWriteOutput -/

/-- What `sort.Slice` asks of its `less` function: a strict weak ordering. -/
def StrictWeak (less : Config → Config → Bool) : Prop :=
  (∀ a, less a a = false) ∧
  (∀ a b c, less a b = true → less b c = true → less a c = true) ∧
  (∀ a b c, less a b = false → less b c = false → less a c = false)

/-- The type of the library function `sort.Slice` on a slice of descriptors:
the `less` function and the slice go in, the rearranged slice comes out. -/
abbrev SliceSort := (Config → Config → Bool) → List Config → List Config

/-- What the documentation of `sort.Slice` promises of an implementation: the
slice is rearranged, and for a strict weak ordering no element is `less` than
an element before it. "The sort is not guaranteed to be stable." -/
def SliceContract (sort : SliceSort) : Prop :=
  (∀ less l, (sort less l).Perm l) ∧
  (∀ less l, StrictWeak less → (sort less l).Pairwise (fun a b => less b a = false))

/-- The closure passed to `sort.Slice`: `configs[i].Latency < configs[j].Latency`. -/
def lessLatency (a b : Config) : Bool := decide (a.Latency < b.Latency)

/-- Function `sortAndWriteOutput`: the slice as the in-place sort leaves it,
and the lines written to the export file. -/
def sortAndWriteOutput (sort : SliceSort) (configs : List Config) (baseName : String) :
    List Config × List String :=
  let sorted := sort lessLatency configs
  (sorted,
    ["// Config Refinery Export | " ++ baseName,
      "// Count: " ++ toString sorted.length ++ " | Sorted by Latency", ""]
      ++ sorted.map (fun c => "[" ++ toString c.Latency ++ "ms] " ++ c.Original))

/-- Whether `output` keeps the input order among descriptors of equal
latency: for every latency the descriptors with it come in the same order. -/
def keepsEqualOrder (input output : List Config) : Prop :=
  ∀ latency : Int, output.filter (fun c => decide (c.Latency = latency))
    = input.filter (fun c => decide (c.Latency = latency))

/-- One step of the insertion sort of package `sort` on the sorted prefix held
in reverse: `x` moves left past every element it is less than. -/
def insertLeft (less : Config → Config → Bool) (x : Config) : List Config → List Config
  | [] => [x]
  | y :: ys => if less x y then y :: insertLeft less x ys else x :: y :: ys

/-- The insertion sort of package `sort`
(`for j := i; j > a && less(data[j], data[j-1]); j--`). -/
def insertionSortGo (less : Config → Config → Bool) (l : List Config) : List Config :=
  (l.foldl (fun acc x => insertLeft less x acc) []).reverse

/-- The compare-and-swap of the elements six places apart, on the first six
elements `xs` and the elements `ys` after them. -/
def shellPairs (less : Config → Config → Bool) : List Config → List Config →
    List Config × List Config
  | x :: xs, y :: ys =>
    if less y x then (y :: (shellPairs less xs ys).1, x :: (shellPairs less xs ys).2)
    else (x :: (shellPairs less xs ys).1, y :: (shellPairs less xs ys).2)
  | xs, ys => (xs, ys)

/-- The shell pass with gap 6 of `quickSort_func` on a slice of at most
twelve elements (`for i := a + 6; i < b; i++`). -/
def shellPass (less : Config → Config → Bool) (l : List Config) : List Config :=
  (shellPairs less (l.take 6) (l.drop 6)).1 ++ (shellPairs less (l.take 6) (l.drop 6)).2

/-- An implementation of `sort.Slice`: for slices of at most twelve elements
the one of the Go releases up to 1.18 (one shell pass with gap 6, then
insertion sort); longer slices, which those releases sort by quicksort, are
sorted by the insertion sort alone, which meets the same contract. -/
def sortGo118 (less : Config → Config → Bool) (l : List Config) : List Config :=
  insertionSortGo less (if l.length ≤ 12 then shellPass less l else l)

/-- A descriptor named `name` with latency `latency`. -/
def latencyConfig (name : String) (latency : Int) : Config :=
  ⟨"vless", "example.org", 443, name, name, "vless://" ++ name ++ "@example.org:443", latency⟩

/-- Seven tested descriptors; `b` and `g` have latency 3. -/
def tested7 : List Config :=
  [latencyConfig "a" 5, latencyConfig "b" 3, latencyConfig "c" 9, latencyConfig "d" 9,
    latencyConfig "e" 9, latencyConfig "f" 9, latencyConfig "g" 3]


/-- The insertion sort alone: what `sort.Slice` runs on slices of at most
twelve elements since Go 1.19. -/
def sortGo119 (less : Config → Config → Bool) (l : List Config) : List Config :=
  insertionSortGo less l


/-! ## Go strings as byte sequences, packages `strings` and `encoding/base64` -/

/-- A Go string: the sequence of its bytes (each below 256). -/
abbrev Bytes := List Nat

/-- The UTF-8 bytes of one character. -/
def utf8Char (c : Char) : Bytes :=
  if c.toNat < 128 then [c.toNat]
  else if c.toNat < 2048 then [192 + c.toNat / 64, 128 + c.toNat % 64]
  else if c.toNat < 65536 then
    [224 + c.toNat / 4096, 128 + c.toNat / 64 % 64, 128 + c.toNat % 64]
  else
    [240 + c.toNat / 262144, 128 + c.toNat / 4096 % 64, 128 + c.toNat / 64 % 64,
      128 + c.toNat % 64]

/-- The bytes of a string of this development, as Go holds it. -/
def goBytes (s : String) : Bytes := (s.data.map utf8Char).flatten

/-- Function `strings.Index` for a non-empty `sep`: the index of the first
occurrence of `sep` in `s`, or `none` (Go: -1). -/
def Index (sep : Bytes) : Bytes → Option Nat
  | [] => none
  | c :: cs => if sep.isPrefixOf (c :: cs) then some 0 else (Index sep cs).map (· + 1)

/-- The loop of `strings.Split` (`genSplit`): cut at the first occurrence of
`sep`, go on behind it; `fuel` bounds the number of cuts. -/
def splitLoop (sep : Bytes) : Nat → Bytes → List Bytes
  | 0, s => [s]
  | fuel + 1, s =>
    match Index sep s with
    | none => [s]
    | some m => s.take m :: splitLoop sep fuel (s.drop (m + sep.length))

/-- Function `strings.Split` for a non-empty `sep`; a string of length `n`
holds at most `n` occurrences that do not overlap. -/
def Split (s sep : Bytes) : List Bytes := splitLoop sep s.length s

/-- The alphabet of `base64.StdEncoding`. -/
def stdAlphabet : Bytes :=
  goBytes "ABCDEFGHIJKLMNOPQRSTUVWXYZabcdefghijklmnopqrstuvwxyz0123456789+/"

/-- The alphabet of `base64.URLEncoding`. -/
def urlAlphabet : Bytes :=
  goBytes "ABCDEFGHIJKLMNOPQRSTUVWXYZabcdefghijklmnopqrstuvwxyz0123456789-_"

/-- The value of the base64 character `c` in `alphabet`, if it has one. -/
def decodeSym (alphabet : Bytes) (c : Nat) : Option Nat :=
  if alphabet.indexOf c < 64 then some (alphabet.indexOf c) else none

/-- The base64 character of the value `v` in `alphabet`. -/
def encodeSym (alphabet : Bytes) (v : Nat) : Nat := alphabet.getD v 0

/-- Decoding of a padded base64 text without line breaks, quantum by quantum,
as `Encoding.DecodeString` does for an encoding with padding character `=`
(61) in its default, non-strict mode: four characters give three bytes; the
last quantum may end in `=` or `==`; anything else is a corrupt input. -/
def decodeQuanta (alphabet : Bytes) : Bytes → Option Bytes
  | [] => some []
  | c0 :: c1 :: c2 :: c3 :: rest =>
    match decodeSym alphabet c0, decodeSym alphabet c1 with
    | some s0, some s1 =>
      match decodeSym alphabet c2 with
      | some s2 =>
        match decodeSym alphabet c3 with
        | some s3 =>
          match decodeQuanta alphabet rest with
          | some out =>
            some ((s0 * 4 + s1 / 16) :: (s1 % 16 * 16 + s2 / 4) :: (s2 % 4 * 64 + s3) :: out)
          | none => none
        | none =>
          if c3 = 61 ∧ rest = [] then some [s0 * 4 + s1 / 16, s1 % 16 * 16 + s2 / 4] else none
      | none => if c2 = 61 ∧ c3 = 61 ∧ rest = [] then some [s0 * 4 + s1 / 16] else none
    | _, _ => none
  | _ => none

/-- Method `Encoding.DecodeString` of a padded encoding: carriage returns and
line feeds are skipped, the rest is decoded; `none` stands for an error. -/
def DecodeString (alphabet : Bytes) (s : Bytes) : Option Bytes :=
  decodeQuanta alphabet (s.filter (fun c => decide (c ≠ 10 ∧ c ≠ 13)))

/-- Method `Encoding.EncodeToString` of a padded encoding. -/
def EncodeToString (alphabet : Bytes) : Bytes → Bytes
  | [] => []
  | [a] => [encodeSym alphabet (a / 4), encodeSym alphabet (a % 4 * 16), 61, 61]
  | [a, b] =>
    [encodeSym alphabet (a / 4), encodeSym alphabet (a % 4 * 16 + b / 16),
      encodeSym alphabet (b % 16 * 4), 61]
  | a :: b :: c :: rest =>
    encodeSym alphabet (a / 4) :: encodeSym alphabet (a % 4 * 16 + b / 16) ::
      encodeSym alphabet (b % 16 * 4 + c / 64) :: encodeSym alphabet (c % 64) ::
      EncodeToString alphabet rest

/-- The encoding without padding (`RawStdEncoding`, `RawURLEncoding`): the
padded text without its `=` characters. -/
def EncodeRaw (alphabet : Bytes) (s : Bytes) : Bytes :=
  (EncodeToString alphabet s).filter (fun c => decide (c ≠ 61))

/-! ## tester/tester.go : the engine configuration -/

/-- The struct `ssParts`. -/
structure ssParts where
  method : Bytes
  password : Bytes
deriving DecidableEq

/-- Method `Tester.parseShadowsocksConfig`. -/
def parseShadowsocksConfig (original : Bytes) : ssParts :=
  let parts := Split original (goBytes "ss://")
  if parts.length > 1 then
    let encodedPart := (Split (parts.getD 1 []) (goBytes "@")).getD 0 []
    let decoded :=
      match DecodeString stdAlphabet encodedPart with
      | some d => some d
      | none => DecodeString urlAlphabet encodedPart
    match decoded with
    | some str =>
      if 58 ∈ str then ⟨str.take (str.indexOf 58), str.drop (str.indexOf 58 + 1)⟩
      else ⟨goBytes "chacha20-ietf-poly1305", goBytes "example"⟩
    | none => ⟨goBytes "chacha20-ietf-poly1305", goBytes "example"⟩
  else ⟨goBytes "chacha20-ietf-poly1305", goBytes "example"⟩

/-- Method `Tester.parseShadowsocksrConfig`. -/
def parseShadowsocksrConfig (_original : Bytes) : ssParts :=
  ⟨goBytes "chacha20", goBytes "example"⟩


/-- A value of a Go `map[string]interface{}` tree as `generateSingBoxConfig`
builds it: strings (as bytes), integers, booleans, maps and slices. A map is
the list of its entries; the keys of one map are distinct. -/
inductive JValue where
  | str (s : Bytes)
  | num (n : Int)
  | bool (b : Bool)
  | obj (entries : List (String × JValue))
  | arr (items : List JValue)

/-- The map assignment `m[key] = value`. -/
def setKey (m : List (String × JValue)) (key : String) (value : JValue) :
    List (String × JValue) :=
  m.filter (fun e => decide (e.1 ≠ key)) ++ [(key, value)]

/-- The map read `m[key]`. -/
def getKey (m : List (String × JValue)) (key : String) : Option JValue :=
  (m.find? (fun e => decide (e.1 = key))).map (·.2)

/-- The keys of a map. -/
def keys (m : List (String × JValue)) : List String := m.map (·.1)

/-- The map `tls` that `generateSingBoxConfig` builds for vmess, vless and
trojan. -/
def tlsFor (config : Config) : JValue :=
  .obj [("enabled", .bool true), ("server_name", .str (goBytes config.Address)),
    ("insecure", .bool true)]

/-- The local `outbound` of `generateSingBoxConfig` when the `switch` is left:
the four common entries and what the case of the protocol adds. -/
def outbound (config : Config) : List (String × JValue) :=
  let outbound : List (String × JValue) :=
    [("type", .str (goBytes config.Protocol)), ("tag", .str (goBytes "proxy")),
      ("server", .str (goBytes config.Address)), ("server_port", .num config.Port)]
  if config.Protocol = "vmess" then
    setKey (setKey (setKey outbound "uuid" (.str (goBytes config.ID)))
      "security" (.str (goBytes "auto"))) "tls" (tlsFor config)
  else if config.Protocol = "vless" then
    setKey (setKey outbound "uuid" (.str (goBytes config.ID))) "tls" (tlsFor config)
  else if config.Protocol = "trojan" then
    setKey (setKey outbound "password" (.str (goBytes config.ID))) "tls" (tlsFor config)
  else if config.Protocol = "shadowsocks" then
    let parts := parseShadowsocksConfig (goBytes config.Original)
    setKey (setKey outbound "method" (.str parts.method)) "password" (.str parts.password)
  else outbound

/-- Method `Tester.generateSingBoxConfig`. -/
def generateSingBoxConfig (config : Config) (localPort : Int) : List (String × JValue) :=
  let dnsConfig : List (String × JValue) :=
    [("servers", .arr [
        .obj [("tag", .str (goBytes "google")), ("address", .str (goBytes "8.8.8.8")),
          ("detour", .str (goBytes "proxy"))],
        .obj [("tag", .str (goBytes "local")), ("address", .str (goBytes "local")),
          ("detour", .str (goBytes "direct"))]]),
      ("rules", .arr [
        .obj [("outbound", .str (goBytes "any")), ("server", .str (goBytes "google"))]])]
  let sbConfig : List (String × JValue) :=
    [("log", .obj [("level", .str (goBytes "error")), ("output", .str (goBytes "stderr"))]),
      ("dns", .obj dnsConfig),
      ("inbounds", .arr [
        .obj [("type", .str (goBytes "socks")), ("tag", .str (goBytes "in")),
          ("listen", .str (goBytes "127.0.0.1")), ("listen_port", .num localPort)]]),
      ("outbounds", .arr [])]
  let direct : List (String × JValue) :=
    [("type", .str (goBytes "direct")), ("tag", .str (goBytes "direct"))]
  setKey sbConfig "outbounds" (.arr [.obj (outbound config), .obj direct])

/-- The candidate outbound of an engine configuration: the first element of
its `outbounds`. -/
def candidateOutbound (sbConfig : List (String × JValue)) : Option (List (String × JValue)) :=
  match getKey sbConfig "outbounds" with
  | some (.arr (.obj o :: _)) => some o
  | _ => none

/-- The string under `key` of a map, if there is one. -/
def getStr (m : List (String × JValue)) (key : String) : Option Bytes :=
  match getKey m key with
  | some (.str s) => some s
  | _ => none

/-- The integer under `key` of a map, if there is one. -/
def getNum (m : List (String × JValue)) (key : String) : Option Int :=
  match getKey m key with
  | some (.num n) => some n
  | _ => none

/-- A shadowsocksr link. -/
def linkSsr : String := "ssr://MS4yLjMuNDo4Mzg4Om9yaWdpbjphZXMtMjU2LWNmYjpwbGFpbjpjSGM"

/-- The descriptor the parser makes of `linkSsr`. -/
def configSsr : Config := ⟨"shadowsocksr", "127.0.0.1", 0, "", "", linkSsr, 0⟩

/-- A shadowsocks descriptor with a real address and port and a padded link. -/
def configSsPadded : Config :=
  ⟨"shadowsocks", "1.2.3.4", 8388, "", "", "ss://YWVzLTI1Ni1nY206cHc=@1.2.3.4:8388", 0⟩

/-- A trojan descriptor. -/
def configTrojan : Config :=
  ⟨"trojan", "example.org", 443, "secret", "", "trojan://secret@example.org:443", 0⟩


/-! # Theorems -/

/-! ## NewTester -/

/-- Every tester that `NewTester` returns has twenty workers. -/
theorem NewTester_maxWorkers (fs : FileSystem) (t : Tester) (h : NewTester fs = Except.ok t) :
    t.maxWorkers = 20 := by
  unfold NewTester at h
  simp only at h
  split at h
  · split at h
    · cases h
      rfl
    · cases h
  · split at h
    · cases h
      rfl
    · cases h

/-- On the file system `fs0`, `NewTester` returns `tester0`. -/
theorem NewTester_fs0 : NewTester fs0 = Except.ok tester0 := by
  rfl

/-! ## MeasureLatency -/

theorem probeLoop_first_ok (t : Tester) (config : Config) (env : ProbeEnv) (n now : Nat)
    (le : Option GoError) (tr : List Effect) (h : attemptOk env 0 = true) :
    probeLoop t config env (some ()) (n + 1) 0 now le tr =
      ⟨milliseconds (attemptNs env 0), none,
        tr ++ [Effect.head 0, Effect.closeBody, Effect.kill]⟩ := by
  unfold attemptOk at h
  cases hr : (env.http 0).result with
  | fail e => simp [hr] at h
  | resp status =>
    simp only [hr, decide_eq_true_eq] at h
    have hsub : now + (env.http 0).headNs + (env.http 0).closeNs + env.killNs - now
        = attemptNs env 0 := by unfold attemptNs; omega
    simp [probeLoop, hr, h, hsub]

theorem probeLoop_second_ok (t : Tester) (config : Config) (env : ProbeEnv) (n now : Nat)
    (le : Option GoError) (tr : List Effect) (h0 : attemptOk env 0 = false)
    (h1 : attemptOk env 1 = true) :
    probeLoop t config env (some ()) (n + 2) 0 now le tr =
      ⟨milliseconds (attemptNs env 1), none,
        tr ++ failEffects env 0 ++ [Effect.head 1, Effect.closeBody, Effect.kill]⟩ := by
  unfold attemptOk at h0 h1
  cases hr1 : (env.http 1).result with
  | fail e => simp [hr1] at h1
  | resp s1 =>
    simp only [hr1, decide_eq_true_eq] at h1
    have hsub : ∀ m : Nat, m + (env.http 1).headNs + (env.http 1).closeNs + env.killNs - m
        = attemptNs env 1 := by intro m; unfold attemptNs; omega
    cases hr0 : (env.http 0).result with
    | fail e => simp [probeLoop, hr0, hr1, h1, hsub, failEffects]
    | resp s0 =>
      simp only [hr0, decide_eq_false_iff_not] at h0
      simp [probeLoop, hr0, hr1, h0, h1, hsub, failEffects]

theorem probeLoop_both_fail (t : Tester) (config : Config) (env : ProbeEnv) (now : Nat)
    (le : Option GoError) (tr : List Effect) (h0 : attemptOk env 0 = false)
    (h1 : attemptOk env 1 = false) :
    ∃ clock, probeLoop t config env (some ()) 2 0 now le tr =
      ⟨0, some ⟨"fail", false⟩,
        tr ++ failEffects env 0 ++ failEffects env 1 ++ [Effect.kill] ++
          (match (env.http 1).result with
            | HeadResult.fail e => logError t config e env.stderr clock
            | HeadResult.resp _ => [])⟩ := by
  unfold attemptOk at h0 h1
  cases hr1 : (env.http 1).result with
  | fail e1 =>
    cases hr0 : (env.http 0).result with
    | fail e0 =>
      refine ⟨now + (env.http 0).headNs + (300 * millisecond + env.oversleep 0)
        + (env.http 1).headNs + (300 * millisecond + env.oversleep 1) + env.killNs, ?_⟩
      simp [probeLoop, hr0, hr1, failEffects]
    | resp s0 =>
      simp only [hr0, decide_eq_false_iff_not] at h0
      refine ⟨now + (env.http 0).headNs + (env.http 0).closeNs
        + (300 * millisecond + env.oversleep 0)
        + (env.http 1).headNs + (300 * millisecond + env.oversleep 1) + env.killNs, ?_⟩
      simp [probeLoop, hr0, hr1, h0, failEffects]
  | resp s1 =>
    simp only [hr1, decide_eq_false_iff_not] at h1
    cases hr0 : (env.http 0).result with
    | fail e0 => exact ⟨0, by simp [probeLoop, hr0, hr1, h1, failEffects]⟩
    | resp s0 =>
      simp only [hr0, decide_eq_false_iff_not] at h0
      exact ⟨0, by simp [probeLoop, hr0, hr1, h0, h1, failEffects]⟩

/-- Every run of `MeasureLatency` follows one of seven paths; each path fixes
the results and the whole trace. -/
theorem MeasureLatency_cases (t : Tester) (config : Config) (env : ProbeEnv) :
    (∃ e, env.freePort = Except.error e ∧ MeasureLatency t config env = ⟨0, some e, []⟩) ∨
    (∃ e, env.createTemp = Except.error e ∧ MeasureLatency t config env = ⟨0, some e, []⟩) ∨
    (∃ p name e, env.start = some e ∧ MeasureLatency t config env =
        ⟨0, some e, [Effect.writeTemp name config p, Effect.cancel, Effect.removeTemp name]⟩) ∨
    (∃ p name clock, env.start = none ∧
        (waitForPort env.poll (8 * second) env.now).1 = false ∧
        MeasureLatency t config env =
          ⟨0, some ⟨"timeout", false⟩,
            [Effect.writeTemp name config p, Effect.start, Effect.kill]
              ++ logError t config ⟨"timeout port", false⟩ env.stderr clock
              ++ [Effect.cancel, Effect.removeTemp name]⟩) ∨
    (∃ p name, reachesProbe env ∧ attemptOk env 0 = true ∧
        MeasureLatency t config env =
          ⟨milliseconds (attemptNs env 0), none,
            [Effect.writeTemp name config p, Effect.start, Effect.head 0, Effect.closeBody,
              Effect.kill, Effect.cancel, Effect.removeTemp name]⟩) ∨
    (∃ p name, reachesProbe env ∧ attemptOk env 0 = false ∧ attemptOk env 1 = true ∧
        MeasureLatency t config env =
          ⟨milliseconds (attemptNs env 1), none,
            [Effect.writeTemp name config p, Effect.start] ++ failEffects env 0
              ++ [Effect.head 1, Effect.closeBody, Effect.kill, Effect.cancel,
                Effect.removeTemp name]⟩) ∨
    (∃ p name clock, reachesProbe env ∧ attemptOk env 0 = false ∧ attemptOk env 1 = false ∧
        MeasureLatency t config env =
          ⟨0, some ⟨"fail", false⟩,
            [Effect.writeTemp name config p, Effect.start] ++ failEffects env 0
              ++ failEffects env 1 ++ [Effect.kill]
              ++ (match (env.http 1).result with
                  | HeadResult.fail e => logError t config e env.stderr clock
                  | HeadResult.resp _ => [])
              ++ [Effect.cancel, Effect.removeTemp name]⟩) := by
  cases hp : env.freePort with
  | error e => exact Or.inl ⟨e, rfl, by simp [MeasureLatency, hp]⟩
  | ok p =>
    cases hn : env.createTemp with
    | error e => exact Or.inr (Or.inl ⟨e, rfl, by simp [MeasureLatency, hp, hn]⟩)
    | ok name =>
      cases hs : env.start with
      | some e =>
        exact Or.inr (Or.inr (Or.inl ⟨p, name, e, rfl, by simp [MeasureLatency, hp, hn, hs]⟩))
      | none =>
        cases hr : (waitForPort env.poll (8 * second) env.now).1 with
        | false =>
          exact Or.inr (Or.inr (Or.inr (Or.inl
            ⟨p, name, (waitForPort env.poll (8 * second) env.now).2 + env.killNs, rfl, rfl,
              by simp [MeasureLatency, hp, hn, hs, hr]⟩)))
        | true =>
          have hreach : reachesProbe env := ⟨⟨p, hp⟩, ⟨name, hn⟩, hs, hr⟩
          have hML : MeasureLatency t config env =
              ⟨(probeLoop t config env (some ()) 2 0 (waitForPort env.poll (8 * second) env.now).2
                  none [Effect.writeTemp name config p, Effect.start]).latency,
               (probeLoop t config env (some ()) 2 0 (waitForPort env.poll (8 * second) env.now).2
                  none [Effect.writeTemp name config p, Effect.start]).err,
               (probeLoop t config env (some ()) 2 0 (waitForPort env.poll (8 * second) env.now).2
                  none [Effect.writeTemp name config p, Effect.start]).trace
                 ++ [Effect.cancel, Effect.removeTemp name]⟩ := by
            simp [MeasureLatency, hp, hn, hs, hr]
          cases h0 : attemptOk env 0 with
          | true =>
            refine Or.inr (Or.inr (Or.inr (Or.inr (Or.inl ⟨p, name, hreach, rfl, ?_⟩))))
            rw [hML, probeLoop_first_ok t config env 1 _ none _ h0]
            simp
          | false =>
            cases h1 : attemptOk env 1 with
            | true =>
              refine Or.inr (Or.inr (Or.inr (Or.inr (Or.inr (Or.inl
                ⟨p, name, hreach, rfl, rfl, ?_⟩)))))
              rw [hML, probeLoop_second_ok t config env 0 _ none _ h0 h1]
              simp
            | false =>
              obtain ⟨clock, hc⟩ := probeLoop_both_fail t config env
                (waitForPort env.poll (8 * second) env.now).2 none
                [Effect.writeTemp name config p, Effect.start] h0 h1
              refine Or.inr (Or.inr (Or.inr (Or.inr (Or.inr (Or.inr
                ⟨p, name, clock, hreach, rfl, rfl, ?_⟩)))))
              rw [hML, hc]

theorem kill_not_mem_failEffects (env : ProbeEnv) (i : Nat) : Effect.kill ∉ failEffects env i := by
  unfold failEffects
  split <;> simp

theorem kill_not_mem_logError (t : Tester) (config : Config) (e : GoError) (d : String)
    (now : Nat) : Effect.kill ∉ logError t config e d now := by
  unfold logError
  split <;> simp

theorem kill_not_mem_lastLog (t : Tester) (config : Config) (env : ProbeEnv) (clock : Nat) :
    Effect.kill ∉ (match (env.http 1).result with
      | HeadResult.fail e => logError t config e env.stderr clock
      | HeadResult.resp _ => []) := by
  split
  · exact kill_not_mem_logError _ _ _ _ _
  · simp

/-- C2: on every path of `MeasureLatency` on which the engine subprocess was
started (the trace holds `start`), the trace holds exactly one `kill`, issued
after the start and before the function returns. -/
theorem MeasureLatency_kills_started_engine (t : Tester) (config : Config) (env : ProbeEnv)
    (h : Effect.start ∈ (MeasureLatency t config env).trace) :
    ∃ pre post, (MeasureLatency t config env).trace = pre ++ Effect.kill :: post ∧
      Effect.start ∈ pre ∧ Effect.kill ∉ pre ∧ Effect.kill ∉ post := by
  rcases MeasureLatency_cases t config env with
    ⟨e, _, hm⟩ | ⟨e, _, hm⟩ | ⟨p, name, e, _, hm⟩ | ⟨p, name, clock, _, _, hm⟩ |
    ⟨p, name, _, _, hm⟩ | ⟨p, name, _, _, _, hm⟩ | ⟨p, name, clock, _, _, _, hm⟩
  · simp [hm] at h
  · simp [hm] at h
  · simp [hm] at h
  · refine ⟨[Effect.writeTemp name config p, Effect.start],
      logError t config ⟨"timeout port", false⟩ env.stderr clock
        ++ [Effect.cancel, Effect.removeTemp name], ?_, by simp, by simp, ?_⟩
    · simp [hm]
    · have := kill_not_mem_logError t config ⟨"timeout port", false⟩ env.stderr clock
      simp [this]
  · exact ⟨[Effect.writeTemp name config p, Effect.start, Effect.head 0, Effect.closeBody],
      [Effect.cancel, Effect.removeTemp name], by simp [hm], by simp, by simp, by simp⟩
  · refine ⟨[Effect.writeTemp name config p, Effect.start] ++ failEffects env 0
        ++ [Effect.head 1, Effect.closeBody],
      [Effect.cancel, Effect.removeTemp name], by simp [hm], by simp, ?_, by simp⟩
    have := kill_not_mem_failEffects env 0
    simp [this]
  · refine ⟨[Effect.writeTemp name config p, Effect.start] ++ failEffects env 0
        ++ failEffects env 1,
      (match (env.http 1).result with
        | HeadResult.fail e => logError t config e env.stderr clock
        | HeadResult.resp _ => []) ++ [Effect.cancel, Effect.removeTemp name],
      by simp [hm], by simp, ?_, ?_⟩
    · have h0 := kill_not_mem_failEffects env 0
      have h1 := kill_not_mem_failEffects env 1
      simp [h0, h1]
    · have := kill_not_mem_lastLog t config env clock
      simp [this]

/-- The kill property at a run answered 204 on the first attempt. -/
theorem MeasureLatency_kills_started_engine_witness :
    Effect.start ∈ (MeasureLatency tester0 config0 (envStatus 204 5000000)).trace ∧
    ∃ pre post, (MeasureLatency tester0 config0 (envStatus 204 5000000)).trace
        = pre ++ Effect.kill :: post ∧
      Effect.start ∈ pre ∧ Effect.kill ∉ pre ∧ Effect.kill ∉ post :=
  ⟨by decide, MeasureLatency_kills_started_engine tester0 config0 _ (by decide)⟩

theorem headAttempts_append (a b : List Effect) :
    headAttempts (a ++ b) = headAttempts a ++ headAttempts b := by
  induction a with
  | nil => rfl
  | cons x xs ih => cases x <;> simp [headAttempts, ih]

theorem headAttempts_failEffects (env : ProbeEnv) (i : Nat) :
    headAttempts (failEffects env i) = [i] := by
  unfold failEffects
  split <;> simp [headAttempts]

theorem headAttempts_logError (t : Tester) (config : Config) (e : GoError) (d : String)
    (now : Nat) : headAttempts (logError t config e d now) = [] := by
  unfold logError
  split <;> simp [headAttempts]

theorem headAttempts_lastLog (t : Tester) (config : Config) (env : ProbeEnv) (clock : Nat) :
    headAttempts (match (env.http 1).result with
      | HeadResult.fail e => logError t config e env.stderr clock
      | HeadResult.resp _ => []) = [] := by
  split
  · exact headAttempts_logError _ _ _ _ _
  · rfl

/-- C6: the HTTP loop of `MeasureLatency` makes its attempts in sequence, at
most two, none after a successful one (exactly one when the first succeeds);
the latency returned is the elapsed milliseconds of the successful attempt
alone, whatever the first attempt and the backoff took. -/
theorem MeasureLatency_probe_attempts (t : Tester) (config : Config) (env : ProbeEnv) :
    (¬ reachesProbe env → headAttempts (MeasureLatency t config env).trace = []) ∧
    (reachesProbe env → attemptOk env 0 = true →
      headAttempts (MeasureLatency t config env).trace = [0] ∧
      (MeasureLatency t config env).err = none ∧
      (MeasureLatency t config env).latency = milliseconds (attemptNs env 0)) ∧
    (reachesProbe env → attemptOk env 0 = false → attemptOk env 1 = true →
      headAttempts (MeasureLatency t config env).trace = [0, 1] ∧
      (MeasureLatency t config env).err = none ∧
      (MeasureLatency t config env).latency = milliseconds (attemptNs env 1)) ∧
    (reachesProbe env → attemptOk env 0 = false → attemptOk env 1 = false →
      headAttempts (MeasureLatency t config env).trace = [0, 1] ∧
      (MeasureLatency t config env).err = some ⟨"fail", false⟩) := by
  rcases MeasureLatency_cases t config env with
    ⟨e, hx, hm⟩ | ⟨e, hx, hm⟩ | ⟨p, name, e, hx, hm⟩ | ⟨p, name, clock, _, hx, hm⟩ |
    ⟨p, name, hr, h0, hm⟩ | ⟨p, name, hr, h0, h1, hm⟩ | ⟨p, name, clock, hr, h0, h1, hm⟩
  · refine ⟨fun _ => by simp [hm, headAttempts], ?_, ?_, ?_⟩ <;>
      (intro hr; obtain ⟨⟨p, hp⟩, _⟩ := hr; simp [hx] at hp)
  · refine ⟨fun _ => by simp [hm, headAttempts], ?_, ?_, ?_⟩ <;>
      (intro hr; obtain ⟨_, ⟨n, hn⟩, _⟩ := hr; simp [hx] at hn)
  · refine ⟨fun _ => by simp [hm, headAttempts], ?_, ?_, ?_⟩ <;>
      (intro hr; obtain ⟨_, _, hs, _⟩ := hr; simp [hx] at hs)
  · refine ⟨fun _ => by simp [hm, headAttempts, headAttempts_append, headAttempts_logError],
      ?_, ?_, ?_⟩ <;>
      (intro hr; obtain ⟨_, _, _, hw⟩ := hr; simp [hx] at hw)
  · refine ⟨fun hn => absurd hr hn, fun _ _ => by simp [hm, headAttempts], ?_, ?_⟩ <;>
      (intro _ h; simp [h0] at h)
  · refine ⟨fun hn => absurd hr hn, fun _ h => by simp [h0] at h, fun _ _ _ => ?_,
      fun _ _ h => by simp [h1] at h⟩
    simp [hm, headAttempts, headAttempts_append, headAttempts_failEffects]
  · refine ⟨fun hn => absurd hr hn, fun _ h => by simp [h0] at h,
      fun _ _ h => by simp [h1] at h, fun _ _ _ => ?_⟩
    simp [hm, headAttempts, headAttempts_append, headAttempts_failEffects,
      headAttempts_lastLog]

/-- A first attempt of 2000 ms that fails and a second one of 7 ms that succeeds give latency 7. -/
theorem MeasureLatency_probe_attempts_witness :
    headAttempts (MeasureLatency tester0 config0 envRetry).trace = [0, 1] ∧
    (MeasureLatency tester0 config0 envRetry).err = none ∧
    (MeasureLatency tester0 config0 envRetry).latency = 7 :=
  (MeasureLatency_probe_attempts tester0 config0 envRetry).2.2.1
    ⟨⟨40000, rfl⟩, ⟨"sb_1.json", rfl⟩, rfl, by decide⟩ (by decide) (by decide)

/-- C7 (counterexample): a probe answered 204 after 0.999999 ms makes
`MeasureLatency` succeed with latency 0, which is not strictly positive. -/
theorem MeasureLatency_zero_latency :
    (MeasureLatency tester0 config0 (envStatus 204 999999)).err = none ∧
    (MeasureLatency tester0 config0 (envStatus 204 999999)).latency = 0 := by
  decide

/-- C7 (amended): a latency returned on success is the elapsed time of the
successful attempt truncated to whole milliseconds; it is never negative, it
is strictly positive exactly when that attempt took at least one millisecond,
and `performL7Testing` keeps only descriptors whose latency is strictly
positive (and below 3000). -/
theorem MeasureLatency_latency_truncated (t : Tester) (config : Config) (env : ProbeEnv)
    (h : (MeasureLatency t config env).err = none) :
    (∃ i, i < 2 ∧ attemptOk env i = true ∧
      (MeasureLatency t config env).latency = ((attemptNs env i / 1000000 : Nat) : Int) ∧
      (0 < (MeasureLatency t config env).latency ↔ millisecond ≤ attemptNs env i)) ∧
    0 ≤ (MeasureLatency t config env).latency ∧
    ∀ tested c, c ∈ keepValid tested → 0 < c.Latency ∧ c.Latency < 3000 := by
  have key : ∀ n : Nat, (0 < milliseconds n ↔ millisecond ≤ n) := by
    intro n
    unfold milliseconds millisecond
    constructor
    · intro hpos
      have : 0 < n / 1000000 := by exact_mod_cast hpos
      omega
    · intro hle
      have : 0 < n / 1000000 := Nat.div_pos hle (by norm_num)
      exact_mod_cast this
  have nonneg : ∀ n : Nat, 0 ≤ milliseconds n := fun n => Int.ofNat_nonneg _
  have valid : ∀ tested c, c ∈ keepValid tested → 0 < c.Latency ∧ c.Latency < 3000 := by
    intro tested c hc
    unfold keepValid at hc
    have := (List.mem_filter.mp hc).2
    simp only [decide_eq_true_eq] at this
    exact this
  rcases MeasureLatency_cases t config env with
    ⟨e, _, hm⟩ | ⟨e, _, hm⟩ | ⟨p, name, e, _, hm⟩ | ⟨p, name, clock, _, _, hm⟩ |
    ⟨p, name, _, h0, hm⟩ | ⟨p, name, _, _, h1, hm⟩ | ⟨p, name, clock, _, _, _, hm⟩
  · simp [hm] at h
  · simp [hm] at h
  · simp [hm] at h
  · simp [hm] at h
  · refine ⟨⟨0, by norm_num, h0, ?_, ?_⟩, ?_, valid⟩
    · rw [hm]; rfl
    · rw [hm]; exact key _
    · rw [hm]; exact nonneg _
  · refine ⟨⟨1, by norm_num, h1, ?_, ?_⟩, ?_, valid⟩
    · rw [hm]; rfl
    · rw [hm]; exact key _
    · rw [hm]; exact nonneg _
  · simp [hm] at h

/-- The amended latency property at a successful attempt of 999999 ns. -/
theorem MeasureLatency_latency_truncated_witness :
    (∃ i, i < 2 ∧ attemptOk (envStatus 204 999999) i = true ∧
      (MeasureLatency tester0 config0 (envStatus 204 999999)).latency
        = ((attemptNs (envStatus 204 999999) i / 1000000 : Nat) : Int) ∧
      (0 < (MeasureLatency tester0 config0 (envStatus 204 999999)).latency
        ↔ millisecond ≤ attemptNs (envStatus 204 999999) i)) ∧
    0 ≤ (MeasureLatency tester0 config0 (envStatus 204 999999)).latency ∧
    ∀ tested c, c ∈ keepValid tested → 0 < c.Latency ∧ c.Latency < 3000 :=
  MeasureLatency_latency_truncated tester0 config0 (envStatus 204 999999) (by decide)

theorem mem_headAttempts (tr : List Effect) (i : Nat) :
    Effect.head i ∈ tr ↔ i ∈ headAttempts tr := by
  induction tr with
  | nil => simp [headAttempts]
  | cons x xs ih => cases x <;> simp [headAttempts, ih]

theorem attemptOk_of_resp (env : ProbeEnv) (i : Nat) (status : Int)
    (h : (env.http i).result = HeadResult.resp status) (hs : status = 200 ∨ status = 204) :
    attemptOk env i = true := by
  unfold attemptOk
  rw [h]
  simp only [decide_eq_true_eq]
  exact hs.symm

theorem resp_of_attemptOk (env : ProbeEnv) (i : Nat) (h : attemptOk env i = true) :
    ∃ status, (env.http i).result = HeadResult.resp status ∧ (status = 200 ∨ status = 204) := by
  unfold attemptOk at h
  cases hr : (env.http i).result with
  | fail e => simp [hr] at h
  | resp status =>
    simp only [hr, decide_eq_true_eq] at h
    exact ⟨status, rfl, h.symm⟩

/-- C8 (counterexample): a response with status 201, a success-class code, is
not accepted: both attempts are spent and `MeasureLatency` returns an error. -/
theorem MeasureLatency_status_201_fails :
    Effect.head 0 ∈ (MeasureLatency tester0 config0 (envStatus 201 5000000)).trace ∧
    ((envStatus 201 5000000).http 0).result = HeadResult.resp 201 ∧
    (200 : Int) ≤ 201 ∧ (201 : Int) ≤ 299 ∧
    headAttempts (MeasureLatency tester0 config0 (envStatus 201 5000000)).trace = [0, 1] ∧
    (MeasureLatency tester0 config0 (envStatus 201 5000000)).err = some ⟨"fail", false⟩ := by
  decide

/-- C8 (amended): an HTTP probe attempt that receives a response with status
200 or 204 makes `MeasureLatency` return that attempt's latency with no error,
and only such a response makes it succeed. -/
theorem MeasureLatency_success_status (t : Tester) (config : Config) (env : ProbeEnv) :
    (∀ i status, Effect.head i ∈ (MeasureLatency t config env).trace →
      (env.http i).result = HeadResult.resp status → (status = 200 ∨ status = 204) →
      (MeasureLatency t config env).err = none ∧
      (MeasureLatency t config env).latency = milliseconds (attemptNs env i)) ∧
    ((MeasureLatency t config env).err = none →
      ∃ i status, Effect.head i ∈ (MeasureLatency t config env).trace ∧
        (env.http i).result = HeadResult.resp status ∧ (status = 200 ∨ status = 204)) := by
  rcases MeasureLatency_cases t config env with
    ⟨e, _, hm⟩ | ⟨e, _, hm⟩ | ⟨p, name, e, _, hm⟩ | ⟨p, name, clock, _, _, hm⟩ |
    ⟨p, name, _, h0, hm⟩ | ⟨p, name, _, h0, h1, hm⟩ | ⟨p, name, clock, _, h0, h1, hm⟩
  · refine ⟨fun i s hi => ?_, fun h => by simp [hm] at h⟩
    simp [hm] at hi
  · refine ⟨fun i s hi => ?_, fun h => by simp [hm] at h⟩
    simp [hm] at hi
  · refine ⟨fun i s hi => ?_, fun h => by simp [hm] at h⟩
    simp [hm] at hi
  · refine ⟨fun i s hi => ?_, fun h => by simp [hm] at h⟩
    rw [mem_headAttempts, hm] at hi
    simp [headAttempts, headAttempts_append, headAttempts_logError] at hi
  · constructor
    · intro i s hi _ _
      rw [mem_headAttempts, hm] at hi
      simp [headAttempts] at hi
      subst hi
      simp [hm]
    · intro _
      obtain ⟨s, hs, hok⟩ := resp_of_attemptOk env 0 h0
      exact ⟨0, s, by simp [hm], hs, hok⟩
  · constructor
    · intro i s hi hr hs
      rw [mem_headAttempts, hm] at hi
      simp [headAttempts, headAttempts_append, headAttempts_failEffects] at hi
      rcases hi with hi | hi
      · subst hi
        rw [attemptOk_of_resp env 0 s hr hs] at h0
        simp at h0
      · subst hi
        simp [hm]
    · intro _
      obtain ⟨s, hs, hok⟩ := resp_of_attemptOk env 1 h1
      exact ⟨1, s, by simp [hm], hs, hok⟩
  · refine ⟨fun i s hi hr hs => ?_, fun h => by simp [hm] at h⟩
    rw [mem_headAttempts, hm] at hi
    simp [headAttempts, headAttempts_append, headAttempts_failEffects,
      headAttempts_lastLog] at hi
    rcases hi with hi | hi
    · subst hi
      rw [attemptOk_of_resp env 0 s hr hs] at h0
      simp at h0
    · subst hi
      rw [attemptOk_of_resp env 1 s hr hs] at h1
      simp at h1

/-- A response with status 200 after 5 ms gives latency 5 and no error. -/
theorem MeasureLatency_success_status_witness :
    (MeasureLatency tester0 config0 (envStatus 200 5000000)).err = none ∧
    (MeasureLatency tester0 config0 (envStatus 200 5000000)).latency = 5 :=
  (MeasureLatency_success_status tester0 config0 (envStatus 200 5000000)).1 0 200
    (by decide) rfl (Or.inl rfl)

theorem logged_append (a b : List Effect) : logged (a ++ b) = logged a ++ logged b := by
  induction a with
  | nil => rfl
  | cons x xs ih => cases x <;> simp [logged, ih]

theorem logged_failEffects (env : ProbeEnv) (i : Nat) : logged (failEffects env i) = [] := by
  unfold failEffects
  split <;> simp [logged]

theorem logged_logError (t : Tester) (config : Config) (e : GoError) (d : String) (now : Nat) :
    (logged (logError t config e d now)).map LogEntry.content
      = if t.debugFile then [(config.Address, e, d)] else [] := by
  unfold logError
  split <;> simp [logged, LogEntry.content]

/-- C9 (counterexample): the first attempt is reset, the second one answered
500; `MeasureLatency` returns the error `fail` and writes nothing to the
diagnostic log, so no cause of the last failure is preserved. -/
theorem MeasureLatency_status_failure_not_logged :
    tester0.debugFile = true ∧
    attemptOk envResetThen500 0 = false ∧ attemptOk envResetThen500 1 = false ∧
    (envResetThen500.http 1).result = HeadResult.resp 500 ∧
    (MeasureLatency tester0 config0 envResetThen500).err = some ⟨"fail", false⟩ ∧
    logged (MeasureLatency tester0 config0 envResetThen500).trace = [] := by
  decide

/-- C9 (amended): when every HTTP attempt fails, `MeasureLatency` returns the
error `fail`; if the last attempt failed with an error, exactly that error
(with the captured stderr) is written to the diagnostic log, whatever the
first attempt did; if the last attempt failed by its status, nothing is
written. -/
theorem MeasureLatency_all_attempts_fail (t : Tester) (config : Config) (env : ProbeEnv)
    (hr : reachesProbe env) (h0 : attemptOk env 0 = false) (h1 : attemptOk env 1 = false) :
    (MeasureLatency t config env).err = some ⟨"fail", false⟩ ∧
    (MeasureLatency t config env).latency = 0 ∧
    (∀ e, (env.http 1).result = HeadResult.fail e →
      (logged (MeasureLatency t config env).trace).map LogEntry.content
        = if t.debugFile then [(config.Address, e, env.stderr)] else []) ∧
    (∀ status, (env.http 1).result = HeadResult.resp status →
      logged (MeasureLatency t config env).trace = []) := by
  rcases MeasureLatency_cases t config env with
    ⟨e, hx, hm⟩ | ⟨e, hx, hm⟩ | ⟨p, name, e, hx, hm⟩ | ⟨p, name, clock, _, hx, hm⟩ |
    ⟨p, name, _, h0', hm⟩ | ⟨p, name, _, _, h1', hm⟩ | ⟨p, name, clock, _, _, _, hm⟩
  · obtain ⟨⟨p, hp⟩, _⟩ := hr
    simp [hx] at hp
  · obtain ⟨_, ⟨n, hn⟩, _⟩ := hr
    simp [hx] at hn
  · obtain ⟨_, _, hs, _⟩ := hr
    simp [hx] at hs
  · obtain ⟨_, _, _, hw⟩ := hr
    simp [hx] at hw
  · simp [h0] at h0'
  · simp [h1] at h1'
  · refine ⟨by simp [hm], by simp [hm], fun e he => ?_, fun s hs => ?_⟩
    · rw [hm]
      simp only [logged_append, logged_failEffects, he, List.map_append, logged_logError]
      simp [logged]
    · rw [hm]
      simp [logged_append, logged_failEffects, hs, logged]

/-- Two attempts that both time out: the error of the last one is logged. -/
theorem MeasureLatency_all_attempts_fail_witness :
    (MeasureLatency tester0 config0 envHttpTimeout).err = some ⟨"fail", false⟩ ∧
    (MeasureLatency tester0 config0 envHttpTimeout).latency = 0 ∧
    (∀ e, (envHttpTimeout.http 1).result = HeadResult.fail e →
      (logged (MeasureLatency tester0 config0 envHttpTimeout).trace).map LogEntry.content
        = if tester0.debugFile then [(config0.Address, e, envHttpTimeout.stderr)] else []) ∧
    (∀ status, (envHttpTimeout.http 1).result = HeadResult.resp status →
      logged (MeasureLatency tester0 config0 envHttpTimeout).trace = []) :=
  MeasureLatency_all_attempts_fail tester0 config0 envHttpTimeout
    ⟨⟨40000, rfl⟩, ⟨"sb_1.json", rfl⟩, rfl, by decide⟩ (by decide) (by decide)

/-- C10 (counterexample): with the debug file open, a start-up timeout appends
the entry `timeout port` to the diagnostic log, and so do two HTTP attempts
that both end in a request timeout. -/
theorem MeasureLatency_timeouts_logged :
    (∀ i, (envNeverReady.poll i).ok = false) ∧
    (MeasureLatency tester0 config0 envNeverReady).err = some ⟨"timeout", false⟩ ∧
    (logged (MeasureLatency tester0 config0 envNeverReady).trace).map LogEntry.content
      = [("example.org", ⟨"timeout port", false⟩, "engine stderr")] ∧
    (∀ i e, (envHttpTimeout.http i).result = HeadResult.fail e → e.timeout = true) ∧
    (logged (MeasureLatency tester0 config0 envHttpTimeout).trace).map LogEntry.content
      = [("example.org", ⟨"Client.Timeout exceeded", true⟩, "engine stderr")] := by
  refine ⟨fun _ => rfl, by decide, by decide, ?_, by decide⟩
  intro i e h
  simp [envHttpTimeout] at h
  rw [← h]

/-- The iteration bound of `waitForPort` is no restriction: once the fuel
covers the time to the deadline, more fuel gives the same answer. -/
theorem waitForPortLoop_fuel_enough (poll : Nat → Poll) (deadline : Nat) :
    ∀ f g i now, deadline ≤ now + f * 200000000 → f ≤ g →
      waitForPortLoop poll deadline f i now = waitForPortLoop poll deadline g i now := by
  intro f
  induction f with
  | zero =>
    intro g i now hd _
    cases g with
    | zero => rfl
    | succ g =>
      have : ¬ now < deadline := by omega
      simp [waitForPortLoop, this]
  | succ f ih =>
    intro g i now hd hg
    cases g with
    | zero => omega
    | succ g =>
      simp only [waitForPortLoop]
      split
      · split
        · rfl
        · apply ih
          · unfold millisecond; omega
          · omega
      · rfl

theorem waitForPort_fuel_enough (poll : Nat → Poll) (timeout now g : Nat)
    (hg : timeout / (200 * millisecond) + 1 ≤ g) :
    waitForPort poll timeout now = waitForPortLoop poll (now + timeout) g 0 now := by
  unfold waitForPort
  apply waitForPortLoop_fuel_enough
  · unfold millisecond
    have := Nat.lt_div_mul_add (a := timeout) (b := 200 * 1000000) (by norm_num)
    omega
  · exact hg

theorem waitForPortLoop_never_ready (poll : Nat → Poll) (deadline : Nat)
    (h : ∀ i, (poll i).ok = false) :
    ∀ f i now, (waitForPortLoop poll deadline f i now).1 = false := by
  intro f
  induction f with
  | zero => intro i now; rfl
  | succ f ih =>
    intro i now
    simp only [waitForPortLoop, h i]
    split
    · simpa using ih _ _
    · rfl

theorem waitForPort_never_ready (poll : Nat → Poll) (timeout now : Nat)
    (h : ∀ i, (poll i).ok = false) : (waitForPort poll timeout now).1 = false :=
  waitForPortLoop_never_ready poll _ h _ _ _

/-- C10 (amended): when the engine's local port accepts no connection before
the start-up deadline, `MeasureLatency` returns the error `timeout` and, the
debug file being open, appends the one entry `timeout port` with the captured
stderr to the diagnostic log; no entry is appended on success, nor after the
HTTP attempts are used up when the last one received a response. -/
theorem MeasureLatency_diagnostics (t : Tester) (config : Config) (env : ProbeEnv) :
    ((∃ p, env.freePort = Except.ok p) → (∃ n, env.createTemp = Except.ok n) →
      env.start = none → (waitForPort env.poll (8 * second) env.now).1 = false →
      (MeasureLatency t config env).err = some ⟨"timeout", false⟩ ∧
      (logged (MeasureLatency t config env).trace).map LogEntry.content
        = if t.debugFile then [(config.Address, ⟨"timeout port", false⟩, env.stderr)]
          else []) ∧
    ((MeasureLatency t config env).err = none →
      logged (MeasureLatency t config env).trace = []) ∧
    (reachesProbe env → ∀ status, (env.http 1).result = HeadResult.resp status →
      logged (MeasureLatency t config env).trace = []) := by
  rcases MeasureLatency_cases t config env with
    ⟨e, hx, hm⟩ | ⟨e, hx, hm⟩ | ⟨p, name, e, hx, hm⟩ | ⟨p, name, clock, _, hx, hm⟩ |
    ⟨p, name, hr, h0, hm⟩ | ⟨p, name, hr, h0, h1, hm⟩ | ⟨p, name, clock, hr, h0, h1, hm⟩
  · refine ⟨fun ⟨p, hp⟩ => by simp [hx] at hp, fun h => by simp [hm, logged],
      fun ⟨⟨p, hp⟩, _⟩ => by simp [hx] at hp⟩
  · refine ⟨fun _ ⟨n, hn⟩ => by simp [hx] at hn, fun h => by simp [hm, logged],
      fun ⟨_, ⟨n, hn⟩, _⟩ => by simp [hx] at hn⟩
  · refine ⟨fun _ _ hs => by simp [hx] at hs, fun h => by simp [hm, logged],
      fun ⟨_, _, hs, _⟩ => by simp [hx] at hs⟩
  · refine ⟨fun _ _ _ _ => ⟨by simp [hm], ?_⟩, fun h => by simp [hm] at h,
      fun ⟨_, _, _, hw⟩ => by simp [hx] at hw⟩
    rw [hm]
    simp only [logged_append, List.map_append, logged_logError]
    simp [logged]
  · obtain ⟨_, _, _, hw⟩ := hr
    refine ⟨fun _ _ _ hf => by simp [hw] at hf, fun _ => by simp [hm, logged],
      fun _ _ _ => by simp [hm, logged]⟩
  · obtain ⟨_, _, _, hw⟩ := hr
    refine ⟨fun _ _ _ hf => by simp [hw] at hf,
      fun _ => by simp [hm, logged, logged_append, logged_failEffects],
      fun _ _ _ => by simp [hm, logged, logged_append, logged_failEffects]⟩
  · obtain ⟨_, _, _, hw⟩ := hr
    refine ⟨fun _ _ _ hf => by simp [hw] at hf, fun h => by simp [hm] at h,
      fun _ s hs => by simp [hm, logged, logged_append, logged_failEffects, hs]⟩

/-- An engine that never opens its port: the entry `timeout port` is logged. -/
theorem MeasureLatency_diagnostics_witness :
    (MeasureLatency tester0 config0 envNeverReady).err = some ⟨"timeout", false⟩ ∧
    (logged (MeasureLatency tester0 config0 envNeverReady).trace).map LogEntry.content
      = if tester0.debugFile then
          [(config0.Address, ⟨"timeout port", false⟩, envNeverReady.stderr)]
        else [] :=
  (MeasureLatency_diagnostics tester0 config0 envNeverReady).1 ⟨40000, rfl⟩ ⟨"sb_1.json", rfl⟩
    rfl (waitForPort_never_ready _ _ _ (fun _ => rfl))

/-! ## Bookkeeping lemmas -/

section Total
variable {α M : Type} [AddCommMonoid M]

theorem total_nil (f : α → M) : total f [] = 0 := rfl

theorem total_cons (f : α → M) (a : α) (l : List α) : total f (a :: l) = f a + total f l := by
  simp [total]

theorem total_append (f : α → M) (l₁ l₂ : List α) :
    total f (l₁ ++ l₂) = total f l₁ + total f l₂ := by
  simp [total]

theorem total_set (f : α → M) (x y : α) :
    ∀ (l : List α) (i : Nat), l[i]? = some x →
      total f (l.set i y) + f x = total f l + f y := by
  intro l
  induction l with
  | nil => intro i h; simp at h
  | cons a l ih =>
    intro i h
    cases i with
    | zero =>
      simp at h
      subst h
      simp only [List.set_cons_zero, total_cons]
      abel
    | succ i =>
      simp at h
      have := ih i h
      simp only [List.set_cons_succ, total_cons]
      rw [add_assoc, this, add_assoc]

theorem total_pos_exists (f : α → Nat) :
    ∀ l : List α, 0 < total f l → ∃ (i : Nat) (x : α), l[i]? = some x ∧ 0 < f x := by
  intro l
  induction l with
  | nil => intro h; simp [total_nil] at h
  | cons a l ih =>
    intro h
    rw [total_cons] at h
    by_cases ha : 0 < f a
    · exact ⟨0, a, by simp, ha⟩
    · obtain ⟨i, x, hx, hpos⟩ := ih (by omega)
      exact ⟨i + 1, x, by simpa using hx, hpos⟩

theorem total_zero_of_mem (f : α → Nat) (l : List α) (h : total f l = 0) :
    ∀ x ∈ l, f x = 0 := by
  induction l with
  | nil => intro x hx; simp at hx
  | cons a l ih =>
    rw [total_cons] at h
    intro x hx
    rcases List.mem_cons.mp hx with rfl | hx
    · omega
    · exact ih (by omega) x hx

end Total

theorem coe_cons_add {α : Type} (c : α) (l : List α) :
    ((c :: l : List α) : Multiset α) = {c} + (l : Multiset α) := by
  rw [Multiset.singleton_add, Multiset.cons_coe]

theorem coe_append_add {α : Type} (a b : List α) :
    ((a ++ b : List α) : Multiset α) = (a : Multiset α) + (b : Multiset α) :=
  (Multiset.coe_add a b).symm

theorem coe_nil_zero {α : Type} : (([] : List α) : Multiset α) = 0 := rfl

/-! ## ScanConfigs -/

theorem isAlive_fst (sc : Scanner) (net : Network) (i : Nat) (c : Config) :
    (isAlive sc c (net i)).1 = connects sc net i c := by
  unfold isAlive connects
  by_cases h : c.Address = "" ∨ c.Port = 0
  · have : ¬ (c.Address ≠ "" ∧ c.Port ≠ 0) := by tauto
    simp [h, this]
  · have h2 : c.Address ≠ "" ∧ c.Port ≠ 0 := by tauto
    simp only [h, h2, if_false, ne_eq, not_false_eq_true, and_self, decide_True, Bool.true_and]
    cases (net i (c.Address ++ ":" ++ toString c.Port) sc.Timeout).err <;>
      cases (net i (c.Address ++ ":" ++ toString c.Port) sc.Timeout).conn <;> simp

theorem scanStep_inv (sc : Scanner) (net : Network) (cap : Nat) (target : Multiset Config)
    (g : ScanGo) (s s' : ScanState) (inv : ScanInv sc net cap target s)
    (h : scanStep sc net cap g s = some s') :
    ScanInv sc net cap target s' ∧ scanMeasure s' < scanMeasure s := by
  obtain ⟨wg_eq, sem_eq, cap_ok, absent_iff, closed_iff, done_wg, ret, calm, owe⟩ := inv
  unfold scanStep at h
  simp only [calm, Bool.false_eq_true, if_false] at h
  cases g with
  | main =>
    simp only at h
    cases hm : s.main with
    | spawn rest =>
      have habs : s.closer = CloserPc.absent := absent_iff.mpr ⟨rest, hm⟩
      cases rest with
      | nil =>
        simp only [hm, Option.some.injEq] at h
        subst h
        have hcl : s.closed = false := by
          cases hc : s.closed with
          | false => rfl
          | true => rw [closed_iff.mp hc] at habs; cases habs
        refine ⟨⟨wg_eq, sem_eq, ?_, ?_, ?_, ?_, ?_, rfl, ?_⟩, ?_⟩
        · simpa [hm, ScanMainPc.pending] using cap_ok
        · simp
        · simp [hcl]
        · simp
        · simp
        · simpa [hm, ScanMainPc.pending] using owe
        · simp [scanMeasure, hm, habs, ScanMainPc.weight, CloserPc.weight]
      | cons c rest =>
        simp only [hm, Option.some.injEq] at h
        subst h
        refine ⟨⟨?_, ?_, ?_, ?_, closed_iff, ?_, ?_, rfl, ?_⟩, ?_⟩
        · simp [total_append, total_cons, total_nil, ScanTask.live, wg_eq]
        · simp [total_append, total_cons, total_nil, ScanTask.holding, sem_eq]
        · simp only [hm, ScanMainPc.pending, List.length_cons] at cap_ok
          simp [total_append, total_cons, total_nil, ScanTask.unsent, ScanMainPc.pending]
          omega
        · simp [habs]
        · simp [habs]
        · simp
        · simp only [hm, ScanMainPc.pending, connected] at owe
          simp only [total_append, total_cons, total_nil, ScanTask.owed, ScanMainPc.pending,
            List.length_append, List.length_singleton]
          rw [← owe]
          split <;> simp [Multiset.singleton_add, add_assoc]
        · simp [scanMeasure, hm, ScanMainPc.weight, total_append, total_cons, total_nil,
            ScanTask.weight]
          omega
    | collect =>
      have hna : s.closer ≠ CloserPc.absent := by
        intro hc
        obtain ⟨r, hr⟩ := absent_iff.mp hc
        rw [hm] at hr
        cases hr
      simp only [hm, ScanMainPc.pending] at cap_ok owe
      cases hres : s.results with
      | nil =>
        simp only [hm, hres] at h
        cases hc : s.closed with
        | false => simp [hc] at h
        | true =>
          simp only [hc, if_true, Option.some.injEq] at h
          subst h
          simp only [hres] at cap_ok owe
          refine ⟨⟨wg_eq, sem_eq, ?_, ?_, ?_, done_wg, ?_, rfl, ?_⟩, ?_⟩
          · simpa [ScanMainPc.pending] using cap_ok
          · simp [hna]
          · simpa [hc] using closed_iff
          · simp
          · simpa [ScanMainPc.pending] using owe
          · simp [scanMeasure, hm, ScanMainPc.weight]
            omega
      | cons c rs =>
        simp only [hm, hres, Option.some.injEq] at h
        subst h
        simp only [hres, List.length_cons] at cap_ok owe
        refine ⟨⟨wg_eq, sem_eq, ?_, ?_, closed_iff, done_wg, ?_, rfl, ?_⟩, ?_⟩
        · simp only [ScanMainPc.pending]
          omega
        · simp [hna]
        · simp
        · simp only [ScanMainPc.pending]
          rw [← owe]
          simp only [coe_cons_add, coe_append_add, coe_nil_zero]
          abel
        · simp [scanMeasure, hm, hres]
    | returned => simp [hm] at h
  | closer =>
    simp only at h
    cases hc : s.closer with
    | absent => simp [hc] at h
    | done => simp [hc] at h
    | waiting =>
      simp only [hc] at h
      by_cases hw : s.wg = 0
      · simp only [hw, if_true, Option.some.injEq] at h
        subst h
        refine ⟨⟨?_, sem_eq, cap_ok, ?_, ?_, ?_, ?_, rfl, owe⟩, ?_⟩
        · simpa [hw] using wg_eq
        · simpa [hc] using absent_iff
        · simp
        · simp
        · intro hr
          have := (ret hr).1
          rw [closed_iff.mp this] at hc
          cases hc
        · simp [scanMeasure, hc, CloserPc.weight]
      · simp [hw] at h
  | task i =>
    simp only at h
    cases hget : s.tasks[i]? with
    | none => simp [hget] at h
    | some t =>
      simp only [hget] at h
      have e1 := fun y => total_set ScanTask.live t y s.tasks i hget
      have e2 := fun y => total_set ScanTask.holding t y s.tasks i hget
      have e3 := fun y => total_set ScanTask.unsent t y s.tasks i hget
      have e4 := fun y => total_set ScanTask.weight t y s.tasks i hget
      have e5 := fun y => total_set (ScanTask.owed sc net) t y s.tasks i hget
      cases hpc : t.pc with
      | acquire =>
        simp only [hpc] at h
        by_cases hs : s.sem < 1000
        · simp only [hs, if_true, Option.some.injEq] at h
          subst h
          have f1 := e1 { t with pc := ScanPc.check }
          have f2 := e2 { t with pc := ScanPc.check }
          have f3 := e3 { t with pc := ScanPc.check }
          have f4 := e4 { t with pc := ScanPc.check }
          have f5 := e5 { t with pc := ScanPc.check }
          simp only [ScanTask.live, ScanTask.holding, ScanTask.unsent, ScanTask.weight,
            ScanTask.owed, hpc] at f1 f2 f3 f4 f5
          refine ⟨⟨?_, ?_, ?_, absent_iff, closed_iff, ?_, ret, rfl, ?_⟩, ?_⟩
          · simp only; omega
          · simp only; omega
          · simp only; omega
          · intro hd; have := done_wg hd; simp only; omega
          · simp only [List.length_set]
            rw [add_right_cancel f5]
            exact owe
          · simp only [scanMeasure]; omega
        · simp [hs] at h
      | check =>
        simp only [hpc, Option.some.injEq] at h
        subst h
        rw [isAlive_fst]
        cases hr : connects sc net t.idx t.cfg with
        | true =>
          have f1 := e1 { t with pc := ScanPc.send }
          have f2 := e2 { t with pc := ScanPc.send }
          have f3 := e3 { t with pc := ScanPc.send }
          have f4 := e4 { t with pc := ScanPc.send }
          have f5 := e5 { t with pc := ScanPc.send }
          simp only [ScanTask.live, ScanTask.holding, ScanTask.unsent, ScanTask.weight,
            ScanTask.owed, hpc, hr, if_true] at f1 f2 f3 f4 f5
          refine ⟨⟨?_, ?_, ?_, absent_iff, closed_iff, ?_, ret, rfl, ?_⟩, ?_⟩
          · simp only [if_true]; omega
          · simp only [if_true]; omega
          · simp only [if_true]; omega
          · intro hd; have := done_wg hd; simp only; omega
          · simp only [List.length_set, if_true]
            rw [add_right_cancel f5]
            exact owe
          · simp only [scanMeasure, if_true]; omega
        | false =>
          have f1 := e1 { t with pc := ScanPc.release }
          have f2 := e2 { t with pc := ScanPc.release }
          have f3 := e3 { t with pc := ScanPc.release }
          have f4 := e4 { t with pc := ScanPc.release }
          have f5 := e5 { t with pc := ScanPc.release }
          simp only [ScanTask.live, ScanTask.holding, ScanTask.unsent, ScanTask.weight,
            ScanTask.owed, hpc, hr, Bool.false_eq_true, if_false] at f1 f2 f3 f4 f5
          refine ⟨⟨?_, ?_, ?_, absent_iff, closed_iff, ?_, ret, rfl, ?_⟩, ?_⟩
          · simp only [Bool.false_eq_true, if_false]; omega
          · simp only [Bool.false_eq_true, if_false]; omega
          · simp only [Bool.false_eq_true, if_false]; omega
          · intro hd; have := done_wg hd; simp only; omega
          · simp only [List.length_set, Bool.false_eq_true, if_false]
            rw [add_right_cancel f5]
            exact owe
          · simp only [scanMeasure, Bool.false_eq_true, if_false]; omega
      | send =>
        have f1 := e1 { t with pc := ScanPc.release }
        have f2 := e2 { t with pc := ScanPc.release }
        have f3 := e3 { t with pc := ScanPc.release }
        have f4 := e4 { t with pc := ScanPc.release }
        have f5 := e5 { t with pc := ScanPc.release }
        simp only [ScanTask.live, ScanTask.holding, ScanTask.unsent, ScanTask.weight,
          ScanTask.owed, hpc] at f1 f2 f3 f4 f5
        have hopen : s.closed = false := by
          cases hc : s.closed with
          | false => rfl
          | true =>
            have := done_wg (closed_iff.mp hc)
            have g1 := e1 { t with pc := ScanPc.done }
            simp only [ScanTask.live, hpc] at g1
            omega
        simp only [hpc, hopen, Bool.false_eq_true, if_false] at h
        by_cases hroom : s.results.length < cap
        · simp only [hroom, if_true, Option.some.injEq] at h
          subst h
          refine ⟨⟨?_, ?_, ?_, absent_iff, ?_, ?_, ?_, rfl, ?_⟩, ?_⟩
          · simp only; omega
          · simp only; omega
          · simp only [List.length_append, List.length_singleton]; omega
          · simpa [hopen] using closed_iff
          · intro hd; have := done_wg hd; simp only; omega
          · intro hr
            have := (ret hr).1
            rw [hopen] at this
            cases this
          · simp only [List.length_set]
            rw [add_zero] at f5
            rw [← owe, ← f5]
            simp only [coe_append_add, coe_cons_add, coe_nil_zero]
            abel
          · simp only [scanMeasure, List.length_append, List.length_singleton]; omega
        · exfalso
          omega
      | release =>
        have hsem : 0 < s.sem := by
          have g2 := e2 { t with pc := ScanPc.done }
          simp only [ScanTask.holding, hpc] at g2
          omega
        simp only [hpc, hsem, if_true, Option.some.injEq] at h
        subst h
        have f1 := e1 { t with pc := ScanPc.finish }
        have f2 := e2 { t with pc := ScanPc.finish }
        have f3 := e3 { t with pc := ScanPc.finish }
        have f4 := e4 { t with pc := ScanPc.finish }
        have f5 := e5 { t with pc := ScanPc.finish }
        simp only [ScanTask.live, ScanTask.holding, ScanTask.unsent, ScanTask.weight,
          ScanTask.owed, hpc] at f1 f2 f3 f4 f5
        refine ⟨⟨?_, ?_, ?_, absent_iff, closed_iff, ?_, ret, rfl, ?_⟩, ?_⟩
        · simp only; omega
        · simp only; omega
        · simp only; omega
        · intro hd; have := done_wg hd; simp only; omega
        · simp only [List.length_set]
          rw [add_right_cancel f5]
          exact owe
        · simp only [scanMeasure]; omega
      | finish =>
        have hwg : 0 < s.wg := by
          have g1 := e1 { t with pc := ScanPc.done }
          simp only [ScanTask.live, hpc] at g1
          omega
        simp only [hpc, hwg, if_true, Option.some.injEq] at h
        subst h
        have f1 := e1 { t with pc := ScanPc.done }
        have f2 := e2 { t with pc := ScanPc.done }
        have f3 := e3 { t with pc := ScanPc.done }
        have f4 := e4 { t with pc := ScanPc.done }
        have f5 := e5 { t with pc := ScanPc.done }
        simp only [ScanTask.live, ScanTask.holding, ScanTask.unsent, ScanTask.weight,
          ScanTask.owed, hpc] at f1 f2 f3 f4 f5
        refine ⟨⟨?_, ?_, ?_, absent_iff, closed_iff, ?_, ret, rfl, ?_⟩, ?_⟩
        · simp only; omega
        · simp only; omega
        · simp only; omega
        · intro hd; have := done_wg hd; simp only; omega
        · simp only [List.length_set]
          rw [add_right_cancel f5]
          exact owe
        · simp only [scanMeasure]; omega
      | done => simp [hpc] at h

theorem scanInit_inv (sc : Scanner) (net : Network) (configs : List Config) :
    ScanInv sc net configs.length (connected sc net 0 configs : Multiset Config)
      (scanInit configs) := by
  refine ⟨rfl, rfl, ?_, ?_, ?_, ?_, ?_, rfl, ?_⟩
  · simp [scanInit, total_nil, ScanMainPc.pending]
  · simp [scanInit]
  · simp [scanInit]
  · simp [scanInit]
  · simp [scanInit]
  · simp [scanInit, total_nil, ScanMainPc.pending]

theorem scanStep_mem_goroutines (sc : Scanner) (net : Network) (cap : Nat) (g : ScanGo)
    (s : ScanState) (h : (scanStep sc net cap g s).isSome = true) : g ∈ scanGoroutines s := by
  cases g with
  | main => simp [scanGoroutines]
  | closer => simp [scanGoroutines]
  | task i =>
    unfold scanStep at h
    split at h
    · simp at h
    · simp only at h
      cases hget : s.tasks[i]? with
      | none => simp [hget] at h
      | some t =>
        have hi : i < s.tasks.length := by
          by_contra hn
          rw [List.getElem?_eq_none (by omega)] at hget
          cases hget
        simp [scanGoroutines, hi]

theorem scanEnabled_of_step (sc : Scanner) (net : Network) (cap : Nat) (g : ScanGo)
    (s : ScanState) (h : (scanStep sc net cap g s).isSome = true) :
    scanEnabled sc net cap s ≠ [] := by
  have hm : g ∈ scanEnabled sc net cap s := by
    unfold scanEnabled
    exact List.mem_filter.mpr ⟨scanStep_mem_goroutines sc net cap g s h, h⟩
  exact List.ne_nil_of_mem hm

/-- Progress: while `ScanConfigs` has not returned, some goroutine can move. -/
theorem scan_progress (sc : Scanner) (net : Network) (cap : Nat) (target : Multiset Config)
    (s : ScanState) (inv : ScanInv sc net cap target s) (hret : s.main ≠ ScanMainPc.returned) :
    ∃ g, (scanStep sc net cap g s).isSome = true := by
  obtain ⟨wg_eq, sem_eq, cap_ok, absent_iff, closed_iff, done_wg, ret, calm, owe⟩ := inv
  cases hm : s.main with
  | returned => exact absurd hm hret
  | spawn rest =>
    cases rest with
    | nil => exact ⟨ScanGo.main, by simp [scanStep, calm, hm]⟩
    | cons c rest => exact ⟨ScanGo.main, by simp [scanStep, calm, hm]⟩
  | collect =>
    cases hres : s.results with
    | cons c rs => exact ⟨ScanGo.main, by simp [scanStep, calm, hm, hres]⟩
    | nil =>
      cases hc : s.closed with
      | true => exact ⟨ScanGo.main, by simp [scanStep, calm, hm, hres, hc]⟩
      | false =>
        have hwait : s.closer = CloserPc.waiting := by
          cases hcl : s.closer with
          | waiting => rfl
          | absent =>
            obtain ⟨r, hr⟩ := absent_iff.mp hcl
            rw [hm] at hr
            cases hr
          | done =>
            rw [closed_iff.mpr hcl] at hc
            cases hc
        by_cases hw : s.wg = 0
        · exact ⟨ScanGo.closer, by simp [scanStep, calm, hwait, hw]⟩
        · -- some goroutine has not finished
          have room : ∀ (j : Nat) (u : ScanTask), s.tasks[j]? = some u → u.unsent = 1 →
              s.results.length < cap := by
            intro j u hu hun
            have := total_set ScanTask.unsent u { u with pc := ScanPc.done } s.tasks j hu
            simp only [ScanTask.unsent, hun] at this
            simp only [ScanTask.unsent] at hun
            omega
          have moves : ∀ (j : Nat) (u : ScanTask), s.tasks[j]? = some u →
              u.pc ≠ ScanPc.done → u.pc ≠ ScanPc.acquire →
              ∃ g, (scanStep sc net cap g s).isSome = true := by
            intro j u hu hnd hna
            cases hpc : u.pc with
            | done => exact absurd hpc hnd
            | acquire => exact absurd hpc hna
            | check => exact ⟨ScanGo.task j, by simp [scanStep, calm, hu, hpc]⟩
            | send =>
              have := room j u hu (by simp [ScanTask.unsent, hpc])
              exact ⟨ScanGo.task j, by simp [scanStep, calm, hu, hpc, hc, this]⟩
            | release =>
              have g2 := total_set ScanTask.holding u { u with pc := ScanPc.done } s.tasks j hu
              simp only [ScanTask.holding, hpc] at g2
              have : 0 < s.sem := by omega
              exact ⟨ScanGo.task j, by simp [scanStep, calm, hu, hpc, this]⟩
            | finish =>
              have : 0 < s.wg := by omega
              exact ⟨ScanGo.task j, by simp [scanStep, calm, hu, hpc, this]⟩
          obtain ⟨i, t, ht, hlive⟩ := total_pos_exists ScanTask.live s.tasks (by omega)
          have hnd : t.pc ≠ ScanPc.done := by
            intro hd
            simp [ScanTask.live, hd] at hlive
          by_cases hacq : t.pc = ScanPc.acquire
          · by_cases hs : s.sem < 1000
            · exact ⟨ScanGo.task i, by simp [scanStep, calm, ht, hacq, hs]⟩
            · obtain ⟨j, u, hu, hhold⟩ := total_pos_exists ScanTask.holding s.tasks (by omega)
              apply moves j u hu
              · intro hd
                simp [ScanTask.holding, hd] at hhold
              · intro hd
                simp [ScanTask.holding, hd] at hhold
          · exact moves i t ht hnd hacq

theorem scanRun_returns (sc : Scanner) (net : Network) (cap : Nat) (target : Multiset Config)
    (sched : Nat → Nat) :
    ∀ fuel k s, ScanInv sc net cap target s → scanMeasure s ≤ fuel →
      ScanInv sc net cap target (scanRun sc net cap sched fuel k s) ∧
      (scanRun sc net cap sched fuel k s).main = ScanMainPc.returned := by
  intro fuel
  induction fuel with
  | zero =>
    intro k s inv hm
    refine ⟨inv, ?_⟩
    by_contra hret
    obtain ⟨g, hg⟩ := scan_progress sc net cap target s inv hret
    obtain ⟨s', hs'⟩ := Option.isSome_iff_exists.mp hg
    have := (scanStep_inv sc net cap target g s s' inv hs').2
    omega
  | succ fuel ih =>
    intro k s inv hm
    cases hen : scanEnabled sc net cap s with
    | nil =>
      simp only [scanRun, hen]
      refine ⟨inv, ?_⟩
      by_contra hret
      obtain ⟨g, hg⟩ := scan_progress sc net cap target s inv hret
      exact scanEnabled_of_step sc net cap g s hg hen
    | cons g gs =>
      have hlt : sched k % (gs.length + 1) < (g :: gs).length := by
        simp only [List.length_cons]
        exact Nat.mod_lt _ (by omega)
      have hmem : (g :: gs).getD (sched k % (gs.length + 1)) g ∈ scanEnabled sc net cap s := by
        rw [hen, List.getD_eq_getElem _ _ hlt]
        exact List.getElem_mem _
      have hsome := (List.mem_filter.mp hmem).2
      obtain ⟨s', hs'⟩ := Option.isSome_iff_exists.mp hsome
      simp only [scanRun, hen, hs']
      have hstep := scanStep_inv sc net cap target _ s s' inv hs'
      exact ih (k + 1) s' hstep.1 (by omega)

theorem total_eq_zero {α M : Type} [AddCommMonoid M] (f : α → M) (l : List α)
    (h : ∀ x ∈ l, f x = 0) : total f l = 0 := by
  induction l with
  | nil => rfl
  | cons a l ih =>
    rw [total_cons, h a (List.mem_cons_self _ _), ih (fun x hx => h x (List.mem_cons_of_mem _ hx))]
    simp

theorem mem_connected (sc : Scanner) (net : Network) (c : Config) :
    ∀ (l : List Config) (i : Nat), c ∈ connected sc net i l →
      c ∈ l ∧ c.Address ≠ "" ∧ c.Port ≠ 0 := by
  intro l
  induction l with
  | nil => intro i h; simp [connected] at h
  | cons a l ih =>
    intro i h
    simp only [connected] at h
    split at h
    · rename_i hc
      rcases List.mem_cons.mp h with rfl | h
      · simp only [connects, Bool.and_eq_true, decide_eq_true_eq] at hc
        exact ⟨List.mem_cons_self _ _, hc.1⟩
      · have := ih (i + 1) h
        exact ⟨List.mem_cons_of_mem _ this.1, this.2⟩
    · have := ih (i + 1) h
      exact ⟨List.mem_cons_of_mem _ this.1, this.2⟩

/-- Under every schedule `ScanConfigs` returns, and what it returns is a
rearrangement of the configs that connect. -/
theorem ScanConfigs_spec (sc : Scanner) (configs : List Config) (net : Network)
    (sched : Nat → Nat) :
    ∃ r, ScanConfigs sc configs net sched = some r ∧ r.Perm (connected sc net 0 configs) := by
  have hrun := scanRun_returns sc net configs.length (connected sc net 0 configs : Multiset Config)
    sched (scanFuel configs) 0 (scanInit configs) (scanInit_inv sc net configs)
    (by simp [scanMeasure, scanInit, scanFuel, ScanMainPc.weight, CloserPc.weight, total_nil]
        omega)
  obtain ⟨inv, hret⟩ := hrun
  refine ⟨(scanFinal sc configs net sched).liveConfigs, ?_, ?_⟩
  · unfold ScanConfigs
    have : (scanFinal sc configs net sched).main = ScanMainPc.returned := hret
    rw [this]
  · have hret' : (scanFinal sc configs net sched).main = ScanMainPc.returned := hret
    have inv' : ScanInv sc net configs.length (connected sc net 0 configs : Multiset Config)
        (scanFinal sc configs net sched) := inv
    obtain ⟨wg_eq, _, _, _, closed_iff, done_wg, ret, _, owe⟩ := inv'
    obtain ⟨hclosed, hres⟩ := ret hret'
    have hwg := done_wg (closed_iff.mp hclosed)
    have hdone : ∀ t ∈ (scanFinal sc configs net sched).tasks, ScanTask.owed sc net t = 0 := by
      intro t ht
      have := total_zero_of_mem ScanTask.live _ (by omega : total ScanTask.live
        (scanFinal sc configs net sched).tasks = 0) t ht
      unfold ScanTask.live at this
      unfold ScanTask.owed
      split at this
      · rename_i hpc
        simp [hpc]
      · omega
    rw [total_eq_zero _ _ hdone, hret', hres] at owe
    simp only [ScanMainPc.pending, connected, coe_nil_zero, add_zero] at owe
    exact Multiset.coe_eq_coe.mp owe

/-- C4: for every input list, every network and every schedule of the
goroutines, `ScanConfigs` returns, and the returned list is a rearrangement of
the input descriptors whose connect attempt succeeded, each once per
occurrence and unmodified. -/
theorem ScanConfigs_returns_connected (sc : Scanner) (configs : List Config) (net : Network)
    (sched : Nat → Nat) :
    ∃ r, ScanConfigs sc configs net sched = some r ∧
      r.Perm (connected sc net 0 configs) ∧
      (∀ c, c ∈ r → c ∈ configs) ∧
      (∀ c, r.count c = (connected sc net 0 configs).count c) := by
  obtain ⟨r, hr, hp⟩ := ScanConfigs_spec sc configs net sched
  refine ⟨r, hr, hp, fun c hc => ?_, fun c => hp.count_eq c⟩
  exact (mem_connected sc net c configs 0 (hp.subset hc)).1

/-- C3: a descriptor whose address is empty or whose port is 0 makes `isAlive`
answer false without any dial, and no schedule and no network make
`ScanConfigs` return it. -/
theorem isAlive_rejects_without_dial (sc : Scanner) (config : Config)
    (h : config.Address = "" ∨ config.Port = 0) :
    (∀ dial, isAlive sc config dial = (false, [])) ∧
    (∀ configs net sched, ∃ r, ScanConfigs sc configs net sched = some r ∧ config ∉ r) := by
  constructor
  · intro dial
    simp [isAlive, h]
  · intro configs net sched
    obtain ⟨r, hr, hp⟩ := ScanConfigs_spec sc configs net sched
    refine ⟨r, hr, fun hc => ?_⟩
    have := (mem_connected sc net config configs 0 (hp.subset hc)).2
    rcases h with h | h
    · exact this.1 h
    · exact this.2 h

/-- A descriptor with port 0 is rejected without a dial and never returned. -/
theorem isAlive_rejects_without_dial_witness :
    (∀ dial, isAlive scanner0 config1 dial = (false, [])) ∧
    (∀ configs net sched, ∃ r, ScanConfigs scanner0 configs net sched = some r ∧ config1 ∉ r) :=
  isAlive_rejects_without_dial scanner0 config1 (Or.inr rfl)

/-! ## TestConfigs -/

theorem total_le_length {α : Type} (f : α → Nat) (hf : ∀ x, f x ≤ 1) (l : List α) :
    total f l ≤ l.length := by
  induction l with
  | nil => simp [total_nil]
  | cons a l ih =>
    rw [total_cons, List.length_cons]
    have := hf a
    omega

theorem total_add {α : Type} (f g : α → Nat) (l : List α) :
    total (fun x => f x + g x) l = total f l + total g l := by
  induction l with
  | nil => simp [total_nil]
  | cons a l ih =>
    simp only [total_cons, ih]
    omega

theorem exited_pos_of_all_done (l : List WorkerPc) (h : total WorkerPc.live l = 0)
    (hne : l ≠ []) : 0 < total WorkerPc.exited l := by
  cases l with
  | nil => exact absurd rfl hne
  | cons a l =>
    rw [total_cons] at h ⊢
    cases a <;> simp [WorkerPc.live, WorkerPc.exited] at h ⊢

theorem testStep_inv (t : Tester) (configs : List Config) (notify : Bool)
    (world : Nat → ProbeEnv) (k : Nat) (g : TestGo) (s s' : TestState)
    (inv : TestInv t configs world s)
    (h : testStep t configs notify world k g s = some s') (hearly : s'.early = false) :
    TestInv t configs world s' ∧
      testMeasure t configs.length s' < testMeasure t configs.length s := by
  obtain ⟨timely, calm, wg_eq, sem_eq, room, len_eq, len_le, feeder_absent, closer_absent,
    jobs_closed, exited, closed_iff, done_all, ret, res, inp⟩ := inv
  unfold testStep at h
  simp only [calm, Bool.false_eq_true, if_false] at h
  cases g with
  | main =>
    simp only at h
    cases hm : s.main with
    | spawnCloser =>
      simp only [hm, Option.some.injEq] at h
      subst h
      have hcl : s.closer = CloserPc.absent := closer_absent.mpr hm
      have hopen : s.closed = false := by
        cases hc : s.closed with
        | false => rfl
        | true => rw [closed_iff.mp hc] at hcl; cases hcl
      refine ⟨⟨timely, rfl, wg_eq, sem_eq, room, ?_, len_le, ?_, ?_, jobs_closed, exited, ?_,
        ?_, ?_, res, inp⟩, ?_⟩
      · simpa [hm, TestMainPc.spawned] using len_eq
      · simpa [hm, TestMainPc.spawning] using feeder_absent
      · simp
      · simp [hopen]
      · simp
      · simp
      · simp [testMeasure, hm, hcl, TestMainPc.weight, CloserPc.weight]
    | spawnWorkers i =>
      have hfa : s.feeder = FeederPc.absent := feeder_absent.mpr (by simp [hm, TestMainPc.spawning])
      have hnd : s.closer ≠ CloserPc.done := by
        intro hd
        have := (done_all hd).2.2.2
        simp [hm, TestMainPc.spawning] at this
      have hlen : s.workers.length = i := by simpa [hm, TestMainPc.spawned] using len_eq
      simp only [hm] at h
      by_cases hi : i < t.maxWorkers
      · simp only [hi, if_true, Option.some.injEq] at h
        subst h
        refine ⟨⟨timely, rfl, ?_, ?_, ?_, ?_, ?_, ?_, ?_, jobs_closed, ?_, closed_iff, ?_, ?_,
          ?_, ?_⟩, ?_⟩
        · simp [total_append, total_cons, total_nil, WorkerPc.live, wg_eq]
        · simp [total_append, total_cons, total_nil, WorkerPc.holding, sem_eq]
        · simpa [total_append, total_cons, total_nil, WorkerPc.inflight] using room
        · simp [TestMainPc.spawned, hlen]
        · simp only [List.length_append, List.length_singleton]; omega
        · simpa [hm, TestMainPc.spawning] using feeder_absent
        · simpa [hm] using closer_absent
        · simpa [total_append, total_cons, total_nil, WorkerPc.exited] using exited
        · intro hd; exact absurd hd hnd
        · simp
        · simpa [total_append, total_cons, total_nil, WorkerPc.sending] using res
        · simpa [total_append, total_cons, total_nil, WorkerPc.uncalled] using inp
        · simp only [testMeasure, hm, TestMainPc.weight, total_append, total_cons, total_nil,
            WorkerPc.weight]
          omega
      · simp only [hi, if_false, Option.some.injEq] at h
        subst h
        have hjc : s.jobsClosed = false := by
          cases hj : s.jobsClosed with
          | false => rfl
          | true => rw [jobs_closed.mp hj] at hfa; cases hfa
        refine ⟨⟨timely, rfl, wg_eq, sem_eq, ?_, ?_, len_le, ?_, ?_, ?_, ?_, closed_iff, ?_, ?_,
          res, ?_⟩, ?_⟩
        · simpa [hfa, FeederPc.rest] using room
        · simp only [TestMainPc.spawned]; omega
        · simp [TestMainPc.spawning]
        · simpa [hm] using closer_absent
        · simp [hjc]
        · intro hx
          have := (exited hx).1
          rw [hjc] at this
          cases this
        · intro hd; exact absurd hd hnd
        · simp
        · simpa [hfa, FeederPc.rest] using inp
        · simp only [testMeasure, hm, hfa, TestMainPc.weight, FeederPc.weight]
          omega
    | collect =>
      simp only [hm] at h
      cases hres : s.results with
      | nil =>
        simp only [hres] at h
        cases hc : s.closed with
        | false => simp [hc] at h
        | true =>
          simp only [hc, if_true, Option.some.injEq] at h
          subst h
          simp only [hres] at room res
          refine ⟨⟨timely, rfl, wg_eq, sem_eq, ?_, ?_, len_le, ?_, ?_,
            jobs_closed, exited, ?_, ?_, ?_, ?_, inp⟩, ?_⟩
          · simpa using room
          · simpa [hm, TestMainPc.spawned] using len_eq
          · simpa [hm, TestMainPc.spawning] using feeder_absent
          · simpa [hm] using closer_absent
          · simpa [hc] using closed_iff
          · intro hd
            have := done_all hd
            exact ⟨this.1, this.2.1, this.2.2.1, rfl⟩
          · simp
          · simpa using res
          · simp only [testMeasure, hm, hres, TestMainPc.weight, List.length_nil]
            omega
      | cons c rs =>
        simp only [hres, Option.some.injEq] at h
        subst h
        simp only [hres, List.length_cons] at room res
        refine ⟨⟨timely, rfl, wg_eq, sem_eq, ?_, ?_, len_le, ?_, ?_,
          jobs_closed, exited, closed_iff, ?_, ?_, ?_, inp⟩, ?_⟩
        · simp only; omega
        · simpa [hm, TestMainPc.spawned] using len_eq
        · simpa [hm, TestMainPc.spawning] using feeder_absent
        · simpa [hm] using closer_absent
        · intro hd
          have := done_all hd
          exact ⟨this.1, this.2.1, this.2.2.1, rfl⟩
        · simp
        · rw [← res]
          simp only [coe_cons_add, coe_append_add, coe_nil_zero]
          abel
        · simp only [testMeasure, hm, hres, List.length_cons]
          omega
    | returned => simp [hm] at h
  | closer =>
    simp only at h
    cases hc : s.closer with
    | absent => simp [hc] at h
    | done => simp [hc] at h
    | waiting =>
      simp only [hc] at h
      by_cases hw : s.wg = 0
      · simp only [hw, if_true, Option.some.injEq] at h
        subst h
        simp only [timely, Bool.false_or, List.isEmpty_eq_true] at hearly
        have hne : s.workers ≠ [] := by
          intro hnil
          rw [hnil] at hearly
          simp at hearly
        have hex := exited (exited_pos_of_all_done s.workers (by omega) hne)
        have hfd := jobs_closed.mp hex.1
        have hsp : s.main.spawning = false := by
          cases hs : s.main.spawning with
          | false => rfl
          | true => rw [feeder_absent.mpr hs] at hfd; cases hfd
        refine ⟨⟨?_, rfl, ?_, sem_eq, room, len_eq, len_le, feeder_absent, ?_, jobs_closed,
          exited, ?_, ?_, ?_, res, inp⟩, ?_⟩
        · simpa [timely] using hearly
        · simpa [hw] using wg_eq
        · simpa [hc] using closer_absent
        · simp
        · intro _; exact ⟨rfl, hex.1, hex.2, hsp⟩
        · intro hr
          have := (ret hr).1
          rw [closed_iff.mp this] at hc
          cases hc
        · simp [testMeasure, hc, CloserPc.weight]
      · simp [hw] at h
  | feeder =>
    simp only at h
    have hjc : ∀ rest, s.feeder = FeederPc.feeding rest → s.jobsClosed = false := by
      intro rest hf
      cases hj : s.jobsClosed with
      | false => rfl
      | true => rw [jobs_closed.mp hj] at hf; cases hf
    cases hf : s.feeder with
    | absent => simp [hf] at h
    | done => simp [hf] at h
    | feeding rest =>
      have hjc := hjc rest hf
      have hnd : s.closer ≠ CloserPc.done := by
        intro hd
        have := (done_all hd).2.1
        rw [hjc] at this
        cases this
      have hnx : ¬ 0 < total WorkerPc.exited s.workers := by
        intro hx
        have := (exited hx).1
        rw [hjc] at this
        cases this
      have hsp : ¬ s.main.spawning = true := by
        intro hs
        rw [feeder_absent.mpr hs] at hf
        cases hf
      simp only [hf, FeederPc.rest] at room inp
      cases rest with
      | nil =>
        simp only [hf, Option.some.injEq] at h
        subst h
        refine ⟨⟨timely, rfl, wg_eq, sem_eq, ?_, len_eq, len_le, ?_, closer_absent, ?_,
          ?_, closed_iff, ?_, ret, res, ?_⟩, ?_⟩
        · simpa [FeederPc.rest] using room
        · simp [hsp]
        · simp
        · intro hx; exact absurd hx hnx
        · intro hd; exact absurd hd hnd
        · simpa [FeederPc.rest] using inp
        · simp [testMeasure, hf, FeederPc.weight]
      | cons c rest =>
        simp only [hf] at h
        by_cases hroom : s.jobs.length < configs.length
        · simp only [hroom, if_true, Option.some.injEq] at h
          subst h
          refine ⟨⟨timely, rfl, wg_eq, sem_eq, ?_, len_eq, len_le, ?_, closer_absent, ?_,
            ?_, closed_iff, ?_, ret, res, ?_⟩, ?_⟩
          · simp only [FeederPc.rest, List.length_append, List.length_singleton,
              List.length_cons, List.length_nil] at room ⊢
            omega
          · simp [hsp]
          · simp [hjc]
          · intro hx; exact absurd hx hnx
          · intro hd; exact absurd hd hnd
          · rw [← inp]
            simp only [FeederPc.rest, coe_cons_add, coe_append_add, coe_nil_zero]
            abel
          · simp only [testMeasure, hf, FeederPc.weight, List.length_append,
              List.length_singleton, List.length_cons, List.length_nil]
            omega
        · simp [hroom] at h
  | worker i =>
    simp only at h
    cases hget : s.workers[i]? with
    | none => simp [hget] at h
    | some pc =>
      simp only [hget] at h
      have e1 := fun y => total_set WorkerPc.live pc y s.workers i hget
      have e2 := fun y => total_set WorkerPc.holding pc y s.workers i hget
      have e3 := fun y => total_set WorkerPc.inflight pc y s.workers i hget
      have e4 := fun y => total_set WorkerPc.weight pc y s.workers i hget
      have e5 := fun y => total_set WorkerPc.exited pc y s.workers i hget
      have e6 := fun y => total_set WorkerPc.sending pc y s.workers i hget
      have e7 := fun y => total_set WorkerPc.uncalled pc y s.workers i hget
      have hnd : pc ≠ WorkerPc.done → s.closer ≠ CloserPc.done := by
        intro hpc hd
        have hz := (done_all hd).1
        have g1 := e1 WorkerPc.done
        cases pc <;> simp [WorkerPc.live] at g1 hpc <;> omega
      have hopen : pc ≠ WorkerPc.done → s.closed = false := by
        intro hpc
        cases hc : s.closed with
        | false => rfl
        | true => exact absurd (closed_iff.mp hc) (hnd hpc)
      have hret : pc ≠ WorkerPc.done → s.main ≠ TestMainPc.returned := by
        intro hpc hr
        have := (ret hr).1
        rw [hopen hpc] at this
        cases this
      cases pc with
      | recv =>
        have hnd := hnd (by simp)
        cases hj : s.jobs with
        | nil =>
          simp only [hj] at h
          cases hjc : s.jobsClosed with
          | false => simp [hjc] at h
          | true =>
            simp only [hjc, if_true, Option.some.injEq] at h
            subst h
            have f1 := e1 (WorkerPc.finish)
            have f2 := e2 (WorkerPc.finish)
            have f3 := e3 (WorkerPc.finish)
            have f4 := e4 (WorkerPc.finish)
            have f5 := e5 (WorkerPc.finish)
            have f6 := e6 (WorkerPc.finish)
            have f7 := e7 (WorkerPc.finish)
            simp only [WorkerPc.live, WorkerPc.holding, WorkerPc.inflight, WorkerPc.weight, WorkerPc.exited,
          WorkerPc.sending, WorkerPc.uncalled, add_zero] at f1 f2 f3 f4 f5 f6 f7
            refine ⟨⟨timely, rfl, ?_, ?_, ?_, ?_, ?_, feeder_absent, closer_absent, ?_, ?_,
              closed_iff, ?_, ?_, ?_, ?_⟩, ?_⟩
            · simp only; omega
            · simp only; omega
            · simp only [hj] at room ⊢; omega
            · simp only [List.length_set]; exact len_eq
            · simp only [List.length_set]; exact len_le
            · simpa [hjc] using jobs_closed
            · intro _; exact ⟨rfl, rfl⟩
            · intro hd; exact absurd hd hnd
            · simpa [hj] using ret
            · simp only; rw [f6]; exact res
            · simp only [hj] at inp ⊢; rw [f7]; exact inp
            · simp only [testMeasure, hj]; omega
        | cons c js =>
          simp only [hj, Option.some.injEq] at h
          subst h
          have hnx : ¬ 0 < total WorkerPc.exited s.workers := by
            intro hx
            have := (exited hx).2
            rw [hj] at this
            cases this
          have f1 := e1 (WorkerPc.acquire c)
          have f2 := e2 (WorkerPc.acquire c)
          have f3 := e3 (WorkerPc.acquire c)
          have f4 := e4 (WorkerPc.acquire c)
          have f5 := e5 (WorkerPc.acquire c)
          have f6 := e6 (WorkerPc.acquire c)
          have f7 := e7 (WorkerPc.acquire c)
          simp only [WorkerPc.live, WorkerPc.holding, WorkerPc.inflight, WorkerPc.weight, WorkerPc.exited,
          WorkerPc.sending, WorkerPc.uncalled, add_zero] at f1 f2 f3 f4 f5 f6 f7
          simp only [hj, List.length_cons] at room inp
          refine ⟨⟨timely, rfl, ?_, ?_, ?_, ?_, ?_, feeder_absent, closer_absent, jobs_closed, ?_,
            closed_iff, ?_, ?_, ?_, ?_⟩, ?_⟩
          · simp only; omega
          · simp only; omega
          · simp only; omega
          · simp only [List.length_set]; exact len_eq
          · simp only [List.length_set]; exact len_le
          · intro hx; exfalso; simp only at hx; omega
          · intro hd; exact absurd hd hnd
          · simpa [hj] using ret
          · simp only; rw [f6]; exact res
          · simp only
            rw [← inp, f7]
            simp only [coe_cons_add]
            abel
          · simp only [testMeasure, hj, List.length_cons]; omega
      | acquire c =>
        have hnd := hnd (by simp)
        by_cases hs : s.sem < t.maxWorkers
        · simp only [hs, if_true, Option.some.injEq] at h
          subst h
          have f1 := e1 (WorkerPc.measure c)
          have f2 := e2 (WorkerPc.measure c)
          have f3 := e3 (WorkerPc.measure c)
          have f4 := e4 (WorkerPc.measure c)
          have f5 := e5 (WorkerPc.measure c)
          have f6 := e6 (WorkerPc.measure c)
          have f7 := e7 (WorkerPc.measure c)
          simp only [WorkerPc.live, WorkerPc.holding, WorkerPc.inflight, WorkerPc.weight, WorkerPc.exited,
          WorkerPc.sending, WorkerPc.uncalled, add_zero] at f1 f2 f3 f4 f5 f6 f7
          refine ⟨⟨timely, rfl, ?_, ?_, ?_, ?_, ?_, feeder_absent, closer_absent, jobs_closed, ?_,
            closed_iff, ?_, ret, ?_, ?_⟩, ?_⟩
          · simp only; omega
          · simp only; omega
          · simp only; omega
          · simp only [List.length_set]; exact len_eq
          · simp only [List.length_set]; exact len_le
          · intro hx; apply exited; simp only at hx; omega
          · intro hd; exact absurd hd hnd
          · simp only; rw [f6]; exact res
          · simp only; rw [add_right_cancel f7]; exact inp
          · simp only [testMeasure]; omega
        · simp [hs] at h
      | measure c =>
        have hnd := hnd (by simp)
        simp only [Option.some.injEq] at h
        subst h
        have f1 := e1 (WorkerPc.send (setLatency c (MeasureLatency t c (world k))))
        have f2 := e2 (WorkerPc.send (setLatency c (MeasureLatency t c (world k))))
        have f3 := e3 (WorkerPc.send (setLatency c (MeasureLatency t c (world k))))
        have f4 := e4 (WorkerPc.send (setLatency c (MeasureLatency t c (world k))))
        have f5 := e5 (WorkerPc.send (setLatency c (MeasureLatency t c (world k))))
        have f6 := e6 (WorkerPc.send (setLatency c (MeasureLatency t c (world k))))
        have f7 := e7 (WorkerPc.send (setLatency c (MeasureLatency t c (world k))))
        simp only [WorkerPc.live, WorkerPc.holding, WorkerPc.inflight, WorkerPc.weight, WorkerPc.exited,
          WorkerPc.sending, WorkerPc.uncalled, add_zero] at f1 f2 f3 f4 f5 f6 f7
        refine ⟨⟨timely, rfl, ?_, ?_, ?_, ?_, ?_, feeder_absent, closer_absent, jobs_closed, ?_,
          closed_iff, ?_, ret, ?_, ?_⟩, ?_⟩
        · simp only; omega
        · simp only; omega
        · simp only; omega
        · simp only [List.length_set]; exact len_eq
        · simp only [List.length_set]; exact len_le
        · intro hx; apply exited; simp only at hx; omega
        · intro hd; exact absurd hd hnd
        · simp only [List.map_append, List.map_cons, List.map_nil, coe_append_add, coe_cons_add,
            coe_nil_zero, resultOf]
          rw [← res, f6]
          abel
        · simp only [List.map_append, List.map_cons, List.map_nil, coe_append_add, coe_cons_add,
            coe_nil_zero]
          rw [← inp, ← f7]
          abel
        · simp only [testMeasure]; omega
      | send c =>
        have hnd := hnd (by simp)
        have hopen := hopen (by simp)
        have hret := hret (by simp)
        simp only [hopen, Bool.false_eq_true, if_false] at h
        by_cases hroom : s.results.length < configs.length
        · simp only [hroom, if_true, Option.some.injEq] at h
          subst h
          cases notify with
          | true =>
            have f1 := e1 (WorkerPc.notify)
            have f2 := e2 (WorkerPc.notify)
            have f3 := e3 (WorkerPc.notify)
            have f4 := e4 (WorkerPc.notify)
            have f5 := e5 (WorkerPc.notify)
            have f6 := e6 (WorkerPc.notify)
            have f7 := e7 (WorkerPc.notify)
            simp only [WorkerPc.live, WorkerPc.holding, WorkerPc.inflight, WorkerPc.weight, WorkerPc.exited,
          WorkerPc.sending, WorkerPc.uncalled, add_zero] at f1 f2 f3 f4 f5 f6 f7
            refine ⟨⟨timely, rfl, ?_, ?_, ?_, ?_, ?_, feeder_absent, closer_absent, jobs_closed,
              ?_, ?_, ?_, ?_, ?_, ?_⟩, ?_⟩
            · simp only [if_true]; omega
            · simp only [if_true]; omega
            · simp only [if_true, List.length_append, List.length_singleton]; omega
            · simp only [List.length_set]; exact len_eq
            · simp only [List.length_set]; exact len_le
            · intro hx; apply exited; simp only [if_true] at hx; omega
            · simpa [hopen] using closed_iff
            · intro hd; exact absurd hd hnd
            · intro hr; exact absurd hr hret
            · simp only [if_true, coe_append_add, coe_cons_add, coe_nil_zero]
              rw [← res, ← f6]
              abel
            · simp only [if_true]; rw [f7]; exact inp
            · simp only [testMeasure, if_true, List.length_append, List.length_singleton]; omega
          | false =>
            have f1 := e1 (WorkerPc.release)
            have f2 := e2 (WorkerPc.release)
            have f3 := e3 (WorkerPc.release)
            have f4 := e4 (WorkerPc.release)
            have f5 := e5 (WorkerPc.release)
            have f6 := e6 (WorkerPc.release)
            have f7 := e7 (WorkerPc.release)
            simp only [WorkerPc.live, WorkerPc.holding, WorkerPc.inflight, WorkerPc.weight, WorkerPc.exited,
          WorkerPc.sending, WorkerPc.uncalled, add_zero] at f1 f2 f3 f4 f5 f6 f7
            refine ⟨⟨timely, rfl, ?_, ?_, ?_, ?_, ?_, feeder_absent, closer_absent, jobs_closed,
              ?_, ?_, ?_, ?_, ?_, ?_⟩, ?_⟩
            · simp only [Bool.false_eq_true, if_false]; omega
            · simp only [Bool.false_eq_true, if_false]; omega
            · simp only [Bool.false_eq_true, if_false, List.length_append,
                List.length_singleton]
              omega
            · simp only [List.length_set]; exact len_eq
            · simp only [List.length_set]; exact len_le
            · intro hx; apply exited; simp only [Bool.false_eq_true, if_false] at hx; omega
            · simpa [hopen] using closed_iff
            · intro hd; exact absurd hd hnd
            · intro hr; exact absurd hr hret
            · simp only [Bool.false_eq_true, if_false, coe_append_add, coe_cons_add,
                coe_nil_zero]
              rw [← res, ← f6]
              abel
            · simp only [Bool.false_eq_true, if_false]; rw [f7]; exact inp
            · simp only [testMeasure, Bool.false_eq_true, if_false, List.length_append,
                List.length_singleton]
              omega
        · simp [hroom] at h
      | notify =>
        have hnd := hnd (by simp)
        simp only [Option.some.injEq] at h
        subst h
        have f1 := e1 (WorkerPc.release)
        have f2 := e2 (WorkerPc.release)
        have f3 := e3 (WorkerPc.release)
        have f4 := e4 (WorkerPc.release)
        have f5 := e5 (WorkerPc.release)
        have f6 := e6 (WorkerPc.release)
        have f7 := e7 (WorkerPc.release)
        simp only [WorkerPc.live, WorkerPc.holding, WorkerPc.inflight, WorkerPc.weight, WorkerPc.exited,
          WorkerPc.sending, WorkerPc.uncalled, add_zero] at f1 f2 f3 f4 f5 f6 f7
        refine ⟨⟨timely, rfl, ?_, ?_, ?_, ?_, ?_, feeder_absent, closer_absent, jobs_closed, ?_,
          closed_iff, ?_, ret, ?_, ?_⟩, ?_⟩
        · simp only; omega
        · simp only; omega
        · simp only; omega
        · simp only [List.length_set]; exact len_eq
        · simp only [List.length_set]; exact len_le
        · intro hx; apply exited; simp only at hx; omega
        · intro hd; exact absurd hd hnd
        · simp only; rw [f6]; exact res
        · simp only; rw [f7]; exact inp
        · simp only [testMeasure]; omega
      | release =>
        have hnd := hnd (by simp)
        have hsem : 0 < s.sem := by
          have g2 := e2 WorkerPc.done
          simp only [WorkerPc.holding] at g2
          omega
        simp only [hsem, if_true, Option.some.injEq] at h
        subst h
        have f1 := e1 (WorkerPc.recv)
        have f2 := e2 (WorkerPc.recv)
        have f3 := e3 (WorkerPc.recv)
        have f4 := e4 (WorkerPc.recv)
        have f5 := e5 (WorkerPc.recv)
        have f6 := e6 (WorkerPc.recv)
        have f7 := e7 (WorkerPc.recv)
        simp only [WorkerPc.live, WorkerPc.holding, WorkerPc.inflight, WorkerPc.weight, WorkerPc.exited,
          WorkerPc.sending, WorkerPc.uncalled, add_zero] at f1 f2 f3 f4 f5 f6 f7
        refine ⟨⟨timely, rfl, ?_, ?_, ?_, ?_, ?_, feeder_absent, closer_absent, jobs_closed, ?_,
          closed_iff, ?_, ret, ?_, ?_⟩, ?_⟩
        · simp only; omega
        · simp only; omega
        · simp only; omega
        · simp only [List.length_set]; exact len_eq
        · simp only [List.length_set]; exact len_le
        · intro hx; apply exited; simp only at hx; omega
        · intro hd; exact absurd hd hnd
        · simp only; rw [f6]; exact res
        · simp only; rw [f7]; exact inp
        · simp only [testMeasure]; omega
      | finish =>
        have hnd := hnd (by simp)
        have hwg : 0 < s.wg := by
          have g1 := e1 WorkerPc.done
          simp only [WorkerPc.live] at g1
          omega
        simp only [hwg, if_true, Option.some.injEq] at h
        subst h
        have f1 := e1 (WorkerPc.done)
        have f2 := e2 (WorkerPc.done)
        have f3 := e3 (WorkerPc.done)
        have f4 := e4 (WorkerPc.done)
        have f5 := e5 (WorkerPc.done)
        have f6 := e6 (WorkerPc.done)
        have f7 := e7 (WorkerPc.done)
        simp only [WorkerPc.live, WorkerPc.holding, WorkerPc.inflight, WorkerPc.weight, WorkerPc.exited,
          WorkerPc.sending, WorkerPc.uncalled, add_zero] at f1 f2 f3 f4 f5 f6 f7
        refine ⟨⟨timely, rfl, ?_, ?_, ?_, ?_, ?_, feeder_absent, closer_absent, jobs_closed, ?_,
          closed_iff, ?_, ret, ?_, ?_⟩, ?_⟩
        · simp only; omega
        · simp only; omega
        · simp only; omega
        · simp only [List.length_set]; exact len_eq
        · simp only [List.length_set]; exact len_le
        · intro hx; apply exited; simp only at hx; omega
        · intro hd; exact absurd hd hnd
        · simp only; rw [f6]; exact res
        · simp only; rw [f7]; exact inp
        · simp only [testMeasure]; omega
      | done => simp at h

theorem testStep_early (t : Tester) (configs : List Config) (notify : Bool)
    (world : Nat → ProbeEnv) (k : Nat) (g : TestGo) (s s' : TestState)
    (h : testStep t configs notify world k g s = some s') (he : s.early = true) :
    s'.early = true := by
  unfold testStep at h
  split at h
  · cases h
  · cases g <;> simp only at h <;> (repeat' split at h) <;> cases h <;> simp [he]

theorem testRun_early (t : Tester) (configs : List Config) (notify : Bool)
    (world : Nat → ProbeEnv) (sched : Nat → Nat) :
    ∀ fuel k s, s.early = true →
      (testRun t configs notify world sched fuel k s).early = true := by
  intro fuel
  induction fuel with
  | zero => intro k s he; exact he
  | succ fuel ih =>
    intro k s he
    simp only [testRun]
    split
    · exact he
    · split
      · rename_i s' hs'
        exact ih (k + 1) s' (testStep_early t configs notify world k _ s s' hs' he)
      · exact he

theorem testInit_inv (t : Tester) (configs : List Config) (world : Nat → ProbeEnv) :
    TestInv t configs world testInit := by
  refine ⟨rfl, rfl, rfl, rfl, ?_, rfl, ?_, ?_, ?_, ?_, ?_, ?_, ?_, ?_, ?_, ?_⟩ <;>
    simp [testInit, total_nil, FeederPc.rest, TestMainPc.spawning]

theorem testStep_mem_goroutines (t : Tester) (configs : List Config) (notify : Bool)
    (world : Nat → ProbeEnv) (k : Nat) (g : TestGo) (s : TestState)
    (h : (testStep t configs notify world k g s).isSome = true) : g ∈ testGoroutines s := by
  cases g with
  | main => simp [testGoroutines]
  | closer => simp [testGoroutines]
  | feeder => simp [testGoroutines]
  | worker i =>
    unfold testStep at h
    split at h
    · simp at h
    · simp only at h
      cases hget : s.workers[i]? with
      | none => simp [hget] at h
      | some pc =>
        have hi : i < s.workers.length := by
          by_contra hn
          rw [List.getElem?_eq_none (by omega)] at hget
          cases hget
        simp [testGoroutines, hi]

theorem testEnabled_of_step (t : Tester) (configs : List Config) (notify : Bool)
    (world : Nat → ProbeEnv) (k : Nat) (g : TestGo) (s : TestState)
    (h : (testStep t configs notify world k g s).isSome = true) :
    testEnabled t configs notify world k s ≠ [] := by
  have hm : g ∈ testEnabled t configs notify world k s := by
    unfold testEnabled
    exact List.mem_filter.mpr ⟨testStep_mem_goroutines t configs notify world k g s h, h⟩
  exact List.ne_nil_of_mem hm

/-- Progress: while `TestConfigs` has not returned in a run without early
close, some goroutine can move. -/
theorem test_progress (t : Tester) (configs : List Config) (notify : Bool)
    (world : Nat → ProbeEnv) (k : Nat) (s : TestState) (inv : TestInv t configs world s)
    (hret : s.main ≠ TestMainPc.returned) :
    ∃ g, (testStep t configs notify world k g s).isSome = true := by
  obtain ⟨timely, calm, wg_eq, sem_eq, room, len_eq, len_le, feeder_absent, closer_absent,
    jobs_closed, exited, closed_iff, done_all, ret, res, inp⟩ := inv
  cases hm : s.main with
  | returned => exact absurd hm hret
  | spawnCloser => exact ⟨TestGo.main, by simp [testStep, calm, hm]⟩
  | spawnWorkers i =>
    by_cases hi : i < t.maxWorkers
    · exact ⟨TestGo.main, by simp [testStep, calm, hm, hi]⟩
    · exact ⟨TestGo.main, by simp [testStep, calm, hm, hi]⟩
  | collect =>
    cases hres : s.results with
    | cons c rs => exact ⟨TestGo.main, by simp [testStep, calm, hm, hres]⟩
    | nil =>
      cases hc : s.closed with
      | true => exact ⟨TestGo.main, by simp [testStep, calm, hm, hres, hc]⟩
      | false =>
        have hwait : s.closer = CloserPc.waiting := by
          cases hcl : s.closer with
          | waiting => rfl
          | absent =>
            have := closer_absent.mp hcl
            rw [hm] at this
            cases this
          | done =>
            rw [closed_iff.mpr hcl] at hc
            cases hc
        by_cases hw : s.wg = 0
        · exact ⟨TestGo.closer, by simp [testStep, calm, hwait, hw]⟩
        · cases hf : s.feeder with
          | absent =>
            have := feeder_absent.mp hf
            simp [hm, TestMainPc.spawning] at this
          | feeding rest =>
            cases rest with
            | nil => exact ⟨TestGo.feeder, by simp [testStep, calm, hf]⟩
            | cons c rest =>
              have : s.jobs.length < configs.length := by
                simp only [hf, FeederPc.rest, List.length_cons] at room
                omega
              exact ⟨TestGo.feeder, by simp [testStep, calm, hf, this]⟩
          | done =>
            have hjc : s.jobsClosed = true := jobs_closed.mpr hf
            obtain ⟨i, pc, hpc, hlive⟩ := total_pos_exists WorkerPc.live s.workers (by omega)
            have e2 := total_set WorkerPc.acquiring pc WorkerPc.done s.workers i hpc
            have e3 := total_set WorkerPc.inflight pc WorkerPc.done s.workers i hpc
            have hsum := total_le_length (fun x => WorkerPc.holding x + WorkerPc.acquiring x)
              (by intro x; cases x <;> simp [WorkerPc.holding, WorkerPc.acquiring]) s.workers
            rw [total_add] at hsum
            cases pc with
            | done => simp [WorkerPc.live] at hlive
            | recv =>
              cases hj : s.jobs with
              | nil => exact ⟨TestGo.worker i, by simp [testStep, calm, hpc, hj, hjc]⟩
              | cons c js => exact ⟨TestGo.worker i, by simp [testStep, calm, hpc, hj]⟩
            | acquire c =>
              simp only [WorkerPc.acquiring] at e2
              have : s.sem < t.maxWorkers := by omega
              exact ⟨TestGo.worker i, by simp [testStep, calm, hpc, this]⟩
            | measure c => exact ⟨TestGo.worker i, by simp [testStep, calm, hpc]⟩
            | send c =>
              simp only [WorkerPc.inflight] at e3
              have : s.results.length < configs.length := by omega
              exact ⟨TestGo.worker i, by simp [testStep, calm, hpc, hc, this]⟩
            | notify => exact ⟨TestGo.worker i, by simp [testStep, calm, hpc]⟩
            | release =>
              have g2 := total_set WorkerPc.holding WorkerPc.release WorkerPc.done s.workers i hpc
              simp only [WorkerPc.holding] at g2
              have : 0 < s.sem := by omega
              exact ⟨TestGo.worker i, by simp [testStep, calm, hpc, this]⟩
            | finish =>
              have : 0 < s.wg := by omega
              exact ⟨TestGo.worker i, by simp [testStep, calm, hpc, this]⟩

theorem testMeasure_zero (t : Tester) (n : Nat) (s : TestState) (h : testMeasure t n s = 0) :
    s.main = TestMainPc.returned := by
  unfold testMeasure at h
  cases hm : s.main with
  | returned => rfl
  | spawnCloser => simp [hm, TestMainPc.weight] at h
  | spawnWorkers i => simp [hm, TestMainPc.weight] at h
  | collect => simp [hm, TestMainPc.weight] at h

theorem testRun_returns (t : Tester) (configs : List Config) (notify : Bool)
    (world : Nat → ProbeEnv) (sched : Nat → Nat) :
    ∀ fuel k s, TestInv t configs world s → testMeasure t configs.length s ≤ fuel →
      (testRun t configs notify world sched fuel k s).early = false →
      TestInv t configs world (testRun t configs notify world sched fuel k s) ∧
      (testRun t configs notify world sched fuel k s).main = TestMainPc.returned := by
  intro fuel
  induction fuel with
  | zero =>
    intro k s inv hm _
    exact ⟨inv, testMeasure_zero t configs.length s (by omega)⟩
  | succ fuel ih =>
    intro k s inv hm hfin
    cases hen : testEnabled t configs notify world k s with
    | nil =>
      simp only [testRun, hen]
      refine ⟨inv, ?_⟩
      by_contra hret
      obtain ⟨g, hg⟩ := test_progress t configs notify world k s inv hret
      exact testEnabled_of_step t configs notify world k g s hg hen
    | cons g gs =>
      have hlt : sched k % (gs.length + 1) < (g :: gs).length := by
        simp only [List.length_cons]
        exact Nat.mod_lt _ (by omega)
      have hmem : (g :: gs).getD (sched k % (gs.length + 1)) g
          ∈ testEnabled t configs notify world k s := by
        rw [hen, List.getD_eq_getElem _ _ hlt]
        exact List.getElem_mem _
      have hsome := (List.mem_filter.mp hmem).2
      obtain ⟨s', hs'⟩ := Option.isSome_iff_exists.mp hsome
      simp only [testRun, hen, hs'] at hfin ⊢
      have he : s'.early = false := by
        cases h : s'.early with
        | false => rfl
        | true =>
          rw [testRun_early t configs notify world sched fuel (k + 1) s' h] at hfin
          cases hfin
      have hstep := testStep_inv t configs notify world k _ s s' inv hs' he
      exact ih (k + 1) s' hstep.1 (by omega) hfin

/-- In a run in which the closing goroutine does not pass `wg.Wait()` before
the first `wg.Add(1)`, the machine ends with the main goroutine returned,
every config handed to exactly one `MeasureLatency` call and the collected
list made of exactly the results of those calls. -/
theorem testFinal_timely (t : Tester) (configs : List Config) (notify : Bool)
    (world : Nat → ProbeEnv) (sched : Nat → Nat)
    (htimely : (testFinal t configs notify world sched).early = false) :
    (testFinal t configs notify world sched).main = TestMainPc.returned ∧
    (testFinal t configs notify world sched).final.Perm
      ((testFinal t configs notify world sched).calls.map (resultOf t world)) ∧
    ((testFinal t configs notify world sched).calls.map Prod.fst).Perm configs := by
  have hrun := testRun_returns t configs notify world sched (testFuel t configs) 0 testInit
    (testInit_inv t configs world)
    (by simp [testMeasure, testInit, testFuel, TestMainPc.weight, CloserPc.weight,
          FeederPc.weight, total_nil]
        omega)
    htimely
  obtain ⟨inv, hret⟩ := hrun
  have hret' : (testFinal t configs notify world sched).main = TestMainPc.returned := hret
  have inv' : TestInv t configs world (testFinal t configs notify world sched) := inv
  obtain ⟨_, _, wg_eq, _, _, _, _, _, _, jobs_closed, _, closed_iff, done_all, ret, res, inp⟩ :=
    inv'
  obtain ⟨hclosed, hres⟩ := ret hret'
  obtain ⟨hwg, hjc, hjobs, _⟩ := done_all (closed_iff.mp hclosed)
  have hfd := jobs_closed.mp hjc
  have hdone : ∀ w ∈ (testFinal t configs notify world sched).workers, w = WorkerPc.done := by
    intro w hw
    have := total_zero_of_mem WorkerPc.live _ (by omega : total WorkerPc.live
      (testFinal t configs notify world sched).workers = 0) w hw
    cases w <;> simp [WorkerPc.live] at this ⊢
  have hs : total WorkerPc.sending (testFinal t configs notify world sched).workers = 0 :=
    total_eq_zero _ _ (fun w hw => by rw [hdone w hw]; rfl)
  have hu : total WorkerPc.uncalled (testFinal t configs notify world sched).workers = 0 :=
    total_eq_zero _ _ (fun w hw => by rw [hdone w hw]; rfl)
  rw [hs, hres] at res
  rw [hu, hjobs, hfd] at inp
  simp only [FeederPc.rest, coe_nil_zero, add_zero] at res inp
  exact ⟨hret', Multiset.coe_eq_coe.mp res, Multiset.coe_eq_coe.mp inp⟩

theorem eraseLatency_setLatency (c : Config) (o : Outcome) :
    eraseLatency (setLatency c o) = eraseLatency c := by
  unfold setLatency eraseLatency
  split <;> rfl

theorem map_erase_resultOf (t : Tester) (world : Nat → ProbeEnv) (calls : List (Config × Nat)) :
    (calls.map (resultOf t world)).map eraseLatency = (calls.map Prod.fst).map eraseLatency := by
  induction calls with
  | nil => rfl
  | cons a l ih =>
    simp only [List.map_cons, ih, resultOf, eraseLatency_setLatency]

/-- In every run of `TestConfigs` without early close, the call returns a list
of the length of its input, equal to the input up to order and latency, and
`MeasureLatency` ran exactly once for every input descriptor. -/
theorem TestConfigs_timely_permutation (t : Tester) (configs : List Config) (notify : Bool)
    (world : Nat → ProbeEnv) (sched : Nat → Nat)
    (htimely : (testFinal t configs notify world sched).early = false) :
    ∃ r, TestConfigs t configs notify world sched = some r ∧ r.length = configs.length ∧
      (r.map eraseLatency).Perm (configs.map eraseLatency) ∧
      ((testFinal t configs notify world sched).calls.map Prod.fst).Perm configs := by
  obtain ⟨hret, hfin, hcalls⟩ := testFinal_timely t configs notify world sched htimely
  have hperm : ((testFinal t configs notify world sched).final.map eraseLatency).Perm
      (configs.map eraseLatency) := by
    refine (hfin.map eraseLatency).trans ?_
    rw [map_erase_resultOf]
    exact hcalls.map eraseLatency
  by_cases hc : configs = []
  · subst hc
    exact ⟨[], by simp [TestConfigs], rfl, List.Perm.refl _, hcalls⟩
  · refine ⟨(testFinal t configs notify world sched).final, ?_, ?_, hperm, hcalls⟩
    · unfold TestConfigs
      rw [hret]
      have : configs.length ≠ 0 := fun h => hc (List.length_eq_zero.mp h)
      simp [this]
    · simpa using hperm.length_eq

/-- In every run of `TestConfigs` without early close, the returned list is
made of the results of the `MeasureLatency` calls, one call for every input
descriptor: the descriptor with latency 9999 when its call failed, with the
measured latency when it succeeded. -/
theorem TestConfigs_timely_outcomes (t : Tester) (configs : List Config) (notify : Bool)
    (world : Nat → ProbeEnv) (sched : Nat → Nat) (hne : configs ≠ [])
    (htimely : (testFinal t configs notify world sched).early = false) :
    ∃ r, TestConfigs t configs notify world sched = some r ∧
      r.Perm ((testFinal t configs notify world sched).calls.map (resultOf t world)) ∧
      ((testFinal t configs notify world sched).calls.map Prod.fst).Perm configs ∧
      ∀ c k, ((MeasureLatency t c (world k)).err ≠ none →
          resultOf t world (c, k) = { c with Latency := 9999 }) ∧
        ((MeasureLatency t c (world k)).err = none →
          resultOf t world (c, k) = { c with Latency := (MeasureLatency t c (world k)).latency }) := by
  obtain ⟨hret, hfin, hcalls⟩ := testFinal_timely t configs notify world sched htimely
  refine ⟨(testFinal t configs notify world sched).final, ?_, hfin, hcalls, ?_⟩
  · unfold TestConfigs
    rw [hret]
    have : configs.length ≠ 0 := by
      intro h
      exact hne (List.length_eq_zero.mp h)
    simp [this]
  · intro c k
    unfold resultOf setLatency
    constructor
    · intro h
      cases he : (MeasureLatency t c (world k)).err with
      | none => exact absurd he h
      | some e => rfl
    · intro h
      simp [h]

/-- The hypothesis of the theorems on runs without early close holds for the
schedule that always picks the first goroutine able to move. -/
theorem TestConfigs_timely_permutation_witness :
    ∃ r, TestConfigs tester2 [config0, config2] true (fun _ => envRetry) schedFirst = some r ∧
      r.length = [config0, config2].length ∧
      (r.map eraseLatency).Perm ([config0, config2].map eraseLatency) ∧
      ((testFinal tester2 [config0, config2] true (fun _ => envRetry) schedFirst).calls.map
        Prod.fst).Perm [config0, config2] :=
  TestConfigs_timely_permutation tester2 [config0, config2] true (fun _ => envRetry) schedFirst
    (by decide)

/-- C1 (failing run): with one descriptor and the tester of `NewTester`, the
schedule that lets the closing goroutine pass `wg.Wait()` right after it was
started, before the first `wg.Add(1)`, closes `results` at once: `TestConfigs`
returns the empty list for an input of length one, and the worker that later
sends its result panics on the closed channel. -/
theorem TestConfigs_early_close_returns_nothing :
    TestConfigs tester0 [config0] true (fun _ => envStatus 204 5000000) schedCloserFirst
      = some [] ∧
    (testFinal tester0 [config0] true (fun _ => envStatus 204 5000000) schedCloserFirst).early
      = true ∧
    (testFinal tester0 [config0] true (fun _ => envStatus 204 5000000) schedCloserFirst).panicked
      = true := by
  decide

/-- C5 (failing run): in the same early-close schedule a descriptor whose
`MeasureLatency` call fails is missing from the returned list, where the
specification wants it present with latency 9999. -/
theorem TestConfigs_early_close_drops_failure :
    (MeasureLatency tester0 config0 envHttpTimeout).err = some ⟨"fail", false⟩ ∧
    (testFinal tester0 [config0] true (fun _ => envHttpTimeout) schedCloserFirst).calls
      = [(config0, 28)] ∧
    TestConfigs tester0 [config0] true (fun _ => envHttpTimeout) schedCloserFirst = some [] := by
  decide

/-! ## Bound on the calls in progress -/

theorem testInit_pool (t : Tester) : PoolInv t testInit :=
  ⟨by simp [testInit], by simp [testInit], by simp [testInit]⟩

theorem testStep_pool (t : Tester) (configs : List Config) (notify : Bool)
    (world : Nat → ProbeEnv) (k : Nat) (g : TestGo) (s s' : TestState)
    (inv : PoolInv t s) (h : testStep t configs notify world k g s = some s') :
    PoolInv t s' := by
  obtain ⟨len_le, len_loop, len_start⟩ := inv
  unfold testStep at h
  split at h
  · cases h
  · cases g with
    | main =>
      simp only at h
      cases hm : s.main with
      | spawnCloser =>
        simp only [hm, Option.some.injEq] at h
        subst h
        exact ⟨len_le, fun i hi => by
          simp only [TestMainPc.spawnWorkers.injEq] at hi
          rw [← hi]
          exact len_start hm, by simp⟩
      | spawnWorkers i =>
        have hlen := len_loop i hm
        simp only [hm] at h
        by_cases hi : i < t.maxWorkers
        · simp only [hi, if_true, Option.some.injEq] at h
          subst h
          refine ⟨?_, ?_, by simp⟩
          · simp only [List.length_append, List.length_singleton]; omega
          · intro j hj
            simp only [TestMainPc.spawnWorkers.injEq] at hj
            simp only [List.length_append, List.length_singleton]
            omega
        · simp only [hi, if_false, Option.some.injEq] at h
          subst h
          exact ⟨len_le, by simp, by simp⟩
      | collect =>
        simp only [hm] at h
        split at h
        · cases h
          exact ⟨len_le, by simp, by simp⟩
        · split at h
          · cases h
            exact ⟨len_le, by simp, by simp⟩
          · cases h
      | returned => simp [hm] at h
    | closer =>
      simp only at h
      (repeat' split at h) <;> cases h
      exact ⟨len_le, len_loop, len_start⟩
    | feeder =>
      simp only at h
      (repeat' split at h) <;> cases h <;> exact ⟨len_le, len_loop, len_start⟩
    | worker i =>
      simp only at h
      (repeat' split at h) <;> cases h <;>
        exact ⟨by simpa using len_le, by simpa using len_loop, by simpa using len_start⟩

theorem testRun_pool (t : Tester) (configs : List Config) (notify : Bool)
    (world : Nat → ProbeEnv) (sched : Nat → Nat) :
    ∀ fuel k s, PoolInv t s → PoolInv t (testRun t configs notify world sched fuel k s) := by
  intro fuel
  induction fuel with
  | zero => intro k s inv; exact inv
  | succ fuel ih =>
    intro k s inv
    simp only [testRun]
    split
    · exact inv
    · split
      · rename_i s' hs'
        exact ih (k + 1) s' (testStep_pool t configs notify world k _ s s' inv hs')
      · exact inv

theorem inProgress_le_workers (s : TestState) : inProgress s ≤ s.workers.length :=
  total_le_length WorkerPc.measuring (by intro x; cases x <;> simp [WorkerPc.measuring]) s.workers

/-- C14: in the state reached after any number `n` of steps of a
`TestConfigs` run, for every input list, every world and every schedule of
the goroutines, the number of `MeasureLatency` calls in progress is at most
`maxWorkers`, which is 20 for every tester that `NewTester` builds. -/
theorem TestConfigs_calls_in_progress_bounded :
    (∀ (t : Tester) (configs : List Config) (notify : Bool) (world : Nat → ProbeEnv)
        (sched : Nat → Nat) (n : Nat),
      inProgress (testRun t configs notify world sched n 0 testInit) ≤ t.maxWorkers) ∧
    (∀ (fs : FileSystem) (t : Tester), NewTester fs = Except.ok t →
      ∀ (configs : List Config) (notify : Bool) (world : Nat → ProbeEnv) (sched : Nat → Nat)
        (n : Nat),
      inProgress (testRun t configs notify world sched n 0 testInit) ≤ 20) := by
  have key : ∀ (t : Tester) (configs : List Config) (notify : Bool) (world : Nat → ProbeEnv)
      (sched : Nat → Nat) (n : Nat),
      inProgress (testRun t configs notify world sched n 0 testInit) ≤ t.maxWorkers := by
    intro t configs notify world sched n
    have inv := testRun_pool t configs notify world sched n 0 testInit (testInit_pool t)
    exact Nat.le_trans (inProgress_le_workers _) inv.len_le
  refine ⟨key, ?_⟩
  intro fs t ht configs notify world sched n
  have := key t configs notify world sched n
  rw [NewTester_maxWorkers fs t ht] at this
  exact this

/-- With two workers and two descriptors both calls are in progress after
eleven steps of the schedule `schedBoth`, so the bound is reached. -/
theorem TestConfigs_calls_in_progress_bounded_witness :
    inProgress (testRun tester2 [config0, config2] true (fun _ => envRetry) schedBoth 11 0
      testInit) = 2 ∧
    inProgress (testRun tester2 [config0, config2] true (fun _ => envRetry) schedBoth 11 0
      testInit) ≤ tester2.maxWorkers :=
  ⟨by decide, TestConfigs_calls_in_progress_bounded.1 tester2 [config0, config2] true
    (fun _ => envRetry) schedBoth 11⟩

/-! ## The shadowsocks families in the pipeline -/

theorem not_mem_ScanConfigs_of_port_zero (sc : Scanner) (c : Config) (h : c.Port = 0)
    (configs : List Config) (net : Network) (sched : Nat → Nat) :
    ∃ r, ScanConfigs sc configs net sched = some r ∧ c ∉ r := by
  obtain ⟨r, hr, hp⟩ := ScanConfigs_spec sc configs net sched
  exact ⟨r, hr, fun hc => (mem_connected sc net c configs 0 (hp.subset hc)).2.2 h⟩

/-- C16: for every link the descriptor made by `parseShadowsocks` or
`parseShadowsocksr` has port 0 and address `127.0.0.1`; `isAlive` is false for
it without a dial whatever the network; no schedule and no network make
`ScanConfigs` return it, and it is never in the list that `main` hands on to
`TestConfigs`. -/
theorem parser_shadowsocks_never_tested (link : String) :
    (∃ c, parseShadowsocks link = Except.ok c) ∧ (∃ c, parseShadowsocksr link = Except.ok c) ∧
    ∀ c, (parseShadowsocks link = Except.ok c ∨ parseShadowsocksr link = Except.ok c) →
      c.Port = 0 ∧ c.Address = "127.0.0.1" ∧
      (∀ sc dial, isAlive sc c dial = (false, [])) ∧
      (∀ sc configs net sched, ∃ r, ScanConfigs sc configs net sched = some r ∧ c ∉ r) ∧
      (∀ configs net sched input, l7Input configs net sched = some input → c ∉ input) := by
  refine ⟨⟨_, rfl⟩, ⟨_, rfl⟩, ?_⟩
  intro c hc
  have hport : c.Port = 0 := by
    rcases hc with hc | hc
    · simp only [parseShadowsocks, Except.ok.injEq] at hc
      rw [← hc]
    · simp only [parseShadowsocksr, Except.ok.injEq] at hc
      rw [← hc]
  have haddr : c.Address = "127.0.0.1" := by
    rcases hc with hc | hc
    · simp only [parseShadowsocks, Except.ok.injEq] at hc
      rw [← hc]
    · simp only [parseShadowsocksr, Except.ok.injEq] at hc
      rw [← hc]
  refine ⟨hport, haddr, ?_, ?_, ?_⟩
  · intro sc dial
    simp [isAlive, hport]
  · intro sc configs net sched
    exact not_mem_ScanConfigs_of_port_zero sc c hport configs net sched
  · intro configs net sched input hin
    unfold l7Input performTCPFiltering at hin
    obtain ⟨r, hr, hnot⟩ := not_mem_ScanConfigs_of_port_zero
      { NewScanner with Timeout := 2000 * millisecond } c hport configs net sched
    rw [hr] at hin
    simp only at hin
    split at hin
    · cases hin
    · cases hin
      exact hnot

/-- The pipeline property at a shadowsocks link scanned together with a live
vless descriptor: the list handed on holds the vless descriptor only. -/
theorem parser_shadowsocks_never_tested_witness :
    parseShadowsocks linkSs = Except.ok configSs ∧
    l7Input [configSs, config0] netUp schedFirst = some [config0] ∧
    configSs ∉ [config0] :=
  ⟨rfl, by decide, ((parser_shadowsocks_never_tested linkSs).2.2 configSs
    (Or.inl rfl)).2.2.2.2 [configSs, config0] netUp schedFirst [config0] (by decide)⟩

/-! ## Deduplicate -/

/-- C13 (failing input): two vmess descriptors that differ in address, port
and identifier have the same key string `vmess|h|1|x|2|y`, so whatever the
hash function is, `Deduplicate` drops the second one although no earlier
descriptor has its identity tuple. -/
theorem Deduplicate_drops_distinct_identity (sha : String → String) :
    hashKey configBarA = "vmess|h|1|x|2|y" ∧ hashKey configBarB = "vmess|h|1|x|2|y" ∧
    configBarA.Address ≠ configBarB.Address ∧ configBarA.Port ≠ configBarB.Port ∧
    configBarA.ID ≠ configBarB.ID ∧
    Deduplicate sha [configBarA, configBarB] = [configBarA] := by
  have ha : hashKey configBarA = "vmess|h|1|x|2|y" := by decide
  have hb : hashKey configBarB = "vmess|h|1|x|2|y" := by decide
  refine ⟨ha, hb, by decide, by decide, by decide, ?_⟩
  simp [Deduplicate, dedupLoop, generateHash, ha, hb]

theorem dedupLoop_eq_firstBy (sha : String → String) (hinj : Function.Injective sha) :
    ∀ (cs : List Config) (seen : List String) (uniq earlier : List Config),
      (∀ h, h ∈ seen ↔ ∃ e ∈ earlier, sha (hashKey e) = h) →
      dedupLoop sha seen uniq cs = uniq ++ firstBy hashKey earlier cs := by
  intro cs
  induction cs with
  | nil => intro seen uniq earlier _; simp [dedupLoop, firstBy]
  | cons c cs ih =>
    intro seen uniq earlier hseen
    have hiff : generateHash sha c ∈ seen ↔
        earlier.any (fun e => decide (hashKey e = hashKey c)) = true := by
      rw [hseen, List.any_eq_true]
      constructor
      · rintro ⟨e, he, heq⟩
        exact ⟨e, he, by simpa using hinj heq⟩
      · rintro ⟨e, he, heq⟩
        refine ⟨e, he, ?_⟩
        simp only [decide_eq_true_eq] at heq
        simp [generateHash, heq]
    by_cases hin : generateHash sha c ∈ seen
    · have hany := hiff.mp hin
      simp only [dedupLoop, hin, if_true, firstBy, hany]
      apply ih
      intro h
      rw [hseen]
      constructor
      · rintro ⟨e, he, heq⟩
        exact ⟨e, List.mem_append_left _ he, heq⟩
      · rintro ⟨e, he, heq⟩
        rcases List.mem_append.mp he with he | he
        · exact ⟨e, he, heq⟩
        · simp only [List.mem_singleton] at he
          subst he
          rw [← heq]
          exact (hseen _).mp hin
    · have hany : ¬ earlier.any (fun e => decide (hashKey e = hashKey c)) = true :=
        fun h => hin (hiff.mpr h)
      simp only [dedupLoop, hin, if_false, firstBy, hany]
      rw [ih (generateHash sha c :: seen) (uniq ++ [c]) (earlier ++ [c])]
      · simp
      · intro h
        simp only [List.mem_cons, List.mem_append, List.not_mem_nil, or_false]
        constructor
        · rintro (rfl | hs)
          · exact ⟨c, Or.inr rfl, rfl⟩
          · obtain ⟨e, he, heq⟩ := (hseen h).mp hs
            exact ⟨e, Or.inl he, heq⟩
        · rintro ⟨e, he | he, heq⟩
          · exact Or.inr ((hseen h).mpr ⟨e, he, heq⟩)
          · subst he
            exact Or.inl heq.symm

theorem firstBy_congr {κ ι : Type} [DecidableEq κ] [DecidableEq ι] (f : Config → κ)
    (g : Config → ι) :
    ∀ (cs earlier : List Config),
      (∀ a b, a ∈ earlier ++ cs → b ∈ earlier ++ cs → (f a = f b ↔ g a = g b)) →
      firstBy f earlier cs = firstBy g earlier cs := by
  intro cs
  induction cs with
  | nil => intro earlier _; rfl
  | cons c cs ih =>
    intro earlier hfg
    have hany : earlier.any (fun e => decide (f e = f c))
        = earlier.any (fun e => decide (g e = g c)) := by
      rw [Bool.eq_iff_iff]
      simp only [List.any_eq_true, decide_eq_true_eq]
      constructor
      · rintro ⟨e, he, h⟩
        exact ⟨e, he, (hfg e c (List.mem_append_left _ he) (by simp)).mp h⟩
      · rintro ⟨e, he, h⟩
        exact ⟨e, he, (hfg e c (List.mem_append_left _ he) (by simp)).mpr h⟩
    have hrec := ih (earlier ++ [c]) (by
      intro a b ha hb
      exact hfg a b (by simpa using ha) (by simpa using hb))
    simp only [firstBy, hany, hrec]

/-- With a collision-free hash, `Deduplicate` keeps a descriptor exactly when
no earlier descriptor has the same key string, whatever `Remark`, `Original`
and `Latency` are; on a list on which equal key strings come only from equal
identity tuples that is: exactly when no earlier descriptor has the same
identity tuple. -/
theorem Deduplicate_first_occurrences (sha : String → String) (hinj : Function.Injective sha)
    (configs : List Config) :
    Deduplicate sha configs = firstBy hashKey [] configs ∧
    ((∀ a ∈ configs, ∀ b ∈ configs, hashKey a = hashKey b → identity a = identity b) →
      Deduplicate sha configs = firstBy identity [] configs) := by
  have h1 : Deduplicate sha configs = firstBy hashKey [] configs := by
    unfold Deduplicate
    rw [dedupLoop_eq_firstBy sha hinj configs [] [] [] (by simp)]
    simp
  refine ⟨h1, fun hsep => ?_⟩
  rw [h1]
  apply firstBy_congr
  intro a b ha hb
  constructor
  · exact hsep a (by simpa using ha) b (by simpa using hb)
  · intro hab
    simp only [identity, Prod.mk.injEq] at hab
    simp only [hashKey, hab.1, hab.2.1, hab.2.2.1, hab.2.2.2]

/-- The first-occurrence property at a list with a repeated vless descriptor
under a changed remark, with the identity function as hash. -/
theorem Deduplicate_first_occurrences_witness :
    Deduplicate id [config0, config2, { config0 with Remark := "again", Latency := 7 }]
      = [config0, config2] :=
  ((Deduplicate_first_occurrences id (fun _ _ h => h)
    [config0, config2, { config0 with Remark := "again", Latency := 7 }]).2 (by decide)).trans
    (by decide)

/-! ## sortAndWriteOutput -/

theorem lessLatency_strictWeak : StrictWeak lessLatency := by
  refine ⟨?_, ?_, ?_⟩
  · intro a
    simp [lessLatency]
  · intro a b c hab hbc
    simp only [lessLatency, decide_eq_true_eq] at hab hbc ⊢
    omega
  · intro a b c hab hbc
    simp only [lessLatency, decide_eq_false_iff_not] at hab hbc ⊢
    omega

theorem insertLeft_perm (less : Config → Config → Bool) (x : Config) :
    ∀ l, (insertLeft less x l).Perm (x :: l) := by
  intro l
  induction l with
  | nil => exact List.Perm.refl _
  | cons y ys ih =>
    simp only [insertLeft]
    split
    · exact (List.Perm.cons y ih).trans (List.Perm.swap x y ys)
    · exact List.Perm.refl _

theorem foldl_insertLeft_perm (less : Config → Config → Bool) :
    ∀ (l acc : List Config),
      (l.foldl (fun acc x => insertLeft less x acc) acc).Perm (l ++ acc) := by
  intro l
  induction l with
  | nil => intro acc; exact List.Perm.refl _
  | cons x xs ih =>
    intro acc
    simp only [List.foldl_cons]
    refine (ih _).trans ?_
    refine (List.Perm.append_left xs (insertLeft_perm less x acc)).trans ?_
    simp

theorem insertionSortGo_perm (less : Config → Config → Bool) (l : List Config) :
    (insertionSortGo less l).Perm l := by
  unfold insertionSortGo
  refine (List.reverse_perm _).trans ?_
  simpa using foldl_insertLeft_perm less l []

theorem insertLeft_sorted (less : Config → Config → Bool) (hw : StrictWeak less) (x : Config) :
    ∀ l, l.Pairwise (fun a b => less a b = false) →
      (insertLeft less x l).Pairwise (fun a b => less a b = false) := by
  obtain ⟨hirr, htr, hneg⟩ := hw
  intro l
  induction l with
  | nil => intro _; simp [insertLeft]
  | cons y ys ih =>
    intro hp
    have hy := List.pairwise_cons.mp hp
    simp only [insertLeft]
    split
    · rename_i hxy
      refine List.pairwise_cons.mpr ⟨?_, ih hy.2⟩
      intro z hz
      rcases List.mem_cons.mp ((insertLeft_perm less x ys).subset hz) with rfl | hz
      · cases hyz : less y z with
        | false => rfl
        | true =>
          have := htr z y z hxy hyz
          rw [hirr z] at this
          cases this
      · exact hy.1 z hz
    · rename_i hxy
      have hxy' : less x y = false := by simpa using hxy
      refine List.pairwise_cons.mpr ⟨?_, hp⟩
      intro z hz
      rcases List.mem_cons.mp hz with rfl | hz
      · exact hxy'
      · exact hneg x y z hxy' (hy.1 z hz)

theorem foldl_insertLeft_sorted (less : Config → Config → Bool) (hw : StrictWeak less) :
    ∀ (l acc : List Config), acc.Pairwise (fun a b => less a b = false) →
      (l.foldl (fun acc x => insertLeft less x acc) acc).Pairwise
        (fun a b => less a b = false) := by
  intro l
  induction l with
  | nil => intro acc h; exact h
  | cons x xs ih =>
    intro acc h
    simp only [List.foldl_cons]
    exact ih _ (insertLeft_sorted less hw x acc h)

theorem insertionSortGo_sorted (less : Config → Config → Bool) (hw : StrictWeak less)
    (l : List Config) : (insertionSortGo less l).Pairwise (fun a b => less b a = false) := by
  unfold insertionSortGo
  rw [List.pairwise_reverse]
  exact foldl_insertLeft_sorted less hw l [] List.Pairwise.nil

theorem shellPairs_perm (less : Config → Config → Bool) :
    ∀ xs ys, ((shellPairs less xs ys).1 ++ (shellPairs less xs ys).2).Perm (xs ++ ys) := by
  intro xs
  induction xs with
  | nil => intro ys; simp [shellPairs]
  | cons x xs ih =>
    intro ys
    cases ys with
    | nil => simp [shellPairs]
    | cons y ys =>
      have h := ih ys
      simp only [shellPairs]
      split
      · simp only [List.cons_append]
        have h1 : (y :: ((shellPairs less xs ys).1 ++ x :: (shellPairs less xs ys).2)).Perm
            (y :: x :: ((shellPairs less xs ys).1 ++ (shellPairs less xs ys).2)) :=
          List.Perm.cons y List.perm_middle
        refine h1.trans ?_
        refine (List.Perm.swap x y _).trans ?_
        refine List.Perm.cons x ?_
        exact (List.Perm.cons y h).trans List.perm_middle.symm
      · simp only [List.cons_append]
        refine List.Perm.cons x ?_
        refine List.perm_middle.trans ?_
        exact (List.Perm.cons y h).trans List.perm_middle.symm

theorem shellPass_perm (less : Config → Config → Bool) (l : List Config) :
    (shellPass less l).Perm l := by
  unfold shellPass
  have := shellPairs_perm less (l.take 6) (l.drop 6)
  rwa [List.take_append_drop] at this

/-- The implementation `sortGo118` meets the contract of `sort.Slice`. -/
theorem sortGo118_contract : SliceContract sortGo118 := by
  constructor
  · intro less l
    unfold sortGo118
    refine (insertionSortGo_perm less _).trans ?_
    split
    · exact shellPass_perm less l
    · exact List.Perm.refl _
  · intro less l hw
    exact insertionSortGo_sorted less hw _

/-- The implementation `sortGo119` meets the contract of `sort.Slice`. -/
theorem sortGo119_contract : SliceContract sortGo119 :=
  ⟨fun less l => insertionSortGo_perm less l, fun less l hw => insertionSortGo_sorted less hw l⟩

/-- C12 (counterexample): `sortGo118` meets the contract of `sort.Slice`, and
on seven descriptors of which `b` comes before `g`, both with latency 3, the
ranking puts `g` before `b`: the order of equal latencies is not kept. -/
theorem sortAndWriteOutput_not_stable :
    SliceContract sortGo118 ∧
    tested7.filter (fun c => decide (c.Latency = 3)) = [latencyConfig "b" 3, latencyConfig "g" 3] ∧
    (sortAndWriteOutput sortGo118 tested7 "export").1 =
      [latencyConfig "g" 3, latencyConfig "b" 3, latencyConfig "a" 5, latencyConfig "c" 9,
        latencyConfig "d" 9, latencyConfig "e" 9, latencyConfig "f" 9] ∧
    ¬ keepsEqualOrder tested7 (sortAndWriteOutput sortGo118 tested7 "export").1 := by
  refine ⟨sortGo118_contract, by decide, by decide, ?_⟩
  intro h
  have := h 3
  revert this
  decide

/-- C12 (amended): whatever implementation of `sort.Slice` is linked, as long
as it meets the documented contract, the ranking of `sortAndWriteOutput` is a
permutation of its input in non-decreasing order of latency, and the export
file lists the descriptors in that order. -/
theorem sortAndWriteOutput_sorted_permutation (sort : SliceSort) (hsort : SliceContract sort)
    (configs : List Config) (baseName : String) :
    (sortAndWriteOutput sort configs baseName).1.Perm configs ∧
    (sortAndWriteOutput sort configs baseName).1.Pairwise (fun a b => a.Latency ≤ b.Latency) ∧
    (sortAndWriteOutput sort configs baseName).2.drop 3 =
      (sortAndWriteOutput sort configs baseName).1.map
        (fun c => "[" ++ toString c.Latency ++ "ms] " ++ c.Original) := by
  refine ⟨hsort.1 lessLatency configs, ?_, ?_⟩
  · have := hsort.2 lessLatency configs lessLatency_strictWeak
    refine this.imp ?_
    intro a b hab
    simp only [lessLatency, decide_eq_false_iff_not] at hab
    omega
  · simp [sortAndWriteOutput]

/-- The amended ranking property at the seven descriptors, with the insertion
sort of Go 1.19 as implementation. -/
theorem sortAndWriteOutput_sorted_permutation_witness :
    (sortAndWriteOutput sortGo119 tested7 "export").1.Perm tested7 ∧
    (sortAndWriteOutput sortGo119 tested7 "export").1.Pairwise
      (fun a b => a.Latency ≤ b.Latency) ∧
    (sortAndWriteOutput sortGo119 tested7 "export").2.drop 3 =
      (sortAndWriteOutput sortGo119 tested7 "export").1.map
        (fun c => "[" ++ toString c.Latency ++ "ms] " ++ c.Original) :=
  sortAndWriteOutput_sorted_permutation sortGo119 sortGo119_contract tested7 "export"

/-! ## base64 -/

theorem decodeSym_std_std : ∀ v, v < 64 →
    decodeSym stdAlphabet (encodeSym stdAlphabet v) = some v := by decide

theorem decodeSym_url_url : ∀ v, v < 64 →
    decodeSym urlAlphabet (encodeSym urlAlphabet v) = some v := by decide

theorem decodeSym_std_url : ∀ v, v < 64 →
    (decodeSym stdAlphabet (encodeSym urlAlphabet v) = some v ∨
      decodeSym stdAlphabet (encodeSym urlAlphabet v) = none) := by decide

theorem encodeSym_std_plain : ∀ v, v < 64 →
    encodeSym stdAlphabet v ≠ 61 ∧ encodeSym stdAlphabet v ≠ 10 ∧ encodeSym stdAlphabet v ≠ 13 ∧
      encodeSym stdAlphabet v ≠ 58 ∧ encodeSym stdAlphabet v ≠ 64 := by decide

theorem encodeSym_url_plain : ∀ v, v < 64 →
    encodeSym urlAlphabet v ≠ 61 ∧ encodeSym urlAlphabet v ≠ 10 ∧ encodeSym urlAlphabet v ≠ 13 ∧
      encodeSym urlAlphabet v ≠ 58 ∧ encodeSym urlAlphabet v ≠ 64 := by decide

theorem decodeSym_pad : decodeSym stdAlphabet 61 = none ∧ decodeSym urlAlphabet 61 = none := by
  decide

/-- Decoding with alphabet `A` what was encoded with alphabet `B`, where every
character of `B` either has its own value in `A` or none: the decoder gives
back the bytes or reports a corrupt input. -/
theorem decodeQuanta_encode (A B : Bytes)
    (hsym : ∀ v, v < 64 →
      (decodeSym A (encodeSym B v) = some v ∨ decodeSym A (encodeSym B v) = none))
    (hpad : decodeSym A 61 = none) (hplain : ∀ v, v < 64 → encodeSym B v ≠ 61) :
    ∀ (n : Nat) (bs : Bytes), bs.length ≤ n → (∀ b ∈ bs, b < 256) →
      (decodeQuanta A (EncodeToString B bs) = some bs ∨
        (decodeQuanta A (EncodeToString B bs) = none ∧
          ∃ v, v < 64 ∧ decodeSym A (encodeSym B v) = none)) := by
  intro n
  induction n with
  | zero =>
    intro bs hlen _
    have : bs = [] := List.length_eq_zero.mp (by omega)
    subst this
    exact Or.inl rfl
  | succ n ih =>
    intro bs hlen hb
    match bs, hlen, hb with
    | [], _, _ => exact Or.inl rfl
    | [a], _, hb =>
      have ha : a < 256 := hb a (by simp)
      simp only [EncodeToString]
      rcases hsym (a / 4) (by omega) with h0 | h0
      · rcases hsym (a % 4 * 16) (by omega) with h1 | h1
        · left
          simp only [decodeQuanta, h0, h1, hpad, and_self, if_true, Option.some.injEq,
            List.cons.injEq, and_true]
          omega
        · refine Or.inr ⟨?_, _, by omega, h1⟩
          simp only [decodeQuanta, h0, h1]
      · refine Or.inr ⟨?_, _, by omega, h0⟩
        simp only [decodeQuanta, h0]
    | [a, b], _, hb =>
      have ha : a < 256 := hb a (by simp)
      have hb' : b < 256 := hb b (by simp)
      simp only [EncodeToString]
      rcases hsym (a / 4) (by omega) with h0 | h0
      · rcases hsym (a % 4 * 16 + b / 16) (by omega) with h1 | h1
        · rcases hsym (b % 16 * 4) (by omega) with h2 | h2
          · left
            simp only [decodeQuanta, h0, h1, h2, hpad, and_self, if_true, Option.some.injEq,
              List.cons.injEq, and_true]
            omega
          · refine Or.inr ⟨?_, _, by omega, h2⟩
            have := hplain (b % 16 * 4) (by omega)
            simp only [decodeQuanta, h0, h1, h2, this, false_and, if_false]
        · refine Or.inr ⟨?_, _, by omega, h1⟩
          simp only [decodeQuanta, h0, h1]
      · refine Or.inr ⟨?_, _, by omega, h0⟩
        simp only [decodeQuanta, h0]
    | a :: b :: c :: rest, hlen, hb =>
      have ha : a < 256 := hb a (by simp)
      have hb' : b < 256 := hb b (by simp)
      have hc : c < 256 := hb c (by simp)
      have hrest := ih rest (by simp only [List.length_cons] at hlen; omega)
        (fun x hx => hb x (by simp [hx]))
      simp only [EncodeToString]
      rcases hsym (a / 4) (by omega) with h0 | h0
      · rcases hsym (a % 4 * 16 + b / 16) (by omega) with h1 | h1
        · rcases hsym (b % 16 * 4 + c / 64) (by omega) with h2 | h2
          · rcases hsym (c % 64) (by omega) with h3 | h3
            · rcases hrest with hr | hr
              · left
                simp only [decodeQuanta, h0, h1, h2, h3, hr, Option.some.injEq,
                  List.cons.injEq, and_true]
                omega
              · obtain ⟨hr, hv⟩ := hr
                refine Or.inr ⟨?_, hv⟩
                simp only [decodeQuanta, h0, h1, h2, h3, hr]
            · refine Or.inr ⟨?_, _, by omega, h3⟩
              have := hplain (c % 64) (by omega)
              simp only [decodeQuanta, h0, h1, h2, h3, this, false_and, if_false]
          · refine Or.inr ⟨?_, _, by omega, h2⟩
            have := hplain (b % 16 * 4 + c / 64) (by omega)
            simp only [decodeQuanta, h0, h1, h2, this, false_and, if_false]
        · refine Or.inr ⟨?_, _, by omega, h1⟩
          simp only [decodeQuanta, h0, h1]
      · refine Or.inr ⟨?_, _, by omega, h0⟩
        simp only [decodeQuanta, h0]

/-- A decodable text is made of whole quanta of four characters. -/
theorem decodeQuanta_length (A : Bytes) :
    ∀ (n : Nat) (s : Bytes), s.length ≤ n → ∀ d, decodeQuanta A s = some d → s.length % 4 = 0 := by
  intro n
  induction n with
  | zero =>
    intro s hlen d _
    have : s = [] := List.length_eq_zero.mp (by omega)
    subst this
    rfl
  | succ n ih =>
    intro s hlen d hd
    match s, hlen, hd with
    | [], _, _ => rfl
    | [_], _, hd => simp [decodeQuanta] at hd
    | [_, _], _, hd => simp [decodeQuanta] at hd
    | [_, _, _], _, hd => simp [decodeQuanta] at hd
    | c0 :: c1 :: c2 :: c3 :: rest, hlen, hd =>
      simp only [List.length_cons] at hlen ⊢
      simp only [decodeQuanta] at hd
      split at hd
      · split at hd
        · split at hd
          · split at hd
            · rename_i out hout
              have := ih rest (by omega) out hout
              omega
            · cases hd
          · split at hd
            · rename_i h
              rw [h.2]
              rfl
            · cases hd
        · split at hd
          · rename_i h
            rw [h.2.2]
            rfl
          · cases hd
      · cases hd

/-- Every character of an encoded text is `=` or a character of the alphabet. -/
theorem mem_EncodeToString (B : Bytes) :
    ∀ (n : Nat) (bs : Bytes), bs.length ≤ n → (∀ b ∈ bs, b < 256) →
      ∀ c ∈ EncodeToString B bs, c = 61 ∨ ∃ v, v < 64 ∧ c = encodeSym B v := by
  intro n
  induction n with
  | zero =>
    intro bs hlen _ c hc
    have : bs = [] := List.length_eq_zero.mp (by omega)
    subst this
    simp [EncodeToString] at hc
  | succ n ih =>
    intro bs hlen hb c hc
    match bs, hlen, hb, hc with
    | [], _, _, hc => simp [EncodeToString] at hc
    | [a], _, hb, hc =>
      have ha : a < 256 := hb a (by simp)
      simp only [EncodeToString, List.mem_cons, List.not_mem_nil, or_false] at hc
      rcases hc with rfl | rfl | rfl | rfl
      · exact Or.inr ⟨_, by omega, rfl⟩
      · exact Or.inr ⟨_, by omega, rfl⟩
      · exact Or.inl rfl
      · exact Or.inl rfl
    | [a, b], _, hb, hc =>
      have ha : a < 256 := hb a (by simp)
      have hb' : b < 256 := hb b (by simp)
      simp only [EncodeToString, List.mem_cons, List.not_mem_nil, or_false] at hc
      rcases hc with rfl | rfl | rfl | rfl
      · exact Or.inr ⟨_, by omega, rfl⟩
      · exact Or.inr ⟨_, by omega, rfl⟩
      · exact Or.inr ⟨_, by omega, rfl⟩
      · exact Or.inl rfl
    | a :: b :: c' :: rest, hlen, hb, hc =>
      have ha : a < 256 := hb a (by simp)
      have hb' : b < 256 := hb b (by simp)
      have hc' : c' < 256 := hb c' (by simp)
      simp only [EncodeToString, List.mem_cons] at hc
      rcases hc with rfl | rfl | rfl | rfl | hc
      · exact Or.inr ⟨_, by omega, rfl⟩
      · exact Or.inr ⟨_, by omega, rfl⟩
      · exact Or.inr ⟨_, by omega, rfl⟩
      · exact Or.inr ⟨_, by omega, rfl⟩
      · exact ih rest (by simp only [List.length_cons] at hlen; omega)
          (fun x hx => hb x (by simp [hx])) c hc

/-! ## strings.Index and strings.Split on a shadowsocks link -/

theorem goBytes_ss : goBytes "ss://" = [115, 115, 58, 47, 47] := by decide

theorem goBytes_at : goBytes "@" = [64] := by decide

/-- In a text without `@` followed by `@`, the first `@` is the one behind it. -/
theorem Index_at (r : Bytes) :
    ∀ enc : Bytes, (∀ c ∈ enc, c ≠ 64) → Index [64] (enc ++ 64 :: r) = some enc.length := by
  intro enc
  induction enc with
  | nil => intro _; simp [Index, List.isPrefixOf]
  | cons c e ih =>
    intro h
    have hc : c ≠ 64 := h c (by simp)
    have hc' : ¬ (64 = c) := fun h => hc h.symm
    have := ih (fun x hx => h x (by simp [hx]))
    simp [Index, List.isPrefixOf, hc', this]

/-- In a text without `:` followed by `@`, no occurrence of `ss://` starts
before the character behind the `@`. -/
theorem Index_ss (r : Bytes) :
    ∀ enc : Bytes, (∀ c ∈ enc, c ≠ 58) →
      (Index [115, 115, 58, 47, 47] (enc ++ 64 :: r) = none ∨
        ∃ m, Index [115, 115, 58, 47, 47] (enc ++ 64 :: r) = some m ∧ enc.length + 1 ≤ m) := by
  intro enc
  induction enc with
  | nil =>
    intro _
    cases h : Index [115, 115, 58, 47, 47] r with
    | none => left; simp [Index, List.isPrefixOf, h]
    | some m => right; exact ⟨m + 1, by simp [Index, List.isPrefixOf, h], by simp⟩
  | cons c e ih =>
    intro h
    have hrec := ih (fun x hx => h x (by simp [hx]))
    have hnot : List.isPrefixOf [115, 115, 58, 47, 47] (c :: e ++ 64 :: r) = false := by
      match e, h with
      | [], _ => simp [List.isPrefixOf]
      | [d], _ => simp [List.isPrefixOf]
      | d :: f :: e', h =>
        have hf : f ≠ 58 := h f (by simp)
        have hf' : ¬ (58 = f) := fun h => hf h.symm
        simp [List.isPrefixOf, hf']
    rcases hrec with hr | ⟨m, hm, hle⟩
    · left
      simp only [List.cons_append] at hnot ⊢
      simp [Index, hnot, hr]
    · right
      refine ⟨m + 1, ?_, by simp only [List.length_cons]; omega⟩
      simp only [List.cons_append] at hnot ⊢
      simp [Index, hnot, hm]

/-- The two `strings.Split` calls of `parseShadowsocksConfig` cut the encoded
part out of a link `ss://` + encoded part + `@` + anything, as long as the
encoded part holds no `:` and no `@`. -/
theorem Split_link (enc rest : Bytes) (henc : ∀ c ∈ enc, c ≠ 58 ∧ c ≠ 64) :
    (Split (goBytes "ss://" ++ enc ++ goBytes "@" ++ rest) (goBytes "ss://")).length > 1 ∧
    (Split ((Split (goBytes "ss://" ++ enc ++ goBytes "@" ++ rest) (goBytes "ss://")).getD 1 [])
      (goBytes "@")).getD 0 [] = enc := by
  rw [goBytes_ss, goBytes_at]
  have hlink : [115, 115, 58, 47, 47] ++ enc ++ [64] ++ rest
      = 115 :: 115 :: 58 :: 47 :: 47 :: (enc ++ 64 :: rest) := by simp
  rw [hlink]
  have hsplit : Split (115 :: 115 :: 58 :: 47 :: 47 :: (enc ++ 64 :: rest)) [115, 115, 58, 47, 47]
      = [] :: splitLoop [115, 115, 58, 47, 47] (enc ++ 64 :: rest).length.succ.succ.succ.succ
          (enc ++ 64 :: rest) := by
    simp [Split, splitLoop, Index, List.isPrefixOf]
  rw [hsplit]
  have hfirst : ∃ r', (splitLoop [115, 115, 58, 47, 47] (enc ++ 64 :: rest).length.succ.succ.succ.succ
      (enc ++ 64 :: rest)).getD 0 [] = enc ++ 64 :: r' ∧
      0 < (splitLoop [115, 115, 58, 47, 47] (enc ++ 64 :: rest).length.succ.succ.succ.succ
      (enc ++ 64 :: rest)).length := by
    rcases Index_ss rest enc (fun c hc => (henc c hc).1) with h | ⟨m, hm, hle⟩
    · exact ⟨rest, by simp [splitLoop, h], by simp [splitLoop, h]⟩
    · refine ⟨rest.take (m - (enc.length + 1)), ?_, by simp [splitLoop, hm]⟩
      simp only [splitLoop, hm, List.getD_cons_zero]
      rw [List.take_append_eq_append_take]
      have h1 : List.take m enc = enc := List.take_of_length_le (by omega)
      have h2 : m - enc.length = (m - (enc.length + 1)) + 1 := by omega
      rw [h1, h2, List.take_succ_cons]
  obtain ⟨r', hr', hlen⟩ := hfirst
  constructor
  · simp only [List.length_cons]
    omega
  · have hget : ([] :: splitLoop [115, 115, 58, 47, 47]
        (enc ++ 64 :: rest).length.succ.succ.succ.succ (enc ++ 64 :: rest)).getD 1 []
        = enc ++ 64 :: r' := by
      rw [← hr']
      cases splitLoop [115, 115, 58, 47, 47] (enc ++ 64 :: rest).length.succ.succ.succ.succ
        (enc ++ 64 :: rest) <;> rfl
    rw [hget]
    have hidx := Index_at r' enc (fun c hc => (henc c hc).2)
    have hl : (enc ++ 64 :: r').length = (enc.length + r'.length).succ := by
      simp only [List.length_append, List.length_cons]
      omega
    simp only [Split, hl, splitLoop, hidx, List.getD_cons_zero]
    simp


/-! ## parseShadowsocksConfig -/

/-- A text encoded with the standard or the URL-safe alphabet holds no line
break, no `:` and no `@`. -/
theorem EncodeToString_plain (B : Bytes) (hB : B = stdAlphabet ∨ B = urlAlphabet) (bs : Bytes)
    (hb : ∀ b ∈ bs, b < 256) :
    ∀ c ∈ EncodeToString B bs, c ≠ 10 ∧ c ≠ 13 ∧ c ≠ 58 ∧ c ≠ 64 := by
  intro c hc
  rcases mem_EncodeToString B bs.length bs (le_refl _) hb c hc with rfl | ⟨v, hv, rfl⟩
  · decide
  · rcases hB with rfl | rfl
    · have := encodeSym_std_plain v hv
      exact ⟨this.2.1, this.2.2.1, this.2.2.2.1, this.2.2.2.2⟩
    · have := encodeSym_url_plain v hv
      exact ⟨this.2.1, this.2.2.1, this.2.2.2.1, this.2.2.2.2⟩

/-- The line-break filter of `DecodeString` leaves an encoded text as it is. -/
theorem DecodeString_EncodeToString (A B : Bytes) (hB : B = stdAlphabet ∨ B = urlAlphabet)
    (bs : Bytes) (hb : ∀ b ∈ bs, b < 256) :
    DecodeString A (EncodeToString B bs) = decodeQuanta A (EncodeToString B bs) := by
  unfold DecodeString
  congr 1
  apply List.filter_eq_self.mpr
  intro c hc
  have := EncodeToString_plain B hB bs hb c hc
  simp [this.1, this.2.1]

/-- The two decoding attempts of `parseShadowsocksConfig` (standard alphabet
first, URL-safe alphabet if that fails) give back the bytes of a padded text
of either alphabet. -/
theorem decode_attempts_padded (B : Bytes) (hB : B = stdAlphabet ∨ B = urlAlphabet) (bs : Bytes)
    (hb : ∀ b ∈ bs, b < 256) :
    (match DecodeString stdAlphabet (EncodeToString B bs) with
      | some d => some d
      | none => DecodeString urlAlphabet (EncodeToString B bs)) = some bs := by
  rw [DecodeString_EncodeToString stdAlphabet B hB bs hb,
    DecodeString_EncodeToString urlAlphabet B hB bs hb]
  rcases hB with rfl | rfl
  · have h := decodeQuanta_encode stdAlphabet stdAlphabet
      (fun v hv => Or.inl (decodeSym_std_std v hv)) decodeSym_pad.1
      (fun v hv => (encodeSym_std_plain v hv).1) bs.length bs (le_refl _) hb
    rcases h with h | ⟨_, v, hv, hnone⟩
    · rw [h]
    · rw [decodeSym_std_std v hv] at hnone
      cases hnone
  · have hurl : decodeQuanta urlAlphabet (EncodeToString urlAlphabet bs) = some bs := by
      have h := decodeQuanta_encode urlAlphabet urlAlphabet
        (fun v hv => Or.inl (decodeSym_url_url v hv)) decodeSym_pad.2
        (fun v hv => (encodeSym_url_plain v hv).1) bs.length bs (le_refl _) hb
      rcases h with h | ⟨_, v, hv, hnone⟩
      · exact h
      · rw [decodeSym_url_url v hv] at hnone
        cases hnone
    have h := decodeQuanta_encode stdAlphabet urlAlphabet decodeSym_std_url decodeSym_pad.1
      (fun v hv => (encodeSym_url_plain v hv).1) bs.length bs (le_refl _) hb
    rcases h with h | ⟨h, _⟩
    · rw [h]
    · rw [h]
      exact hurl

/-- Cutting `method:password` at its first `:` when the method holds none. -/
theorem cut_at_colon (method password : Bytes) (hm : 58 ∉ method) :
    58 ∈ method ++ 58 :: password ∧
    (method ++ 58 :: password).take ((method ++ 58 :: password).indexOf 58) = method ∧
    (method ++ 58 :: password).drop ((method ++ 58 :: password).indexOf 58 + 1) = password := by
  have hidx : (method ++ 58 :: password).indexOf 58 = method.length := by
    induction method with
    | nil => simp
    | cons a m ih =>
      have ha : a ≠ 58 := fun h => hm (by simp [h])
      have hm' : 58 ∉ m := fun h => hm (by simp [h])
      simp only [List.cons_append, List.length_cons]
      rw [List.indexOf_cons_ne _ ha, ih hm']
  refine ⟨by simp, ?_, ?_⟩
  · rw [hidx]
    simp
  · rw [hidx]
    simp

/-- Padded links are parsed: for a link `ss://` + the padded base64 text of
`method:password` in the standard or the URL-safe alphabet + `@` + anything,
where the method holds no `:`, `parseShadowsocksConfig` returns that method
and that password. -/
theorem parseShadowsocksConfig_padded (B : Bytes) (hB : B = stdAlphabet ∨ B = urlAlphabet)
    (method password rest : Bytes) (hm : 58 ∉ method)
    (hmb : ∀ b ∈ method, b < 256) (hpb : ∀ b ∈ password, b < 256) :
    parseShadowsocksConfig
      (goBytes "ss://" ++ EncodeToString B (method ++ 58 :: password) ++ goBytes "@" ++ rest)
      = ⟨method, password⟩ := by
  have hb : ∀ b ∈ method ++ 58 :: password, b < 256 := by
    intro b hbm
    rcases List.mem_append.mp hbm with h | h
    · exact hmb b h
    · rcases List.mem_cons.mp h with rfl | h
      · decide
      · exact hpb b h
  have hsplit := Split_link (EncodeToString B (method ++ 58 :: password)) rest
    (fun c hc => (EncodeToString_plain B hB _ hb c hc).2.2)
  have hdec := decode_attempts_padded B hB (method ++ 58 :: password) hb
  have hcut := cut_at_colon method password hm
  unfold parseShadowsocksConfig
  simp only [hsplit.1, hsplit.2, hdec, hcut.1, hcut.2.1, hcut.2.2, if_true]

theorem parseShadowsocksConfig_padded_witness :
    parseShadowsocksConfig
      (goBytes "ss://" ++ EncodeToString urlAlphabet (goBytes "aes-256-gcm" ++ 58 :: goBytes "p\x7e\x7e")
        ++ goBytes "@" ++ goBytes "1.2.3.4:8388")
      = ⟨goBytes "aes-256-gcm", goBytes "p\x7e\x7e"⟩ :=
  parseShadowsocksConfig_padded urlAlphabet (Or.inr rfl) (goBytes "aes-256-gcm") (goBytes "p\x7e\x7e")
    (goBytes "1.2.3.4:8388") (by decide) (by decide) (by decide)


/-- The text without padding of a byte string whose length is no multiple of
three is not made of whole quanta. -/
theorem EncodeRaw_length (B : Bytes) (hplain : ∀ v, v < 64 → encodeSym B v ≠ 61) :
    ∀ (n : Nat) (bs : Bytes), bs.length ≤ n → (∀ b ∈ bs, b < 256) → bs.length % 3 ≠ 0 →
      (EncodeRaw B bs).length % 4 ≠ 0 := by
  intro n
  induction n with
  | zero =>
    intro bs hlen _ h3
    have : bs = [] := List.length_eq_zero.mp (by omega)
    subst this
    simp at h3
  | succ n ih =>
    intro bs hlen hb h3
    match bs, hlen, hb, h3 with
    | [], _, _, h3 => simp at h3
    | [a], _, hb, _ =>
      have ha : a < 256 := hb a (by simp)
      have h0 := hplain (a / 4) (by omega)
      have h1 := hplain (a % 4 * 16) (by omega)
      simp [EncodeRaw, EncodeToString, List.filter_cons, h0, h1]
    | [a, b], _, hb, _ =>
      have ha : a < 256 := hb a (by simp)
      have hb' : b < 256 := hb b (by simp)
      have h0 := hplain (a / 4) (by omega)
      have h1 := hplain (a % 4 * 16 + b / 16) (by omega)
      have h2 := hplain (b % 16 * 4) (by omega)
      simp [EncodeRaw, EncodeToString, List.filter_cons, h0, h1, h2]
    | a :: b :: c :: rest, hlen, hb, h3 =>
      have ha : a < 256 := hb a (by simp)
      have hb' : b < 256 := hb b (by simp)
      have hc : c < 256 := hb c (by simp)
      have h0 := hplain (a / 4) (by omega)
      have h1 := hplain (a % 4 * 16 + b / 16) (by omega)
      have h2 := hplain (b % 16 * 4 + c / 64) (by omega)
      have h3' := hplain (c % 64) (by omega)
      simp only [List.length_cons] at hlen h3
      have hrec := ih rest (by omega) (fun x hx => hb x (by simp [hx])) (by omega)
      have hraw : EncodeRaw B (a :: b :: c :: rest)
          = encodeSym B (a / 4) :: encodeSym B (a % 4 * 16 + b / 16) ::
            encodeSym B (b % 16 * 4 + c / 64) :: encodeSym B (c % 64) :: EncodeRaw B rest := by
        simp [EncodeRaw, EncodeToString, List.filter_cons, h0, h1, h2, h3']
      rw [hraw]
      simp only [List.length_cons]
      omega

/-- Links without padding are not parsed: for a link `ss://` + the base64
text without padding of a byte string whose length is no multiple of three
(either alphabet) + `@` + anything, both decoding attempts of
`parseShadowsocksConfig` fail and it returns the built-in placeholders. -/
theorem parseShadowsocksConfig_unpadded (B : Bytes) (hB : B = stdAlphabet ∨ B = urlAlphabet)
    (bs rest : Bytes) (hb : ∀ b ∈ bs, b < 256) (h3 : bs.length % 3 ≠ 0) :
    parseShadowsocksConfig (goBytes "ss://" ++ EncodeRaw B bs ++ goBytes "@" ++ rest)
      = ⟨goBytes "chacha20-ietf-poly1305", goBytes "example"⟩ := by
  have hmem : ∀ c ∈ EncodeRaw B bs, c ≠ 10 ∧ c ≠ 13 ∧ c ≠ 58 ∧ c ≠ 64 := by
    intro c hc
    exact EncodeToString_plain B hB bs hb c (List.mem_filter.mp hc).1
  have hplain : ∀ v, v < 64 → encodeSym B v ≠ 61 := by
    rcases hB with rfl | rfl
    · exact fun v hv => (encodeSym_std_plain v hv).1
    · exact fun v hv => (encodeSym_url_plain v hv).1
  have hlen := EncodeRaw_length B hplain bs.length bs (le_refl _) hb h3
  have hfilter : (EncodeRaw B bs).filter (fun c => decide (c ≠ 10 ∧ c ≠ 13)) = EncodeRaw B bs := by
    apply List.filter_eq_self.mpr
    intro c hc
    have := hmem c hc
    simp [this.1, this.2.1]
  have hnone : ∀ A, DecodeString A (EncodeRaw B bs) = none := by
    intro A
    unfold DecodeString
    rw [hfilter]
    cases hd : decodeQuanta A (EncodeRaw B bs) with
    | none => rfl
    | some d => exact absurd (decodeQuanta_length A _ _ (le_refl _) d hd) hlen
  have hsplit := Split_link (EncodeRaw B bs) rest (fun c hc => (hmem c hc).2.2)
  unfold parseShadowsocksConfig
  simp only [hsplit.1, hsplit.2, hnone, if_true]

theorem parseShadowsocksConfig_unpadded_witness :
    parseShadowsocksConfig
      (goBytes "ss://" ++ EncodeRaw urlAlphabet (goBytes "aes-128-gcm:secret1") ++ goBytes "@"
        ++ goBytes "example.org:443")
      = ⟨goBytes "chacha20-ietf-poly1305", goBytes "example"⟩ :=
  parseShadowsocksConfig_unpadded urlAlphabet (Or.inr rfl) (goBytes "aes-128-gcm:secret1")
    (goBytes "example.org:443") (by decide) (by decide)

/-- C15 (counterexample): the link `ss://YWVzLTI1Ni1nY206cHc@1.2.3.4:8388` is
`ss://` followed by the base64 text without padding of `aes-256-gcm:pw`
(standard alphabet; the method holds no `:`) followed by `@1.2.3.4:8388`, and
`parseShadowsocksConfig` returns the placeholders `chacha20-ietf-poly1305`
and `example` for it, not the method `aes-256-gcm` and the password `pw`. -/
theorem parseShadowsocksConfig_unpadded_placeholder :
    goBytes linkSs
      = goBytes "ss://" ++ EncodeRaw stdAlphabet (goBytes "aes-256-gcm" ++ 58 :: goBytes "pw")
          ++ goBytes "@" ++ goBytes "1.2.3.4:8388" ∧
    58 ∉ goBytes "aes-256-gcm" ∧
    parseShadowsocksConfig (goBytes linkSs)
      = ⟨goBytes "chacha20-ietf-poly1305", goBytes "example"⟩ ∧
    parseShadowsocksConfig (goBytes linkSs) ≠ ⟨goBytes "aes-256-gcm", goBytes "pw"⟩ := by
  decide


/-! ## generateSingBoxConfig -/

/-- The candidate outbound of the engine configuration is the map `outbound`. -/
theorem candidateOutbound_generateSingBoxConfig (config : Config) (localPort : Int) :
    candidateOutbound (generateSingBoxConfig config localPort) = some (outbound config) := by
  simp [candidateOutbound, generateSingBoxConfig, getKey, setKey, List.filter_cons, List.find?_cons]

/-- Whatever the protocol, the candidate outbound carries the protocol, the
address and the port of the descriptor. -/
theorem outbound_common (config : Config) :
    getStr (outbound config) "type" = some (goBytes config.Protocol) ∧
    getStr (outbound config) "server" = some (goBytes config.Address) ∧
    getNum (outbound config) "server_port" = some config.Port := by
  unfold outbound
  simp only
  split_ifs <;>
    simp [getStr, getNum, getKey, setKey, List.filter_cons, List.find?_cons, List.find?_append]

/-- The credential of the four families the `switch` has a case for: the
identifier as `uuid` for vmess and vless, the identifier as `password` for
trojan, and for shadowsocks the method and the password that
`parseShadowsocksConfig` finds in the original link. -/
theorem outbound_credential (config : Config) :
    (config.Protocol = "vmess" ∨ config.Protocol = "vless" →
      getStr (outbound config) "uuid" = some (goBytes config.ID)) ∧
    (config.Protocol = "trojan" →
      getStr (outbound config) "password" = some (goBytes config.ID)) ∧
    (config.Protocol = "shadowsocks" →
      getStr (outbound config) "method"
        = some (parseShadowsocksConfig (goBytes config.Original)).method ∧
      getStr (outbound config) "password"
        = some (parseShadowsocksConfig (goBytes config.Original)).password) := by
  refine ⟨?_, ?_, ?_⟩
  · rintro (h | h) <;>
      simp [outbound, h, getStr, getKey, setKey, List.filter_cons, List.find?_cons,
        List.find?_append]
  · intro h
    simp [outbound, h, getStr, getKey, setKey, List.filter_cons, List.find?_cons,
      List.find?_append]
  · intro h
    simp [outbound, h, getStr, getKey, setKey, List.filter_cons, List.find?_cons,
      List.find?_append]

/-- The `switch` has no case for shadowsocksr: the candidate outbound of such
a descriptor holds the four common entries and nothing else. -/
theorem outbound_shadowsocksr (config : Config) (h : config.Protocol = "shadowsocksr") :
    keys (outbound config) = ["type", "tag", "server", "server_port"] := by
  simp [outbound, h, keys]

/-- C11 (counterexample): for the shadowsocksr descriptor `configSsr`, the one
the parser makes of the link `linkSsr`, and the local port 10808, the
candidate outbound built by `generateSingBoxConfig` holds the entries `type`,
`tag`, `server` and `server_port` only: it carries no cipher method and no
password. -/
theorem generateSingBoxConfig_shadowsocksr_no_credential :
    parseShadowsocksr linkSsr = Except.ok configSsr ∧
    (candidateOutbound (generateSingBoxConfig configSsr 10808)).map keys
      = some ["type", "tag", "server", "server_port"] ∧
    (candidateOutbound (generateSingBoxConfig configSsr 10808)).map
      (fun o => (getStr o "type", getStr o "method", getStr o "password"))
      = some (some (goBytes "shadowsocksr"), none, none) := by
  refine ⟨rfl, ?_, ?_⟩
  · rw [candidateOutbound_generateSingBoxConfig]
    rfl
  · rw [candidateOutbound_generateSingBoxConfig]
    rfl

/-- On a shadowsocks descriptor with a padded link and on a trojan descriptor
the candidate outbound carries the credential. -/
theorem generateSingBoxConfig_examples :
    (candidateOutbound (generateSingBoxConfig configSsPadded 10808)).map
      (fun o => (getStr o "method", getStr o "password"))
      = some (some (goBytes "aes-256-gcm"), some (goBytes "pw")) ∧
    (candidateOutbound (generateSingBoxConfig configTrojan 10808)).map
      (fun o => (getStr o "password", getNum o "server_port"))
      = some (some (goBytes "secret"), some 443) := by
  rw [candidateOutbound_generateSingBoxConfig, candidateOutbound_generateSingBoxConfig]
  constructor <;> decide


/-- C11 (amended): for every descriptor and every local port,
`generateSingBoxConfig` builds a candidate outbound that carries the
protocol, the address and the port of the descriptor. Its credential is
`uuid` = ID for vmess and vless and `password` = ID for trojan. For
shadowsocks it is the cipher method and the password that
`parseShadowsocksConfig` takes from the original link, which are the ones
encoded there whenever the link is `ss://` + the padded base64 text of
`method:password` (either alphabet, no `:` in the method) + `@` + the rest.
For shadowsocksr the outbound holds `type`, `tag`, `server` and
`server_port` only, so no credential. -/
theorem generateSingBoxConfig_outbound_fields (config : Config) (localPort : Int) :
    ∃ o, candidateOutbound (generateSingBoxConfig config localPort) = some o ∧
      getStr o "type" = some (goBytes config.Protocol) ∧
      getStr o "server" = some (goBytes config.Address) ∧
      getNum o "server_port" = some config.Port ∧
      (config.Protocol = "vmess" ∨ config.Protocol = "vless" →
        getStr o "uuid" = some (goBytes config.ID)) ∧
      (config.Protocol = "trojan" → getStr o "password" = some (goBytes config.ID)) ∧
      (config.Protocol = "shadowsocks" →
        getStr o "method" = some (parseShadowsocksConfig (goBytes config.Original)).method ∧
        getStr o "password" = some (parseShadowsocksConfig (goBytes config.Original)).password ∧
        ∀ (B method password rest : Bytes), B = stdAlphabet ∨ B = urlAlphabet → 58 ∉ method →
          (∀ b ∈ method, b < 256) → (∀ b ∈ password, b < 256) →
          goBytes config.Original
            = goBytes "ss://" ++ EncodeToString B (method ++ 58 :: password) ++ goBytes "@" ++ rest →
          getStr o "method" = some method ∧ getStr o "password" = some password) ∧
      (config.Protocol = "shadowsocksr" →
        keys o = ["type", "tag", "server", "server_port"] ∧
        getStr o "method" = none ∧ getStr o "password" = none) := by
  refine ⟨outbound config, candidateOutbound_generateSingBoxConfig config localPort,
    (outbound_common config).1, (outbound_common config).2.1, (outbound_common config).2.2,
    (outbound_credential config).1, (outbound_credential config).2.1, ?_, ?_⟩
  · intro h
    have hc := (outbound_credential config).2.2 h
    refine ⟨hc.1, hc.2, ?_⟩
    intro B method password rest hB hm hmb hpb horig
    have hp := parseShadowsocksConfig_padded B hB method password rest hm hmb hpb
    rw [← horig] at hp
    rw [hc.1, hc.2, hp]
    exact ⟨rfl, rfl⟩
  · intro h
    refine ⟨outbound_shadowsocksr config h, ?_, ?_⟩ <;>
      simp [outbound, h, getStr, getKey, List.find?_cons]

theorem generateSingBoxConfig_outbound_fields_witness :
    ∃ o, candidateOutbound (generateSingBoxConfig configSsPadded 10808) = some o ∧
      getStr o "type" = some (goBytes "shadowsocks") ∧
      getStr o "server" = some (goBytes "1.2.3.4") ∧
      getNum o "server_port" = some 8388 ∧
      getStr o "method" = some (goBytes "aes-256-gcm") ∧
      getStr o "password" = some (goBytes "pw") := by
  obtain ⟨o, ho, htype, hserver, hport, _, _, hss, _⟩ :=
    generateSingBoxConfig_outbound_fields configSsPadded 10808
  have hcred := (hss rfl).2.2 stdAlphabet (goBytes "aes-256-gcm") (goBytes "pw")
    (goBytes "1.2.3.4:8388") (Or.inl rfl) (by decide) (by decide) (by decide) (by decide)
  exact ⟨o, ho, htype, hserver, hport, hcred.1, hcred.2⟩


/-- The text without padding of a byte string whose length is a multiple of
three is the padded text: there is nothing to pad. -/
theorem EncodeRaw_whole (B : Bytes) (hplain : ∀ v, v < 64 → encodeSym B v ≠ 61) :
    ∀ (n : Nat) (bs : Bytes), bs.length ≤ n → (∀ b ∈ bs, b < 256) → bs.length % 3 = 0 →
      EncodeRaw B bs = EncodeToString B bs := by
  intro n
  induction n with
  | zero =>
    intro bs hlen _ _
    have : bs = [] := List.length_eq_zero.mp (by omega)
    subst this
    rfl
  | succ n ih =>
    intro bs hlen hb h3
    match bs, hlen, hb, h3 with
    | [], _, _, _ => rfl
    | [_], _, _, h3 => simp at h3
    | [_, _], _, _, h3 => simp at h3
    | a :: b :: c :: rest, hlen, hb, h3 =>
      have ha : a < 256 := hb a (by simp)
      have hb' : b < 256 := hb b (by simp)
      have hc : c < 256 := hb c (by simp)
      have h0 := hplain (a / 4) (by omega)
      have h1 := hplain (a % 4 * 16 + b / 16) (by omega)
      have h2 := hplain (b % 16 * 4 + c / 64) (by omega)
      have h3' := hplain (c % 64) (by omega)
      simp only [List.length_cons] at hlen h3
      have hrec := ih rest (by omega) (fun x hx => hb x (by simp [hx])) (by omega)
      have hraw : EncodeRaw B (a :: b :: c :: rest)
          = encodeSym B (a / 4) :: encodeSym B (a % 4 * 16 + b / 16) ::
            encodeSym B (b % 16 * 4 + c / 64) :: encodeSym B (c % 64) :: EncodeRaw B rest := by
        simp [EncodeRaw, EncodeToString, List.filter_cons, h0, h1, h2, h3']
      rw [hraw, hrec]
      rfl

/-- C15 (amended): for every cipher method containing no `:` and every
password, if the link is `ss://` followed by the base64 text of
`method:password` in the standard or the URL-safe alphabet, with its `=`
padding, followed by `@` and the rest, then `parseShadowsocksConfig` returns
exactly that method and that password. For the text without padding it does
so when `method:password` has a length that is a multiple of three (no
padding is due), and it returns the placeholders `chacha20-ietf-poly1305`
and `example` otherwise. -/
theorem parseShadowsocksConfig_padding (B : Bytes) (hB : B = stdAlphabet ∨ B = urlAlphabet)
    (method password rest : Bytes) (hm : 58 ∉ method)
    (hmb : ∀ b ∈ method, b < 256) (hpb : ∀ b ∈ password, b < 256) :
    parseShadowsocksConfig
      (goBytes "ss://" ++ EncodeToString B (method ++ 58 :: password) ++ goBytes "@" ++ rest)
      = ⟨method, password⟩ ∧
    ((method ++ 58 :: password).length % 3 = 0 →
      parseShadowsocksConfig
        (goBytes "ss://" ++ EncodeRaw B (method ++ 58 :: password) ++ goBytes "@" ++ rest)
        = ⟨method, password⟩) ∧
    ((method ++ 58 :: password).length % 3 ≠ 0 →
      parseShadowsocksConfig
        (goBytes "ss://" ++ EncodeRaw B (method ++ 58 :: password) ++ goBytes "@" ++ rest)
        = ⟨goBytes "chacha20-ietf-poly1305", goBytes "example"⟩) := by
  have hb : ∀ b ∈ method ++ 58 :: password, b < 256 := by
    intro b hbm
    rcases List.mem_append.mp hbm with h | h
    · exact hmb b h
    · rcases List.mem_cons.mp h with rfl | h
      · decide
      · exact hpb b h
  have hplain : ∀ v, v < 64 → encodeSym B v ≠ 61 := by
    rcases hB with rfl | rfl
    · exact fun v hv => (encodeSym_std_plain v hv).1
    · exact fun v hv => (encodeSym_url_plain v hv).1
  have hpadded := parseShadowsocksConfig_padded B hB method password rest hm hmb hpb
  refine ⟨hpadded, ?_, ?_⟩
  · intro h3
    rw [EncodeRaw_whole B hplain _ _ (le_refl _) hb h3]
    exact hpadded
  · intro h3
    exact parseShadowsocksConfig_unpadded B hB _ rest hb h3

theorem parseShadowsocksConfig_padding_witness :
    parseShadowsocksConfig
      (goBytes "ss://" ++ EncodeToString urlAlphabet (goBytes "aes-256-gcm" ++ 58 :: goBytes "pw")
        ++ goBytes "@" ++ goBytes "1.2.3.4:8388")
      = ⟨goBytes "aes-256-gcm", goBytes "pw"⟩ ∧
    parseShadowsocksConfig
      (goBytes "ss://" ++ EncodeRaw urlAlphabet (goBytes "aes-256-gcm" ++ 58 :: goBytes "pw")
        ++ goBytes "@" ++ goBytes "1.2.3.4:8388")
      = ⟨goBytes "chacha20-ietf-poly1305", goBytes "example"⟩ :=
  ⟨(parseShadowsocksConfig_padding urlAlphabet (Or.inr rfl) (goBytes "aes-256-gcm") (goBytes "pw")
      (goBytes "1.2.3.4:8388") (by decide) (by decide) (by decide)).1,
    (parseShadowsocksConfig_padding urlAlphabet (Or.inr rfl) (goBytes "aes-256-gcm") (goBytes "pw")
      (goBytes "1.2.3.4:8388") (by decide) (by decide) (by decide)).2.2 (by decide)⟩

end ConfigRefinery
